import Mathlib

/-!
Verification of the prefix provisioning and upgrade engine of `proton.py`
(Proton-XR).  The Python functions that the claims concern are shallowly
embedded below: paths are character lists manipulated exactly as the Python
code manipulates its strings, the filesystem is a finite association list
from normalised paths to nodes (regular file with byte content, symbolic
link with a raw target string, or directory), and every mutating operation
is an executable function on that state.  Fallible operations return
`Option` (with `none` standing for a propagated exception); operations whose
Python counterparts swallow their errors are total.

Modelling notes (each noted again at the definition it concerns):
* symbolic links are resolved on final path components (chains included);
  intermediate directory components are looked up literally, which matches
  the states exercised here (none has a symlinked intermediate directory on
  an examined path);
* file ownership and permission bits, modification times, the ext4 casefold
  ioctl and the advisory file locks are not represented; `getmtimestr`
  anchor values enter through the session environment record;
* `os.walk` is materialised eagerly from the state at the point of the call,
  which agrees with the lazy Python generator because every caller walks a
  subtree it does not modify.
-/

set_option autoImplicit false
set_option linter.unusedVariables false

/-- Python strings are modelled as character lists. -/
abbrev Str := List Char

/-- Shorthand turning a Lean string literal into the model's string type. -/
def S (s : String) : Str := s.data

/-- Auxiliary splitter: split on a separator character, keeping empty parts,
exactly like Python's `str.split(sep)` with an explicit one-character
separator. -/
def splitChAux (sep : Char) : Str → Str → List Str
  | [], acc => [acc.reverse]
  | c :: cs, acc =>
      if c = sep then acc.reverse :: splitChAux sep cs []
      else splitChAux sep cs (c :: acc)

/-- Python `s.split(sep)` for a one-character separator. -/
def pySplit (s : Str) (sep : Char) : List Str := splitChAux sep s []

/-- Whitespace recognised by Python's `str.strip` (the subset that can occur
in the files handled here). -/
def isSpaceCh (c : Char) : Bool := c = ' ' || c = '\t' || c = '\n' || c = '\r'

/-- Python `s.strip()`. -/
def pyStrip (s : Str) : Str :=
  ((s.dropWhile isSpaceCh).reverse.dropWhile isSpaceCh).reverse

/-- Python `s.rstrip()`. -/
def pyRstrip (s : Str) : Str := (s.reverse.dropWhile isSpaceCh).reverse

/-- Python `s.lstrip('/')`. -/
def lstripSlash : Str → Str
  | [] => []
  | c :: cs => if c = '/' then lstripSlash cs else c :: cs

/-- Python substring test `pat in s`. -/
def containsSub (s pat : Str) : Bool :=
  (List.range (s.length + 1)).any (fun i => pat.isPrefixOf (s.drop i))

/-- Index of the first occurrence of `pat` in `s` (Python `s.find(pat)`
restricted to the found case). -/
def findSub (s pat : Str) : Option Nat :=
  (List.range (s.length + 1)).find? (fun i => pat.isPrefixOf (s.drop i))

/-- Python `s.replace(old, new, 1)`. -/
def pyReplaceOnce (s old new : Str) : Str :=
  match findSub s old with
  | none => s
  | some i => s.take i ++ new ++ s.drop (i + old.length)

/-- Python `s.replace(old, new)` (all occurrences, left to right).  The
recursion consumes at least one character of `s` per step when `old` is
nonempty; an empty `old` is returned unchanged (that case never occurs in
the embedded code). -/
def pyReplaceAll : Str → Str → Str → Str
  | s, [], _ => s
  | [], _, _ => []
  | c :: cs, o :: os, new =>
      if (o :: os).isPrefixOf (c :: cs) then
        new ++ pyReplaceAll ((c :: cs).drop (o :: os).length) (o :: os) new
      else
        c :: pyReplaceAll cs (o :: os) new
  termination_by s old _ => s.length + old.length
  decreasing_by
    all_goals simp [List.length_drop]
    all_goals omega

/-- Position of the last `'/'` in `s`, if any. -/
def lastSlashIdx (s : Str) : Option Nat :=
  ((List.range s.length).filter (fun i => s.get? i = some '/')).getLast?

/-- Python `os.path.dirname`. -/
def dirnameStr (s : Str) : Str :=
  match lastSlashIdx s with
  | none => []
  | some i =>
      let head := s.take (i + 1)
      if head.all (fun c => c = '/') then head
      else (head.reverse.dropWhile (fun c => c = '/')).reverse

/-- Python `os.path.basename`. -/
def basenameStr (s : Str) : Str :=
  match lastSlashIdx s with
  | none => s
  | some i => s.drop (i + 1)

/-- Python `os.path.join` for two components. -/
def joinPath (a b : Str) : Str :=
  if b.head? = some '/' then b
  else if a = [] || a.getLast? = some '/' then a ++ b
  else a ++ '/' :: b

/-- Normalise a component list: drop empty and `"."` components and resolve
`".."` against the accumulated absolute stack (the paths fed to the
filesystem are all absolute). -/
def normComps : List Str → List Str → List Str
  | [], acc => acc.reverse
  | c :: cs, acc =>
      if c = [] ∨ c = S "." then normComps cs acc
      else if c = S ".." then normComps cs acc.tail
      else normComps cs (c :: acc)

/-- A filesystem key: the normalised components of an absolute path. -/
abbrev Key := List Str

/-- Normalised key of a path string. -/
def normKey (s : Str) : Key := normComps (pySplit s '/') []

/-- Join components back into an absolute path string. -/
def joinComps (cs : List Str) : Str :=
  match cs with
  | [] => []
  | c :: rest => rest.foldl (fun a b => a ++ '/' :: b) c

/-- Python `os.path.normpath`, restricted to the absolute paths it is applied
to in the embedded code (relative inputs are returned via the same component
normalisation). -/
def normpathStr (s : Str) : Str :=
  let comps := normComps (pySplit s '/') []
  if s.head? = some '/' then '/' :: joinComps comps
  else if comps = [] then S "." else joinComps comps

/-- Decimal digit run to a number, `none` when empty or non-digit. -/
def digitsToNat : Str → Option Nat
  | [] => none
  | cs =>
      if cs.all (fun c => c.isDigit) then
        some (cs.foldl (fun n c => n * 10 + (c.toNat - 48)) 0)
      else none

/-- Python `int(s)` on the string shapes occurring here: optional sign and
decimal digits after stripping whitespace; everything else raises
`ValueError`, modelled as `none`. -/
def pyInt (s : Str) : Option Int :=
  match pyStrip s with
  | '-' :: rest => (digitsToNat rest).map (fun n => -(n : Int))
  | '+' :: rest => (digitsToNat rest).map (fun n => (n : Int))
  | t => (digitsToNat t).map (fun n => (n : Int))

/-- ASCII bytes of a string. -/
def strBytes (s : Str) : List Nat := s.map Char.toNat

/-- Bytes back to characters (the files read line-wise contain ASCII). -/
def bytesToStr (bs : List Nat) : Str := bs.map Char.ofNat

/-- The lines of a text file's bytes, without their newline terminators: a
trailing newline does not open a final empty line, matching Python file-line
iteration. -/
def linesOfBytes (bs : List Nat) : List Str :=
  let parts := splitChAux '\n' (bytesToStr bs) []
  match parts.getLast? with
  | some [] => parts.dropLast
  | _ => parts

/-- First line of a file's bytes (Python `f.readline()` without the
terminator). -/
def firstLineOf (bs : List Nat) : Str := (bytesToStr bs).takeWhile (fun c => c ≠ '\n')

/-- `fnmatch.fnmatch` for the pattern forms used by the DLL-copy list:
literals, `*` and `?` (no character classes occur in them). -/
def globMatch : Str → Str → Bool
  | [], [] => true
  | [], _ :: _ => false
  | '*' :: p, s =>
      globMatch p s ||
        (match s with
         | [] => false
         | _ :: s2 => globMatch ('*' :: p) s2)
  | '?' :: p, s =>
      (match s with
       | [] => false
       | _ :: s2 => globMatch p s2)
  | c :: p, s =>
      (match s with
       | [] => false
       | d :: s2 => c = d && globMatch p s2)
  termination_by p s => p.length + s.length

/-- A filesystem node. -/
inductive Node where
  | file (bytes : List Nat)
  | link (target : Str)
  | dir
  deriving DecidableEq

/-- The filesystem: an association list from keys to nodes (keys are unique
in all states built here). -/
abbrev FS := List (Key × Node)

/-- Look up the node bound at a key (first binding wins; the states built
here bind each key once). -/
def lookupK : FS → Key → Option Node
  | [], _ => none
  | e :: fs, k => if e.1 = k then some e.2 else lookupK fs k

/-- Bind a key, replacing in place when it is already bound. -/
def fsSet (fs : FS) (k : Key) (n : Node) : FS :=
  match fs with
  | [] => [(k, n)]
  | e :: rest => if e.1 = k then (k, n) :: rest else e :: fsSet rest k n

/-- Remove a key's binding. -/
def fsDel (fs : FS) (k : Key) : FS := fs.filter (fun e => ¬ e.1 = k)

/-- Remove a key and everything below it (`shutil.rmtree`). -/
def fsDelTree (fs : FS) (k : Key) : FS := fs.filter (fun e => ¬ k.isPrefixOf e.1)

/-- `os.path.lexists`. -/
def lexistsB (fs : FS) (p : Str) : Bool := (lookupK fs (normKey p)).isSome

/-- `os.path.islink`. -/
def islinkB (fs : FS) (p : Str) : Bool :=
  match lookupK fs (normKey p) with
  | some (.link _) => true
  | _ => false

/-- `os.readlink` (empty for non-links, which the embedded code never asks). -/
def readlinkStr (fs : FS) (p : Str) : Str :=
  match lookupK fs (normKey p) with
  | some (.link t) => t
  | _ => []

/-- Resolve a symlink target the way the kernel does for a final component:
absolute targets restart from the root, relative ones are joined to the
link's directory. -/
def resolveLinkTarget (p t : Str) : Str :=
  if t.head? = some '/' then t else joinPath (dirnameStr p) t

/-- Follow the chain of final-component links at `p` down to a non-link
node, with fuel bounding the chain length (exhaustion models `ELOOP`,
i.e. a path that does not exist). -/
def resolveNode (fs : FS) : Nat → Str → Option (Key × Node)
  | 0, _ => none
  | fuel + 1, p =>
      match lookupK fs (normKey p) with
      | none => none
      | some (.link t) => resolveNode fs fuel (resolveLinkTarget p t)
      | some n => some (normKey p, n)

/-- Fuel that always suffices to follow a link chain in `fs`. -/
def resolveFuel (fs : FS) : Nat := fs.length + 1

/-- `os.path.exists` (follows links). -/
def existsB (fs : FS) (p : Str) : Bool := (resolveNode fs (resolveFuel fs) p).isSome

/-- `os.path.isfile` (follows links). -/
def isfileB (fs : FS) (p : Str) : Bool :=
  match resolveNode fs (resolveFuel fs) p with
  | some (_, .file _) => true
  | _ => false

/-- `os.path.isdir` (follows links). -/
def isdirB (fs : FS) (p : Str) : Bool :=
  match resolveNode fs (resolveFuel fs) p with
  | some (_, .dir) => true
  | _ => false

/-- `os.path.samefile` on two paths that both resolve (its only use is
guarded by an existence check). -/
def samefileB (fs : FS) (a b : Str) : Bool :=
  match resolveNode fs (resolveFuel fs) a, resolveNode fs (resolveFuel fs) b with
  | some (k1, _), some (k2, _) => k1 = k2
  | _, _ => false

/-- Open a path for reading and return its bytes; `none` models the raised
`IOError`/`OSError` for a missing path or a directory. -/
def openBytes (fs : FS) (p : Str) : Option (List Nat) :=
  match resolveNode fs (resolveFuel fs) p with
  | some (_, .file bs) => some bs
  | _ => none

/-- `os.remove` / `os.unlink`: removes the binding itself (a link is not
followed); raises when nothing is bound. -/
def removeOp (fs : FS) (p : Str) : Option FS :=
  if lexistsB fs p then some (fsDel fs (normKey p)) else none

/-- `os.rmdir`: succeeds only on an empty bound directory; every other case
raises `OSError`. -/
def rmdirOp (fs : FS) (p : Str) : Option FS :=
  let k := normKey p
  match lookupK fs k with
  | some .dir =>
      if fs.any (fun e => k.isPrefixOf e.1 ∧ ¬ e.1 = k) then none
      else some (fsDel fs k)
  | _ => none

/-- `shutil.rmtree`: raises unless the path is a directory. -/
def rmtreeOp (fs : FS) (p : Str) : Option FS :=
  if isdirB fs p then some (fsDelTree fs (normKey p)) else none

/-- `os.symlink(target, linkpath)`: raises when the link path is already
bound.  (Parent-directory existence is not enforced by the model; every
caller creates the parent first.) -/
def symlinkOp (fs : FS) (target linkpath : Str) : Option FS :=
  if lexistsB fs linkpath then none
  else some (fsSet fs (normKey linkpath) (.link target))

/-- All ancestor keys of a key, shortest first, the key itself included. -/
def ancestorsOf (k : Key) : List Key :=
  (List.range k.length).map (fun i => k.take (i + 1))

/-- `os.makedirs(path)`: creates the key and its missing ancestors as
directories; raises when the key is already bound or some ancestor is bound
to a non-directory. -/
def rawMakedirs (fs : FS) (p : Str) : Option FS :=
  let k := normKey p
  if k = [] then none
  else if (lookupK fs k).isSome then none
  else if (ancestorsOf k).any (fun a =>
      match lookupK fs a with
      | some (.file _) => true
      | some (.link _) => true
      | _ => false) then none
  else some ((ancestorsOf k).foldl
      (fun acc a => if (lookupK acc a).isSome then acc else fsSet acc a .dir) fs)

/-- `os.makedirs(path, exist_ok=True)`: an existing directory is fine. -/
def makedirsExistOk (fs : FS) (p : Str) : Option FS :=
  match lookupK fs (normKey p) with
  | some .dir => some fs
  | some _ => none
  | none => rawMakedirs fs p

/-- The module-level `makedirs` helper: `os.makedirs` with every `OSError`
swallowed. -/
def makedirsTry (fs : FS) (p : Str) : FS :=
  match rawMakedirs fs p with
  | some fs2 => fs2
  | none => fs

/-- Children of a directory key: name and node, in filesystem list order
(the model's stand-in for `os.scandir` order, which Python leaves
unspecified but fixed). -/
def childEntries (fs : FS) (k : Key) : List (Str × Node) :=
  fs.filterMap (fun e =>
    if e.1.length = k.length + 1 ∧ k.isPrefixOf e.1 then some (e.1.getLastD [], e.2)
    else none)

/-- The `(dirnames, filenames)` pair that `os.walk` reports for a directory:
subdirectories (symlinks to directories included) versus everything else. -/
def walkChildren (fs : FS) (d : Str) : List Str × List Str :=
  let es := childEntries fs (normKey d)
  (es.filterMap (fun e =>
      match e.2 with
      | .dir => some e.1
      | .link _ =>
          match resolveNode fs (resolveFuel fs) (joinPath d e.1) with
          | some (_, .dir) => some e.1
          | _ => none
      | .file _ => none),
   es.filterMap (fun e =>
      match e.2 with
      | .dir => none
      | .link _ =>
          match resolveNode fs (resolveFuel fs) (joinPath d e.1) with
          | some (_, .dir) => none
          | _ => some e.1
      | .file _ => some e.1))

/-- Top-down `os.walk` with fuel bounding the recursion depth; symlinked
directories are listed but not descended into (`followlinks=False`). -/
def walkAux (fs : FS) : Nat → Str → List (Str × List Str × List Str)
  | 0, _ => []
  | fuel + 1, d =>
      let ds := (walkChildren fs d).1
      let fls := (walkChildren fs d).2
      (d, ds, fls) ::
        (ds.filter (fun n => ¬ islinkB fs (joinPath d n))).flatMap
          (fun n => walkAux fs fuel (joinPath d n))

/-- Fuel that always suffices for `walkAux`: one more than the longest key. -/
def walkFuel (fs : FS) : Nat := (fs.map (fun e => e.1.length)).foldr max 0 + 2

/-- `os.walk(top)`: yields nothing at all when `top` is not a directory. -/
def osWalk (fs : FS) (top : Str) : List (Str × List Str × List Str) :=
  if isdirB fs top then walkAux fs (walkFuel fs) top else []

/-- Events recorded while the manifest-writing walkers run, used to state
the ordering claims about directory creation and manifest persistence. -/
inductive Ev where
  /-- `os.makedirs` of a walked destination directory (argument: the
  manifest line for it). -/
  | mkdirRec (relLine : Str)
  /-- buffered manifest write of a directory line -/
  | recordDir (relLine : Str)
  /-- buffered manifest write of a file line -/
  | recordFile (relLine : Str)
  /-- the manifest file handle is closed, flushing the buffered writes -/
  | manifestFlush
  /-- one `os.rmdir` attempt of `remove_tracked_files` -/
  | rmdirAttempt (k : Key)
  deriving DecidableEq

/-- Program state: the filesystem, the log lines written so far, the event
trace, and the session's `dlloverrides` updates. -/
structure St where
  fs : FS
  logs : List Str
  trace : List Ev
  dllov : List (Str × Str)
  deriving DecidableEq

/-- Append a log line. -/
def addLog (s : St) (m : Str) : St := { s with logs := s.logs ++ [m] }

/-- Append trace events. -/
def addEvs (s : St) (es : List Ev) : St := { s with trace := s.trace ++ es }

/-- Lift a filesystem-only operation to the state. -/
def onFS (f : FS → Option FS) (s : St) : Option St :=
  (f s.fs).map (fun fs2 => { s with fs := fs2 })

/-- `try_copy` from `proton.py` (metadata copying and the write-permission
chmod have no counterpart in the model; a tolerated `EPERM` cannot occur).
A missing source is logged and swallowed when `optional`, raised
otherwise; note that the destination is already unlinked by then, exactly
as in the Python code.  The effective destination file: `shutil.copy`
semantics place a copy inside a destination directory. -/
def tryCopyDstfile (fs : FS) (src dst : Str) : Str :=
  if isdirB fs dst then joinPath dst (basenameStr src) else dst

/-- The destination-clearing prelude of `try_copy`. -/
def tryCopyClear (fs : FS) (df : Str) : FS :=
  if lexistsB fs df then fsDel fs (normKey df) else fs

def tryCopy (fs : FS) (src dst : Str) (optional followSymlinks : Bool) : Option FS :=
  let dstfile := tryCopyDstfile fs src dst
  let fs1 := tryCopyClear fs dstfile
  if followSymlinks = false && islinkB fs1 src then
    some (fsSet fs1 (normKey dstfile) (.link (readlinkStr fs1 src)))
  else
    match openBytes fs1 src with
    | some bs => some (fsSet fs1 (normKey dstfile) (.file bs))
    | none => if optional && ¬ lexistsB fs1 src then some fs1 else none

/-- `try_copyfile` from `proton.py`.  When the destination is a directory
the Python code computes `dstfile` but still hands the directory itself to
`shutil.copyfile`, which raises; the model mirrors that. -/
def tryCopyfile (fs : FS) (src dst : Str) : Option FS :=
  if isdirB fs dst then
    none
  else
    match openBytes (tryCopyClear fs dst) src with
    | some bs => some (fsSet (tryCopyClear fs dst) (normKey dst) (.file bs))
    | none => none

/-- Directory suffixes that mark a symlink target as a Wine builtin
library location. -/
def wineDirSuffix1 : Str := S "/lib/wine/i386-windows"

/-- Second builtin-location suffix. -/
def wineDirSuffix2 : Str := S "/lib64/wine/x86_64-windows"

/-- The 20-byte placeholder marker. -/
def marker1 : List Nat := strBytes (S "Wine placeholder DLL")

/-- The 16-byte builtin marker. -/
def marker2 : List Nat := strBytes (S "Wine builtin DLL")

/-- Is the dirname of the link target one of the builtin locations? -/
def linkTargetIsBuiltinDir (t : Str) : Bool :=
  wineDirSuffix1.isSuffixOf (dirnameStr t) || wineDirSuffix2.isSuffixOf (dirnameStr t)

/-- `file_is_wine_builtin_dll` from `proton.py`: a symlink into a builtin
directory (broken or not), else — for an existing, readable file — a marker
match on the up-to-20 bytes read at offset `0x40` (a short read is not an
error, it simply yields fewer bytes). -/
def fileIsWineBuiltinDll (fs : FS) (path : Str) : Bool :=
  if islinkB fs path && linkTargetIsBuiltinDir (readlinkStr fs path) then true
  else if ¬ existsB fs path then false
  else
    match openBytes fs path with
    | none => false
    | some bs =>
        let tag := (bs.drop 0x40).take 20
        marker1.isPrefixOf tag || marker2.isPrefixOf tag

/-- `CURRENT_PREFIX_VERSION` from `proton.py`. -/
def currentPrefixVersion : Str := S "6.20-GE-1"

/-- `Proton.path`: the distribution base directory carries a trailing
slash, as in `Proton.__init__`. -/
def protonPath (pn d : Str) : Str := (pn ++ S "/") ++ d

/-- `Proton.default_pfx_dir`. -/
def defaultPfxDir (pn : Str) : Str := protonPath pn (S "files/share/default_pfx/")

/-- `Proton.fonts_dir`. -/
def protonFontsDir (pn : Str) : Str := protonPath pn (S "files/share/fonts/")

/-- `Proton.wine_fonts_dir`. -/
def protonWineFontsDir (pn : Str) : Str := protonPath pn (S "files/share/wine/fonts/")

/-- `Proton.lib_dir`. -/
def protonLibDir (pn : Str) : Str := protonPath pn (S "files/lib/")

/-- `Proton.lib64_dir`. -/
def protonLib64Dir (pn : Str) : Str := protonPath pn (S "files/lib64/")

/-- `CompatData.path`: the compat-data base directory with trailing slash. -/
def cdPath (cd d : Str) : Str := (cd ++ S "/") ++ d

/-- `CompatData.prefix_dir`. -/
def cdPfxDir (cd : Str) : Str := cdPath cd (S "pfx/")

/-- `CompatData.version_file`. -/
def cdVersionFile (cd : Str) : Str := cdPath cd (S "version")

/-- `CompatData.config_info_file`. -/
def cdConfigInfoFile (cd : Str) : Str := cdPath cd (S "config_info")

/-- `CompatData.tracked_files_file`. -/
def cdTrackedFile (cd : Str) : Str := cdPath cd (S "tracked_files")

/-- One pass-1 step of `remove_tracked_files`: an entry that exists as a
file or symlink is removed at once, an entry that exists as a directory is
deferred. -/
def rtfStep (cd : Str) (acc : FS × List Str) (ln : Str) : FS × List Str :=
  let path := cdPfxDir cd ++ pyStrip ln
  if existsB acc.1 path then
    if isfileB acc.1 path || islinkB acc.1 path then
      (fsDel acc.1 (normKey path), acc.2)
    else
      (acc.1, acc.2 ++ [path])
  else acc

/-- One deferred-directory step: `os.rmdir`, swallowing the `OSError` of a
non-empty (or otherwise unremovable) directory. -/
def rtfRmdirStep (s : St) (d : Str) : St :=
  let s := addEvs s [.rmdirAttempt (normKey d)]
  match rmdirOp s.fs d with
  | some fs2 => { s with fs := fs2 }
  | none => s

/-- The deferred-directory pass of `remove_tracked_files`. -/
def rtfRmdirPass (s : St) (ds : List Str) : St := ds.foldl rtfRmdirStep s

/-- `CompatData.remove_tracked_files`.  A `none` result models a propagated
exception (unreadable manifest, or a version file that is missing when
`os.remove` reaches it). -/
def removeTrackedFiles (cd : Str) (s : St) : Option St :=
  if ¬ existsB s.fs (cdTrackedFile cd) then
    some (addLog s (S "Prefix has no tracked_files??"))
  else
    match openBytes s.fs (cdTrackedFile cd) with
    | none => none
    | some bs =>
        let lns := linesOfBytes bs
        let p1 := lns.foldl (rtfStep cd) (s.fs, [])
        let s1 := rtfRmdirPass { s with fs := p1.1 } p1.2
        match removeOp s1.fs (cdTrackedFile cd) with
        | none => none
        | some fs2 =>
            match removeOp fs2 (cdVersionFile cd) with
            | none => none
            | some fs3 => some { s1 with fs := fs3 }

/-- The log line both malformed-version paths of `upgrade_pfx` emit. -/
def invalidVersionLog : Str :=
  S "Prefix has an invalid version?! You may want to back up user files and delete this prefix."

/-- Reaching the `except ValueError` handler of `upgrade_pfx`: log and give
up on migration, keeping whatever mutations already happened. -/
def valueErrorExit (s : St) : St := addLog s invalidVersionLog

/-- `os.rename`: moves the binding (a directory together with its subtree).
The model raises whenever the destination is bound, which is conservative:
POSIX rename also succeeds file-over-file and dir-over-empty-dir, but no
behaviour proved below depends on those cases. -/
def renameOp (fs : FS) (src dst : Str) : Option FS :=
  let sk := normKey src
  let dk := normKey dst
  if (lookupK fs sk).isNone then none
  else if (lookupK fs dk).isSome then none
  else some (fs.map (fun e =>
      if sk.isPrefixOf e.1 then (dk ++ e.1.drop sk.length, e.2) else e))

/-- The xinput-era `system.reg` rewrite (lines inside the old-registry
patch of `upgrade_pfx`): section headers naming `CurrentControlSet` and
`IG_` are renamed or dropped. -/
def xinputRegLine (ln : Str) : Option Str :=
  if ln.head? = some '[' && containsSub ln (S "CurrentControlSet") && containsSub ln (S "IG_") then
    if containsSub ln (S "DeviceClasses") then
      some (pyReplaceAll ln (S "DeviceClasses") (S "DeviceClasses_old"))
    else if containsSub ln (S "Enum") then
      some (pyReplaceAll ln (S "Enum") (S "Enum_old"))
    else none
  else some ln

/-- The six `ddeexec` registry keys deleted by the DDE patch. -/
def ddeDeleteKeys : List Str :=
  [S "[Software\\\\Classes\\\\htmlfile\\\\shell\\\\open\\\\ddeexec",
   S "[Software\\\\Classes\\\\pdffile\\\\shell\\\\open\\\\ddeexec",
   S "[Software\\\\Classes\\\\xmlfile\\\\shell\\\\open\\\\ddeexec",
   S "[Software\\\\Classes\\\\ftp\\\\shell\\\\open\\\\ddeexec",
   S "[Software\\\\Classes\\\\http\\\\shell\\\\open\\\\ddeexec",
   S "[Software\\\\Classes\\\\https\\\\shell\\\\open\\\\ddeexec"]

/-- The winebrowser DDE default-value line matched by the DDE patch. -/
def ddeWb : Str := S "@=\"\\\"C:\\\\windows\\\\system32\\\\winebrowser.exe\\\" -nohome\""

/-- One line of the DDE `system.reg` rewrite. -/
def ddeRegLine (ln : Str) : Str :=
  let idx := match findSub ln (S "ddeexec") with
             | some i => (i : Int) + (S "ddeexec").length
             | none => (-1 : Int) + (S "ddeexec").length
  if ddeDeleteKeys.contains (ln.take idx.toNat) then
    pyReplaceOnce ln (S "ddeexec") (S "ddeexec_old")
  else if pyRstrip ln = ddeWb then
    pyReplaceAll ln (S "-nohome") (S "%1")
  else ln

/-- Serialise rewritten registry lines back to file bytes (each line was
read with, and is written back with, its newline). -/
def linesToBytes (lns : List Str) : List Nat :=
  lns.foldl (fun acc ln => acc ++ strBytes ln ++ [10]) []

/-- Read a text file's lines (raises when unreadable). -/
def readLines (fs : FS) (p : Str) : Option (List Str) :=
  (openBytes fs p).map linesOfBytes

/-- Write a whole text file (`open(_, "w")` then writes). -/
def writeFileBytes (fs : FS) (p : Str) (bs : List Nat) : FS :=
  fsSet fs (normKey p) (.file bs)

/-- The xinput registry patch of `upgrade_pfx` (its body, after the guard):
rewrite `system.reg` via `system.reg.new`, renaming the original to
`system.reg.old` with a delete fallback, then moving the rewrite into
place with a logged fallback. -/
def xinputPatch (cd : Str) (s : St) : Option St :=
  let reg := cdPfxDir cd ++ S "system.reg"
  let regNew := cdPfxDir cd ++ S "system.reg.new"
  let regOld := cdPfxDir cd ++ S "system.reg.old"
  let s := addLog s (S "Removing old xinput registry entries.")
  match readLines s.fs reg with
  | none => none
  | some lns =>
      let outLns := lns.filterMap xinputRegLine
      let s := { s with fs := writeFileBytes s.fs regNew (linesToBytes outLns) }
      let step1 : Option St :=
        match renameOp s.fs reg regOld with
        | some fs2 => some { s with fs := fs2 }
        | none => onFS (fun fs => removeOp fs reg) s
      match step1 with
      | none => none
      | some s =>
          match renameOp s.fs regNew reg with
          | some fs2 => some { s with fs := fs2 }
          | none => some (addLog s (S "Unable to write new registry file to " ++ reg))

/-- The ShellExecute-DDE registry patch of `upgrade_pfx` (its body): rewrite
`system.reg`, rename the original to a randomised backup name (the
`randrange` component enters as `randHex`) with a logged delete fallback,
then move the rewrite into place with a logged fallback. -/
def ddePatch (cd randHex : Str) (s : St) : Option St :=
  let reg := cdPfxDir cd ++ S "system.reg"
  let regNew := cdPfxDir cd ++ S "system.reg.new"
  let backup := cdPfxDir cd ++ S "system.reg." ++ randHex ++ S ".old"
  let s := addLog s (S "Removing ShellExecute DDE registry entries.")
  match readLines s.fs reg with
  | none => none
  | some lns =>
      let outLns := lns.map ddeRegLine
      let s := { s with fs := writeFileBytes s.fs regNew (linesToBytes outLns) }
      let step1 : Option St :=
        match renameOp s.fs reg backup with
        | some fs2 => some { s with fs := fs2 }
        | none =>
            onFS (fun fs => removeOp fs reg)
              (addLog s (S "Failed to back up old system.reg. Simply deleting it."))
      match step1 with
      | none => none
      | some s =>
          match renameOp s.fs regNew reg with
          | some fs2 => some { s with fs := fs2 }
          | none => some (addLog s (S "Unable to write new registry file to " ++ reg))

/-- The stale-builtin sweep at the end of `upgrade_pfx`'s patch chain. -/
def staleBuiltinSweep (cd : Str) (s : St) : Option St :=
  let sweep := fun (s : St) (builtin : Str) =>
    (fun (os : Option St) =>
      match os with
      | none => none
      | some s =>
          if lexistsB s.fs builtin && fileIsWineBuiltinDll s.fs builtin then
            onFS (fun fs => removeOp fs builtin)
              (addLog s (S "Removing stale builtin " ++ builtin))
          else some s)
  match sweep s (cdPfxDir cd ++ S "/drive_c/windows/system32/amd_ags_x64.dll") (some s) with
  | none => none
  | some s2 => sweep s2 (cdPfxDir cd ++ S "/drive_c/windows/syswow64/amd_ags_x64.dll") (some s2)

/-- The patch chain of `upgrade_pfx` after the downgrade check (everything
from the `3.7-1` broken-installation probe to the stale-builtin sweep).
Integer conversions appear exactly where the Python guards evaluate them,
so a `ValueError` at a guard keeps the mutations of the earlier patches,
as in the source. -/
def upgradePatches (cd pn randHex : Str) (oldProtonVer oldPrefixVer oldMin : Str)
    (oMaj : Int) (s : St) : Option St :=
  -- 3.7-1 broken 64-bit-only installation probe
  let broken37 := oldProtonVer = S "3.7" ∧ oldPrefixVer = S "1" ∧
      ¬ existsB s.fs (cdPfxDir cd ++ S "/drive_c/windows/syswow64/kernel32.dll")
  if broken37 then
    onFS (fun fs => rmtreeOp fs (cdPfxDir cd))
      (addLog s (S "Detected broken 64-bit-only installation, re-creating prefix."))
  else
  -- broken .NET probe
  let dotnet := existsB s.fs (cdPfxDir cd ++ S "/drive_c/windows/Microsoft.NET/NETFXRepair.exe") &&
      fileIsWineBuiltinDll s.fs (cdPfxDir cd ++ S "/drive_c/windows/system32/mscoree.dll")
  let s2opt : Option St :=
    if dotnet then
      onFS (fun fs => rmtreeOp fs (cdPfxDir cd ++ S "/drive_c/windows/Microsoft.NET"))
        (addLog s (S "Broken .NET installation detected, switching to wine-mono."))
    else some s
  match s2opt with
  | none => none
  | some s =>
      -- xinput guard: (maj < 4 or (maj == 4 and min == 11)) and prefix_ver < 2
      let leftGuard : Option Bool :=  -- none = ValueError at int(old_proton_min)
        if oMaj < 4 then some true
        else if oMaj = 4 then (pyInt oldMin).map (fun m => m = 11)
        else some false
      match leftGuard with
      | none => some (valueErrorExit s)
      | some lg =>
          if lg ∧ pyInt oldPrefixVer = none then
            -- ValueError at int(old_prefix_ver) aborts the remaining patches
            some (valueErrorExit s)
          else
            let xinputStep : Option St :=
              if lg then
                match pyInt oldPrefixVer with
                | none => none
                | some pv => if pv < 2 then xinputPatch cd s else some s
              else some s
            match xinputStep with
            | none => none
            | some s =>
                -- DDE guard: maj < 6 or (maj == 6 and min < 3)
                --            or (maj == 6 and min == 3 and prefix_ver < 3)
                let ddeGuard : Option Bool :=
                  if oMaj < 6 then some true
                  else if oMaj = 6 then
                    match pyInt oldMin with
                    | none => none
                    | some m =>
                        if m < 3 then some true
                        else if m = 3 then (pyInt oldPrefixVer).map (fun pv => pv < 3)
                        else some false
                  else some false
                match ddeGuard with
                | none => some (valueErrorExit s)
                | some dg =>
                    let ddeStep : Option St := if dg then ddePatch cd randHex s else some s
                    match ddeStep with
                    | none => none
                    | some s => staleBuiltinSweep cd s

/-- The downgrade branch of `upgrade_pfx`: synthesize the 3.7 manifest when
applicable, then wipe all tracked content. -/
def downgradeWipe (cd pn : Str) (oldProtonVer : Str) (s : St) : Option St :=
  let s := addLog s (S "Removing newer prefix")
  let copyStep : Option St :=
    if oldProtonVer = S "3.7" ∧ ¬ existsB s.fs (cdTrackedFile cd) then
      onFS (fun fs => tryCopy fs (protonPath pn (S "proton_3.7_tracked_files"))
        (cdTrackedFile cd) false true) s
    else some s
  match copyStep with
  | none => none
  | some s2 => removeTrackedFiles cd s2

/-- The upgrade-announcement log line of `upgrade_pfx` (`str(None)` is the
string `"None"`). -/
def upgradeAnnounce (cd : Str) (oldVer : Option Str) : Str :=
  S "Upgrading prefix from " ++
    (match oldVer with | none => S "None" | some v => v) ++
    S " to " ++ currentPrefixVersion ++ S " (" ++ (cd ++ S "/") ++ S ")"

/-- `CompatData.upgrade_pfx`.  The four tuple unpackings of the `try` block
are modelled by list matches whose failure raises the `ValueError` the
handler catches; the third one splits `CURRENT_PREFIX_VERSION` (`6.20-GE-1`),
which yields three fields, so in this source it always fails. -/
def upgradePfx (cd pn randHex : Str) (oldVer : Option Str) (s : St) : Option St :=
  if oldVer = some currentPrefixVersion then some s
  else
    let s := addLog s (upgradeAnnounce cd oldVer)
    match oldVer with
    | none => some s
    | some old =>
        if ¬ containsSub old (S "-") then
          some (addLog s invalidVersionLog)
        else
          match pySplit old '-' with
          | [oldProtonVer, oldPrefixVer] =>
              match pySplit oldProtonVer '.' with
              | [oldMaj, oldMin] =>
                  match pySplit currentPrefixVersion '-' with
                  | [newProtonVer, _newPrefixVer] =>
                      match pySplit newProtonVer '.' with
                      | [newMaj, newMin] =>
                          -- downgrade check, evaluating ints in source order
                          (match pyInt newMaj, pyInt oldMaj with
                           | some nMaj, some oMaj =>
                               if nMaj < oMaj then downgradeWipe cd pn oldProtonVer s
                               else if nMaj = oMaj then
                                 match pyInt newMin, pyInt oldMin with
                                 | some nMin, some oMin =>
                                     if nMin < oMin then downgradeWipe cd pn oldProtonVer s
                                     else upgradePatches cd pn randHex oldProtonVer
                                       oldPrefixVer oldMin oMaj s
                                 | _, _ => some (valueErrorExit s)
                               else upgradePatches cd pn randHex oldProtonVer
                                 oldPrefixVer oldMin oMaj s
                           | _, _ => some (valueErrorExit s))
                      | _ => some (valueErrorExit s)
                  | _ => some (valueErrorExit s)
              | _ => some (valueErrorExit s)
          | _ => some (valueErrorExit s)

/-- `CompatData.pfx_copy`: builtin symlinks become absolute, fully resolved
symlinks (or full copies under the DLL-copy policy); everything else is a
plain file copy. -/
def pfxCopy (fs : FS) (src dst : Str) (dllCopy : Bool) : Option FS :=
  if islinkB fs src then
    let contents0 := readlinkStr fs src
    let contents :=
      if linkTargetIsBuiltinDir contents0 then
        normpathStr (joinPath (dirnameStr src) contents0)
      else contents0
    if dllCopy then tryCopyfile fs src dst
    else symlinkOp fs contents dst
  else tryCopyfile fs src dst

/-- One walk step of `merge_user_dir`.  The accumulator is the filesystem
together with `extant_dirs`; note that the Python `extant_dirs += dst_dir`
extends the list with the individual characters of the string (`list +=
str` iterates the string), and the subsequent `dir_ in dst_dir` test is a
substring test — both are modelled exactly. -/
def mergeStep (src dst : Str) (acc : FS × List Str) (triple : Str × List Str × List Str) :
    Option (FS × List Str) :=
  let srcDir := triple.1
  let dirs := triple.2.1
  let files := triple.2.2
  let dstDir := pyReplaceOnce srcDir src dst
  if acc.2.any (fun d => containsSub dstDir d) then some acc
  else if ¬ existsB acc.1 dstDir || samefileB acc.1 dstDir dst then
    let fs := makedirsTry acc.1 dstDir
    (dirs.foldlM (fun fs d =>
        let srcFile := joinPath srcDir d
        let dstFile := joinPath dstDir d
        if islinkB fs srcFile && ¬ existsB fs dstFile then
          tryCopy fs srcFile dstFile false false
        else some fs) fs).bind (fun fs =>
      (files.foldlM (fun fs f =>
          let srcFile := joinPath srcDir f
          let dstFile := joinPath dstDir f
          if ¬ existsB fs dstFile then tryCopy fs srcFile dstFile false false
          else some fs) fs).map (fun fs => (fs, acc.2)))
  else
    some (acc.1, acc.2 ++ dstDir.map (fun c => [c]))

/-- `merge_user_dir` from `proton.py`. -/
def mergeUserDir (fs : FS) (src dst : Str) : Option FS :=
  ((osWalk fs src).foldlM (mergeStep src dst) (fs, [])).map (fun a => a.1)

/-- The legacy-path table of `migrate_user_paths`:
`(old relative path, new absolute destination, redirect link target)`. -/
def migrateTable (cd : Str) : List (Str × Str × Str) :=
  [(S "drive_c/users/steamuser/Local Settings/Application Data",
    cdPfxDir cd ++ S "drive_c/users/steamuser/AppData/Local",
    S "../AppData/Local"),
   (S "drive_c/users/steamuser/Application Data",
    cdPfxDir cd ++ S "drive_c/users/steamuser/AppData/Roaming",
    S "./AppData/Roaming"),
   (S "drive_c/users/steamuser/My Documents",
    cdPfxDir cd ++ S "drive_c/users/steamuser/Documents",
    S "./Documents")]

/-- The stale-redirect-loop breaker at the head of a `migrate_user_paths`
table entry: a destination that is itself a symlink pointing back at the
legacy relative path is unlinked. -/
def migrateBreakLoop (s : St) (oldRel newP : Str) : St :=
  if lexistsB s.fs newP && islinkB s.fs newP && oldRel.isSuffixOf (readlinkStr s.fs newP)
  then { s with fs := fsDel s.fs (normKey newP) } else s

/-- The merge-and-back-up stage of a table entry: a legacy path that exists
and is a real directory is merged into the destination and then renamed to
`<oldP> BACKUP`. -/
def migrateMergeStage (s : St) (oldP newP : Str) : Option St :=
  if lexistsB s.fs oldP ∧ ¬ islinkB s.fs oldP then
    (mergeUserDir s.fs oldP newP).bind (fun fs =>
      (renameOp fs oldP (oldP ++ S " BACKUP")).map (fun fs2 => { s with fs := fs2 }))
  else some s

/-- The final stage of a table entry: (re)establish the legacy path as a
symlink to the redirect target when it is absent or mislinked. -/
def migrateLinkStage (s : St) (oldP lnk : Str) : Option St :=
  if ¬ lexistsB s.fs oldP then
    (symlinkOp (makedirsTry s.fs (dirnameStr oldP)) lnk oldP).map
      (fun fs2 => { s with fs := fs2 })
  else if islinkB s.fs oldP ∧ ¬ (readlinkStr s.fs oldP = lnk) then
    (removeOp s.fs oldP).bind (fun fs =>
      (symlinkOp fs lnk oldP).map (fun fs2 => { s with fs := fs2 }))
  else some s

/-- One table entry of `migrate_user_paths`: break a stale redirect loop,
merge and back up a real legacy directory, then (re)establish the legacy
path as a symlink to the redirect target when it is absent or mislinked. -/
def migrateEntry (cd : Str) (s : St) (ent : Str × Str × Str) : Option St :=
  (migrateMergeStage (migrateBreakLoop s ent.1 ent.2.1)
      (cdPfxDir cd ++ ent.1) ent.2.1).bind
    (fun s1 => migrateLinkStage s1 (cdPfxDir cd ++ ent.1) ent.2.2)

/-- `CompatData.migrate_user_paths`. -/
def migrateUserPaths (cd : Str) (s : St) : Option St :=
  (migrateTable cd).foldlM (migrateEntry cd) s

/-- Append one line to the tracked-files manifest.  The caller holds the
file handle open; the model applies the buffered write to the content at
once and marks durability separately through the `manifestFlush` trace
event emitted when the handle is closed. -/
def appendTracked (cd : Str) (fs : FS) (ln : Str) : Option FS :=
  match lookupK fs (normKey (cdTrackedFile cd)) with
  | some (.file bs) =>
      some (fsSet fs (normKey (cdTrackedFile cd)) (.file (bs ++ strBytes ln ++ [10])))
  | _ => none

/-- One walk step of `copy_pfx`. -/
def copyPfxStep (cd pn : Str) (s : St) (triple : Str × List Str × List Str) : Option St :=
  let srcDir := triple.1
  let dirs := triple.2.1
  let files := triple.2.2
  let relDir0 := lstripSlash (pyReplaceOnce srcDir (defaultPfxDir pn) [])
  let relDir := if relDir0.length > 0 then relDir0 ++ [ '/' ] else relDir0
  let dstDir := pyReplaceOnce srcDir (defaultPfxDir pn) (cdPfxDir cd)
  let step1 : Option St :=
    if ¬ lexistsB s.fs dstDir then
      (rawMakedirs s.fs dstDir).bind (fun fs =>
        (appendTracked cd fs relDir).map (fun fs2 =>
          addEvs { s with fs := fs2 } [.mkdirRec relDir, .recordDir relDir]))
    else some s
  step1.bind (fun s =>
    (dirs.foldlM (fun (s : St) d =>
        let srcFile := joinPath srcDir d
        let dstFile := joinPath dstDir d
        if islinkB s.fs srcFile && ¬ existsB s.fs dstFile then
          (pfxCopy s.fs srcFile dstFile false).map (fun fs => { s with fs := fs })
        else some s) s).bind (fun s =>
      files.foldlM (fun (s : St) f =>
          let srcFile := joinPath srcDir f
          let dstFile := joinPath dstDir f
          if ¬ existsB s.fs dstFile then
            (pfxCopy s.fs srcFile dstFile false).bind (fun fs =>
              (appendTracked cd fs (relDir ++ f)).map (fun fs2 =>
                addEvs { s with fs := fs2 } [.recordFile (relDir ++ f)]))
          else some s) s))

/-- `CompatData.copy_pfx`.  Opening the manifest with mode `"w"` creates or
truncates it before the walk starts. -/
def copyPfx (cd pn : Str) (s : St) : Option St :=
  let s := { s with fs := writeFileBytes s.fs (cdTrackedFile cd) [] }
  ((osWalk s.fs (defaultPfxDir pn)).foldlM (copyPfxStep cd pn) s).map
    (fun s => addEvs s [.manifestFlush])

/-- The copy-and-maybe-record tail of one file step of
`update_builtin_libs`. -/
def updCopy (cd : Str) (patterns : List Str) (prev : List Str) (relDir : Str)
    (srcFile dstFile f : Str) (s : St) : Option St :=
  let dllCopy := patterns.any (fun pat => globMatch pat f)
  (pfxCopy s.fs srcFile dstFile dllCopy).bind (fun fs =>
    let s := { s with fs := fs }
    let trackedName := relDir ++ f
    if prev.contains trackedName then some s
    else
      (appendTracked cd s.fs trackedName).map (fun fs2 =>
        addEvs { s with fs := fs2 } [.recordFile trackedName]))

/-- One walk step of `update_builtin_libs`: refresh the builtin files of
one template directory. -/
def updateStep (cd pn : Str) (patterns : List Str) (prev : List Str) (s : St)
    (triple : Str × List Str × List Str) : Option St :=
  let srcDir := triple.1
  let files := triple.2.2
  let relDir0 := lstripSlash (pyReplaceOnce srcDir (defaultPfxDir pn) [])
  let relDir := if relDir0.length > 0 then relDir0 ++ [ '/' ] else relDir0
  let dstDir := pyReplaceOnce srcDir (defaultPfxDir pn) (cdPfxDir cd)
  let step1 : Option St :=
    if ¬ lexistsB s.fs dstDir then
      (rawMakedirs s.fs dstDir).bind (fun fs =>
        (appendTracked cd fs relDir).map (fun fs2 =>
          addEvs { s with fs := fs2 } [.mkdirRec relDir, .recordDir relDir]))
    else some s
  step1.bind (fun s =>
    files.foldlM (fun (s : St) f =>
        let srcFile := joinPath srcDir f
        let dstFile := joinPath dstDir f
        if ¬ fileIsWineBuiltinDll s.fs srcFile then some s
        else if fileIsWineBuiltinDll s.fs dstFile then
          (removeOp s.fs dstFile).bind (fun fs =>
            updCopy cd patterns prev relDir srcFile dstFile f { s with fs := fs })
        else if lexistsB s.fs dstFile then some s
        else
          (makedirsExistOk s.fs dstDir).bind (fun fs =>
            updCopy cd patterns prev relDir srcFile dstFile f { s with fs := fs })) s)

/-- `CompatData.update_builtin_libs`. -/
def updateBuiltinLibs (cd pn : Str) (dllCopyPats : Str) (s : St) : Option St :=
  let patterns := pySplit dllCopyPats ','
  match openBytes s.fs (cdTrackedFile cd) with
  | none => none
  | some bs =>
      let prev := (linesOfBytes bs).map pyStrip
      ((osWalk s.fs (defaultPfxDir pn)).foldlM (updateStep cd pn patterns prev) s).map
        (fun s => addEvs s [.manifestFlush])

/-- The font table of `create_fonts_symlinks`. -/
def fontsMap (pn : Str) : List (Str × Str × Str) :=
  [(protonFontsDir pn, S "LiberationSans-Regular.ttf", S "arial.ttf"),
   (protonFontsDir pn, S "LiberationSans-Bold.ttf", S "arialbd.ttf"),
   (protonFontsDir pn, S "LiberationSerif-Regular.ttf", S "times.ttf"),
   (protonFontsDir pn, S "LiberationMono-Regular.ttf", S "cour.ttf"),
   (protonFontsDir pn, S "LiberationMono-Bold.ttf", S "courbd.ttf"),
   (protonFontsDir pn, S "msyh.ttf", S "msyh.ttf"),
   (protonFontsDir pn, S "simsun.ttc", S "simsun.ttc"),
   (protonFontsDir pn, S "msgothic.ttc", S "msgothic.ttc"),
   (protonFontsDir pn, S "malgun.ttf", S "malgun.ttf"),
   (protonFontsDir pn, S "NotoSansArabic-Regular.ttf", S "NotoSansArabic-Regular.ttf"),
   (protonWineFontsDir pn, S "tahoma.ttf", S "tahoma.ttf")]

/-- `CompatData.create_fonts_symlinks`. -/
def createFontsSymlinks (cd pn : Str) (s : St) : Option St :=
  let windowsfonts := cdPfxDir cd ++ S "/drive_c/windows/Fonts"
  let fs := makedirsTry s.fs windowsfonts
  (((fontsMap pn).foldlM (fun fs (p : Str × Str × Str) =>
      let lname := joinPath windowsfonts p.2.2
      let fname := joinPath p.1 p.2.1
      if lexistsB fs lname then
        if islinkB fs lname then
          (removeOp fs lname).bind (fun fs2 => symlinkOp fs2 fname lname)
        else some fs
      else symlinkOp fs fname lname) fs)).map (fun fs => { s with fs := fs })

/-- The default `PROTON_DLL_COPY` pattern list from `setup_prefix`
(the long concatenated literal, transcribed verbatim). -/
def defaultDllCopy : Str :=
  S "d3dcompiler_*.dll,d3dcsx*.dll,d3dx*.dll,x3daudio*.dll," ++
  S "xactengine*.dll,xapofx*.dll,xaudio*.dll,xinput*.dll,devenum.dll," ++
  S "amstream.dll,qasf.dll,qcap.dll,qdvd.dll,qedit.dll,quartz.dll," ++
  S "dplay.dll,dplaysvr.exe,dplayx.dll,dpmodemx.dll,dpnaddr.dll," ++
  S "dpnet.dll,dpnlobby.dll,dpnhpast.dll,dpnhupnp.dll,dpnsvr.exe," ++
  S "dpwsockx.dll,dpvoice.dll,dmband.dll,dmcompos.dll,dmime.dll," ++
  S "dmloader.dll,dmscript.dll,dmstyle.dll,dmsynth.dll,dmusic.dll," ++
  S "dmusic32.dll,dsound.dll,dswave.dll,atl1*.dll,concrt1*.dll," ++
  S "msvcp1*.dll,msvcr1*.dll,vcamp1*.dll,vcomp1*.dll,vccorlib1*.dll," ++
  S "vcruntime1*.dll,api-ms-win-crt-conio-l1-1-0.dll," ++
  S "api-ms-win-crt-heap-l1-1-0.dll,api-ms-win-crt-locale-l1-1-0.dll," ++
  S "api-ms-win-crt-math-l1-1-0.dll," ++
  S "api-ms-win-crt-runtime-l1-1-0.dll," ++
  S "api-ms-win-crt-stdio-l1-1-0.dll,ucrtbase.dll,ntdll.dll," ++
  S "vulkan-1.dll,dispex.dll,jscript.dll,scrobj.dll,scrrun.dll," ++
  S "vbscript.dll,cscript.exe,wscript.exe,wshom.ocx," ++
  S "9SeriesDefault.wmz,9SeriesDefault_.wmz,9xmigrat.dll,advpack.dll," ++
  S "asferror.dll,blackbox.dll,CEWMDM.dll,Compact.wmz,control.xml," ++
  S "custsat.dll,drm.cat,drm.inf,DRMClien.dll,DrmStor.dll," ++
  S "drmv2clt.dll,dw15.exe,dwintl.dll,engsetup.exe,eula.txt,fhg.inf," ++
  S "iexpress.inf,l3codeca.acm,LAPRXY.DLL,logagent.exe,migrate.dll," ++
  S "migrate.exe,MP43DMOD.DLL,MP4SDMOD.DLL,MPG4DMOD.DLL,mpvis.DLL," ++
  S "msdmo.dll,msnetobj.dll,msoobci.dll,MsPMSNSv.dll,MsPMSP.dll," ++
  S "MSSCP.dll,MSWMDM.dll,mymusic.inf,npdrmv2.dll,npdrmv2.zip," ++
  S "NPWMSDrm.dll,PidGen.dll,Plylst1.wpl,Plylst10.wpl,Plylst11.wpl," ++
  S "Plylst12.wpl,Plylst13.wpl,Plylst14.wpl,Plylst15.wpl,Plylst2.wpl," ++
  S "Plylst3.wpl,Plylst4.wpl,Plylst5.wpl,Plylst6.wpl,Plylst7.wpl," ++
  S "Plylst8.wpl,Plylst9.wpl,plyr_err.chm,qasf.dll,QuickSilver.wmz," ++
  S "Revert.wmz,roxio.inf,rsl.dll,setup_wm.cat,setup_wm.exe," ++
  S "setup_wm.inf,skins.inf,skinsmui.inf,unicows.dll,unregmp2.exe," ++
  S "w95inf16.dll,w95inf32.dll,wm1033.lng,WMADMOD.DLL,WMADMOE.DLL," ++
  S "WMASF.DLL,wmburn.exe,wmburn.rxc,wmdm.cat,wmdm.inf,WMDMLOG.dll," ++
  S "WMDMPS.dll,wmerror.dll,wmexpack.cat,wmexpack.inf,WMFSDK.cat," ++
  S "WMFSDK.inf,wmidx.dll,WMNetMgr.dll,wmp.cat,wmp.dll,wmp.inf," ++
  S "wmp.ocx,wmpasf.dll,wmpband.dll,wmpcd.dll,wmpcore.dll,wmpdxm.dll," ++
  S "wmplayer.adm,wmplayer.chm,wmplayer.exe,wmploc.DLL,WMPNS.dll," ++
  S "wmpns.jar,wmpshell.dll,wmpui.dll,WMSDMOD.DLL,WMSDMOE2.DLL," ++
  S "WMSPDMOD.DLL,WMSPDMOE.DLL,WMVCORE.DLL,WMVDMOD.DLL,WMVDMOE2.DLL"

/-- The session-level inputs of `setup_prefix`: environment variables, the
compat-config flag set, the `getmtimestr` anchor values (modification times
are not part of the filesystem model), the result of the NVIDIA
dynamic-linker lookup, and the `randrange` draw of the DDE patch. -/
structure SessionEnv where
  steamdir : Str
  compatConfig : List Str
  wineDllOverridesDxgiB : Bool
  protonDllCopy : Option Str
  mtimeSteamclient : Str
  mtimeSteamclient64 : Str
  mtimeSteamDll : Str
  mtimeSystemReg : Str
  nvidiaDir : Option Str
  steamCompatInstallPath : Option Str
  steamCompatLibraryPaths : Option Str
  randHex : Str
  deriving DecidableEq

/-- A `g_session.dlloverrides[...] = ...` assignment. -/
def setOv (s : St) (k v : Str) : St := { s with dllov := s.dllov ++ [(k, v)] }

/-- `use_wined3d` in `setup_prefix`. -/
def useWined3d (env : SessionEnv) : Bool := env.compatConfig.contains (S "wined3d")

/-- `use_dxvk_dxgi` in `setup_prefix`. -/
def useDxvkDxgi (env : SessionEnv) : Bool :=
  ¬ useWined3d env && ¬ env.wineDllOverridesDxgiB

/-- `use_nvapi` in `setup_prefix`. -/
def useNvapi (env : SessionEnv) : Bool := env.compatConfig.contains (S "enablenvapi")

/-- The effective DLL-copy pattern list. -/
def builtinDllCopy (env : SessionEnv) : Str := env.protonDllCopy.getD defaultDllCopy

/-- `'\n'.join(...)`. -/
def joinNl (xs : List Str) : Str :=
  match xs with
  | [] => []
  | x :: rest => rest.foldl (fun a b => a ++ '\n' :: b) x

/-- Python `str(bool)`. -/
def pyBoolStr (b : Bool) : Str := if b then S "True" else S "False"

/-- The `prefix_info` fingerprint string of `setup_prefix`. -/
def prefixInfo (pn : Str) (env : SessionEnv) : Str :=
  joinNl [currentPrefixVersion, protonFontsDir pn, protonLibDir pn, protonLib64Dir pn,
    env.steamdir, env.mtimeSteamclient, env.mtimeSteamclient64, env.mtimeSteamDll,
    defaultPfxDir pn, env.mtimeSystemReg, pyBoolStr (useWined3d env),
    pyBoolStr (useDxvkDxgi env), builtinDllCopy env, pyBoolStr (useNvapi env)]

/-- `try_get_game_library_dir`: the first library path that is a substring
of the game install path. -/
def tryGetGameLibraryDir (env : SessionEnv) : Option Str :=
  match env.steamCompatInstallPath, env.steamCompatLibraryPaths with
  | some inst, some libs => (pySplit libs ':').find? (fun l => containsSub inst l)
  | _, _ => none

/-- The first Steam support-file table of `setup_prefix` (sources under
`steamdir/legacycompat/`). -/
def steamFiles1 : List (Str × Str) :=
  [(S "steamclient.dll", S "steamclient.dll"),
   (S "steamclient64.dll", S "steamclient64.dll"),
   (S "GameOverlayRenderer64.dll", S "GameOverlayRenderer64.dll"),
   (S "SteamService.exe", S "steam.exe"),
   (S "Steam.dll", S "Steam.dll")]

/-- The second Steam support-file table (sources in the Proton base
directory). -/
def steamFiles2 : List (Str × Str) :=
  [(S "steamclient64.dll", S "steamclient64.dll"),
   (S "GameOverlayRenderer.dll", S "GameOverlayRenderer.dll"),
   (S "GameOverlayRenderer64.dll", S "GameOverlayRenderer64.dll")]

/-- The Steam support-file section of `setup_prefix`: the manifest is opened
in append mode (creating it when absent), each copied file is recorded only
when its destination was not already a regular file. -/
def steamCopyOne (cd dst steamDirRel : Str) (s : St) (srcfile tgt : Str) : Option St := do
  if isfileB s.fs srcfile then
    let dstfile := dst ++ tgt
    let s ←
      if isfileB s.fs dstfile then onFS (fun fs => removeOp fs dstfile) s
      else (appendTracked cd s.fs (steamDirRel ++ tgt)).map (fun fs => { s with fs := fs })
    onFS (fun fs => tryCopy fs srcfile dstfile false true) s
  else some s

def steamCopyStage (cd pn : Str) (env : SessionEnv) (s : St) : Option St := do
  let s ←
    match lookupK s.fs (normKey (cdTrackedFile cd)) with
    | some (.file _) => some s
    | none => some { s with fs := fsSet s.fs (normKey (cdTrackedFile cd)) (.file []) }
    | some _ => none
  let steamDirRel := S "drive_c/Program Files (x86)/Steam/"
  let dst := cdPfxDir cd ++ steamDirRel
  let s := { s with fs := makedirsTry s.fs dst }
  let s ← steamFiles1.foldlM (fun (s : St) (p : Str × Str) =>
      steamCopyOne cd dst steamDirRel s (env.steamdir ++ S "/legacycompat/" ++ p.1) p.2) s
  steamFiles2.foldlM (fun (s : St) (p : Str × Str) =>
      steamCopyOne cd dst steamDirRel s (protonPath pn p.1) p.2) s

/-- The NVAPI section of `setup_prefix`: copy and enable the NVAPI DLLs, or
remove previously copied ones. -/
def nvapiStage (cd pn : Str) (env : SessionEnv) (s : St) : Option St :=
  if useNvapi env then do
    let s ← onFS (fun fs =>
      tryCopy fs (protonLib64Dir pn ++ S "wine/nvapi/nvapi64.dll")
        (cdPfxDir cd ++ S "drive_c/windows/system32/nvapi64.dll") false true) s
    let s ← onFS (fun fs =>
      tryCopy fs (protonLibDir pn ++ S "wine/nvapi/nvapi.dll")
        (cdPfxDir cd ++ S "drive_c/windows/syswow64/nvapi.dll") false true) s
    some (setOv (setOv (setOv s (S "nvapi64") (S "n")) (S "nvapi") (S "n")) (S "nvcuda") (S "b"))
  else do
    let n64 := cdPfxDir cd ++ S "drive_c/windows/system32/nvapi64.dll"
    let n32 := cdPfxDir cd ++ S "drive_c/windows/syswow64/nvapi.dll"
    let s ← if existsB s.fs n64 then onFS (fun fs => removeOp fs n64) s else some s
    if existsB s.fs n32 then onFS (fun fs => removeOp fs n32) s else some s

/-- The NVIDIA driver-DLL section of `setup_prefix`. -/
def nvidiaStage (cd : Str) (env : SessionEnv) (s : St) : Option St :=
  match env.nvidiaDir with
  | some nd =>
      [S "_nvngx.dll", S "nvngx.dll"].foldlM (fun (s : St) dll =>
        onFS (fun fs =>
          tryCopy fs (nd ++ S "/" ++ dll)
            (cdPfxDir cd ++ S "drive_c/windows/system32/" ++ dll) true true) s) s
  | none => some s

/-- The support-library copies at the end of `setup_prefix`: OpenVR, OpenXR,
vkd3d, the wined3d/DXVK selection, NVAPI, the NVIDIA driver DLLs and
vkd3d-proton, in source order. -/
def tailCopies (cd pn : Str) (env : SessionEnv) (s : St) : Option St := do
  let dstVr := cdPfxDir cd ++ S "/drive_c/vrclient/bin/"
  let s := { s with fs := makedirsTry s.fs dstVr }
  let s ← onFS (fun fs =>
    tryCopy fs (protonLibDir pn ++ S "wine/i386-windows/vrclient.dll") dstVr false true) s
  let s ← onFS (fun fs =>
    tryCopy fs (protonLib64Dir pn ++ S "wine/x86_64-windows/vrclient_x64.dll") dstVr false true) s
  let s ← onFS (fun fs =>
    tryCopy fs (protonLibDir pn ++ S "wine/dxvk/openvr_api_dxvk.dll")
      (cdPfxDir cd ++ S "/drive_c/windows/syswow64/") false true) s
  let s ← onFS (fun fs =>
    tryCopy fs (protonLib64Dir pn ++ S "wine/dxvk/openvr_api_dxvk.dll")
      (cdPfxDir cd ++ S "/drive_c/windows/system32/") false true) s
  let s := { s with fs := makedirsTry s.fs (cdPfxDir cd ++ S "/drive_c/openxr/") }
  let s ← onFS (fun fs =>
    tryCopy fs (defaultPfxDir pn ++ S "drive_c/openxr/wineopenxr64.json")
      (cdPfxDir cd ++ S "/drive_c/openxr/") false true) s
  let s ← onFS (fun fs =>
    tryCopy fs (protonLib64Dir pn ++ S "vkd3d/libvkd3d-shader-1.dll")
      (cdPfxDir cd ++ S "drive_c/windows/system32/libvkd3d-shader-1.dll") false true) s
  let s ← onFS (fun fs =>
    tryCopy fs (protonLibDir pn ++ S "vkd3d/libvkd3d-shader-1.dll")
      (cdPfxDir cd ++ S "drive_c/windows/syswow64/libvkd3d-shader-1.dll") false true) s
  let dxvkfiles :=
    (if useWined3d env then [S "dxvk_config"]
     else [S "dxvk_config", S "d3d11", S "d3d10", S "d3d10core", S "d3d10_1", S "d3d9"]) ++
    (if useDxvkDxgi env then [S "dxgi"] else [])
  let wined3dfiles :=
    (if useWined3d env then [S "d3d11", S "d3d10", S "d3d10core", S "d3d10_1", S "d3d9"]
     else []) ++
    (if useDxvkDxgi env then [] else [S "dxgi"])
  let s ← wined3dfiles.foldlM (fun (s : St) f => do
      let s ← onFS (fun fs =>
        tryCopy fs (defaultPfxDir pn ++ S "drive_c/windows/system32/" ++ f ++ S ".dll")
          (cdPfxDir cd ++ S "drive_c/windows/system32/" ++ f ++ S ".dll") false true) s
      onFS (fun fs =>
        tryCopy fs (defaultPfxDir pn ++ S "drive_c/windows/syswow64/" ++ f ++ S ".dll")
          (cdPfxDir cd ++ S "drive_c/windows/syswow64/" ++ f ++ S ".dll") false true) s) s
  let s ← dxvkfiles.foldlM (fun (s : St) f => do
      let s ← onFS (fun fs =>
        tryCopy fs (protonLib64Dir pn ++ S "wine/dxvk/" ++ f ++ S ".dll")
          (cdPfxDir cd ++ S "drive_c/windows/system32/" ++ f ++ S ".dll") false true) s
      let s ← onFS (fun fs =>
        tryCopy fs (protonLibDir pn ++ S "wine/dxvk/" ++ f ++ S ".dll")
          (cdPfxDir cd ++ S "drive_c/windows/syswow64/" ++ f ++ S ".dll") false true) s
      some (setOv s f (S "n"))) s
  let s ← nvapiStage cd pn env s
  let s ← nvidiaStage cd env s
  let s ← onFS (fun fs =>
    tryCopy fs (protonLib64Dir pn ++ S "wine/vkd3d-proton/d3d12.dll")
      (cdPfxDir cd ++ S "drive_c/windows/system32/d3d12.dll") false true) s
  onFS (fun fs =>
    tryCopy fs (protonLibDir pn ++ S "wine/vkd3d-proton/d3d12.dll")
      (cdPfxDir cd ++ S "drive_c/windows/syswow64/d3d12.dll") false true) s

/-- The game-drive section closing `setup_prefix`. -/
def gamedriveStage (cd : Str) (env : SessionEnv) (s : St) : Option St :=
  let gp := cdPfxDir cd ++ S "dosdevices/s:"
  if env.compatConfig.contains (S "gamedrive") then
    match tryGetGameLibraryDir env with
    | none => if lexistsB s.fs gp then onFS (fun fs => removeOp fs gp) s else some s
    | some lib =>
        if lexistsB s.fs gp then
          match lookupK s.fs (normKey gp) with
          | some (.link cur) =>
              if ¬ (cur = lib) then do
                let s ← onFS (fun fs => removeOp fs gp) s
                onFS (fun fs => symlinkOp fs lib gp) s
              else some s
          | _ => none
        else onFS (fun fs => symlinkOp fs lib gp) s
  else if lexistsB s.fs gp then onFS (fun fs => removeOp fs gp) s
  else some s

/-- The first-run-only template copy: skipped when `user.reg` exists. -/
def copyPfxIfNeeded (cd pn : Str) (s : St) : Option St :=
  if ¬ existsB s.fs (cdPfxDir cd ++ S "/user.reg") then copyPfx cd pn s else some s

/-- Establish one `dosdevices` drive link when absent. -/
def dosdeviceLink (cd tgt letter : Str) (s : St) : Option St :=
  if ¬ lexistsB s.fs (cdPfxDir cd ++ letter) then
    onFS (fun fs => symlinkOp fs tgt (cdPfxDir cd ++ letter)) s
  else some s

/-- The overlay sync guarded by the version/fingerprint check, followed by
the fingerprint write. -/
def configSync (cd pn : Str) (env : SessionEnv) (oldVer : Option Str) (s : St) : Option St :=
  let info := prefixInfo pn env
  let oldInfo : List Nat := (openBytes s.fs (cdConfigInfoFile cd)).getD []
  if oldVer ≠ some currentPrefixVersion ∨ oldInfo ≠ strBytes info then do
    let s ← updateBuiltinLibs cd pn (builtinDllCopy env) s
    some { s with fs := writeFileBytes s.fs (cdConfigInfoFile cd) (strBytes info) }
  else some s

/-- The remainder of `setup_prefix` after the upgrade step and the initial
prefix-directory creation: user-dir copy and migration, device links, the
overlay sync with its fingerprint, the version stamp, fonts, Steam support
files, support libraries and the game drive. -/
def setupPrefixRest (cd pn : Str) (env : SessionEnv) (oldVer : Option Str) (s : St) :
    Option St := do
  let s ← copyPfxIfNeeded cd pn s
  let s ← migrateUserPaths cd s
  let s ← dosdeviceLink cd (S "../drive_c") (S "/dosdevices/c:") s
  let s ← dosdeviceLink cd (S "/") (S "/dosdevices/z:") s
  let s ← configSync cd pn env oldVer s
  let fsv := writeFileBytes s.fs (cdVersionFile cd) (strBytes (currentPrefixVersion ++ [ '\n' ]))
  let s := { s with fs := fsv }
  let s ← createFontsSymlinks cd pn s
  let s ← steamCopyStage cd pn env s
  let s ← tailCopies cd pn env s
  gamedriveStage cd env s

/-- Read and strip the recorded version tag; `none` when no version file
exists yet, a raised `IOError` when it is unreadable. -/
def readOldVersion (cd : Str) (fs : FS) : Option (Option Str) :=
  if existsB fs (cdVersionFile cd) then
    match openBytes fs (cdVersionFile cd) with
    | none => none
    | some bs => some (some (pyStrip (firstLineOf bs)))
  else some (none : Option Str)

/-- `CompatData.setup_prefix` (the body inside the prefix lock; the lock
itself serialises whole invocations and has no other effect to model). -/
def setupPrefix (cd pn : Str) (env : SessionEnv) (s : St) : Option St := do
  let oldVer ← readOldVersion cd s.fs
  let s ← upgradePfx cd pn env.randHex oldVer s
  let s :=
    if ¬ existsB s.fs (cdPfxDir cd) then
      -- set_dir_casefold_bit has no filesystem-visible effect in the model
      let fs := makedirsTry s.fs (cdPfxDir cd ++ S "/drive_c")
      let fs := if ¬ existsB fs (cdPfxDir cd ++ S "/dosdevices")
                then makedirsTry fs (cdPfxDir cd ++ S "/dosdevices") else fs
      { s with fs := fs }
    else s
  setupPrefixRest cd pn env oldVer s

/-! ### Basic lemmas about the filesystem primitives -/

theorem lookupK_fsSet_self (fs : FS) (k : Key) (n : Node) :
    lookupK (fsSet fs k n) k = some n := by
  induction fs with
  | nil => simp [fsSet, lookupK]
  | cons e fs ih =>
      by_cases h : e.1 = k
      · simp [fsSet, h, lookupK]
      · simp [fsSet, h, lookupK, ih]

theorem lookupK_fsSet_ne (fs : FS) (k : Key) (n : Node) (k' : Key) (h : k' ≠ k) :
    lookupK (fsSet fs k n) k' = lookupK fs k' := by
  induction fs with
  | nil =>
      have h1 : ¬ (k = k') := fun hh => h hh.symm
      simp [fsSet, lookupK, h1]
  | cons e fs ih =>
      by_cases he : e.1 = k
      · have h1 : ¬ (k = k') := fun hh => h hh.symm
        have h2 : ¬ (e.1 = k') := by rw [he]; exact h1
        simp [fsSet, he, lookupK, h1, h2]
      · by_cases he2 : e.1 = k'
        · simp [fsSet, he, lookupK, he2, h]
        · simp [fsSet, he, lookupK, he2, h, ih]

theorem fsDel_cons (e : Key × Node) (fs : FS) (k : Key) :
    fsDel (e :: fs) k = if e.1 = k then fsDel fs k else e :: fsDel fs k := by
  by_cases h : e.1 = k <;> simp [fsDel, List.filter_cons, h]

theorem lookupK_fsDel_self (fs : FS) (k : Key) : lookupK (fsDel fs k) k = none := by
  induction fs with
  | nil => simp [fsDel, lookupK]
  | cons e fs ih =>
      rw [fsDel_cons]
      by_cases h : e.1 = k
      · simpa [h] using ih
      · simp [h, lookupK, ih]

theorem lookupK_fsDel_ne (fs : FS) (k k' : Key) (h : k' ≠ k) :
    lookupK (fsDel fs k) k' = lookupK fs k' := by
  induction fs with
  | nil => simp [fsDel, lookupK]
  | cons e fs ih =>
      rw [fsDel_cons]
      by_cases he : e.1 = k
      · have h1 : ¬ (k = k') := fun hh => h hh.symm
        have h2 : ¬ (e.1 = k') := by rw [he]; exact h1
        simp [he, lookupK, h2, h1, ih]
      · by_cases he2 : e.1 = k'
        · rw [if_neg he]
          simp [lookupK, he2]
        · rw [if_neg he]
          simp [lookupK, he2, ih]

theorem foldSetDirs_bound (as : List Key) (fs : FS) (k : Key) (n : Node)
    (h : lookupK fs k = some n) :
    lookupK (as.foldl (fun acc a => if (lookupK acc a).isSome then acc else fsSet acc a .dir) fs)
      k = some n := by
  induction as generalizing fs with
  | nil => simpa
  | cons a as ih =>
      simp only [List.foldl_cons]
      by_cases ha : (lookupK fs a).isSome
      · rw [if_pos ha]
        exact ih fs h
      · rw [if_neg ha]
        apply ih
        have hak : k ≠ a := by
          intro he
          subst he
          simp [h] at ha
        rw [lookupK_fsSet_ne _ _ _ _ hak]
        exact h

theorem rawMakedirs_bound (fs : FS) (p : Str) (fs2 : FS) (k : Key) (n : Node)
    (hr : rawMakedirs fs p = some fs2) (h : lookupK fs k = some n) :
    lookupK fs2 k = some n := by
  simp only [rawMakedirs] at hr
  split at hr
  · exact absurd hr (by simp)
  · split at hr
    · exact absurd hr (by simp)
    · split at hr
      · exact absurd hr (by simp)
      · cases hr
        exact foldSetDirs_bound _ _ _ _ h

theorem makedirsTry_bound (fs : FS) (p : Str) (k : Key) (n : Node)
    (h : lookupK fs k = some n) : lookupK (makedirsTry fs p) k = some n := by
  unfold makedirsTry
  cases hr : rawMakedirs fs p with
  | none => simpa
  | some fs2 => simpa using rawMakedirs_bound fs p fs2 k n hr h

theorem makedirsExistOk_bound (fs : FS) (p : Str) (fs2 : FS) (k : Key) (n : Node)
    (hr : makedirsExistOk fs p = some fs2) (h : lookupK fs k = some n) :
    lookupK fs2 k = some n := by
  unfold makedirsExistOk at hr
  split at hr
  · cases hr; exact h
  · exact absurd hr (by simp)
  · exact rawMakedirs_bound fs p fs2 k n hr h

theorem removeOp_some (fs : FS) (p : Str) (fs2 : FS) (h : removeOp fs p = some fs2) :
    fs2 = fsDel fs (normKey p) := by
  unfold removeOp at h
  split at h
  · cases h; rfl
  · exact absurd h (by simp)

theorem symlinkOp_some (fs : FS) (t lp : Str) (fs2 : FS) (h : symlinkOp fs t lp = some fs2) :
    fs2 = fsSet fs (normKey lp) (.link t) := by
  unfold symlinkOp at h
  split at h
  · exact absurd h (by simp)
  · cases h; rfl

theorem tryCopyfile_lookup_ne (fs : FS) (src dst : Str) (fs2 : FS) (k : Key)
    (h : tryCopyfile fs src dst = some fs2) (hk : k ≠ normKey dst) :
    lookupK fs2 k = lookupK fs k := by
  have hclear : lookupK (tryCopyClear fs dst) k = lookupK fs k := by
    unfold tryCopyClear
    split
    · exact lookupK_fsDel_ne _ _ _ hk
    · rfl
  unfold tryCopyfile at h
  split at h
  · exact absurd h (by simp)
  · cases hob : openBytes (tryCopyClear fs dst) src with
    | none => rw [hob] at h; exact absurd h (by simp)
    | some bs =>
        rw [hob] at h
        cases h
        rw [lookupK_fsSet_ne _ _ _ _ hk]
        exact hclear

theorem isPrefixOf_append_self (a b : Key) : a.isPrefixOf (a ++ b) = true := by
  induction a with
  | nil => simp [List.isPrefixOf]
  | cons x xs ih => simp [List.isPrefixOf, ih]

theorem tryCopy_lookup_ne (fs : FS) (src dst : Str) (o fl : Bool) (fs2 : FS) (k : Key)
    (h : tryCopy fs src dst o fl = some fs2)
    (hk1 : k ≠ normKey dst) (hk2 : k ≠ normKey (joinPath dst (basenameStr src))) :
    lookupK fs2 k = lookupK fs k := by
  simp only [tryCopy] at h
  have hkd : k ≠ normKey (tryCopyDstfile fs src dst) := by
    unfold tryCopyDstfile
    split
    · exact hk2
    · exact hk1
  have hfs1 : lookupK (tryCopyClear fs (tryCopyDstfile fs src dst)) k = lookupK fs k := by
    unfold tryCopyClear
    split
    · exact lookupK_fsDel_ne _ _ _ hkd
    · rfl
  split at h
  · cases h
    rw [lookupK_fsSet_ne _ _ _ _ hkd]
    exact hfs1
  · split at h
    · cases h
      rw [lookupK_fsSet_ne _ _ _ _ hkd]
      exact hfs1
    · split at h
      · cases h
        exact hfs1
      · exact absurd h (by simp)

theorem pfxCopy_lookup_ne (fs : FS) (src dst : Str) (dc : Bool) (fs2 : FS) (k : Key)
    (h : pfxCopy fs src dst dc = some fs2) (hk : k ≠ normKey dst) :
    lookupK fs2 k = lookupK fs k := by
  unfold pfxCopy at h
  split at h
  · split at h
    · exact tryCopyfile_lookup_ne _ _ _ _ _ h hk
    · rw [symlinkOp_some _ _ _ _ h]
      exact lookupK_fsSet_ne _ _ _ _ hk
  · exact tryCopyfile_lookup_ne _ _ _ _ _ h hk

theorem renameMap_lookup_ne (fs : FS) (sk dk k : Key)
    (h1 : ¬ sk.isPrefixOf k = true) (h2 : ¬ dk.isPrefixOf k = true) :
    lookupK (fs.map (fun e =>
      if sk.isPrefixOf e.1 then (dk ++ e.1.drop sk.length, e.2) else e)) k = lookupK fs k := by
  induction fs with
  | nil => simp [lookupK]
  | cons e fs ih =>
      simp only [List.map_cons]
      by_cases hp : sk.isPrefixOf e.1 = true
      · have hne : ¬ ((dk ++ e.1.drop sk.length) = k) := by
          intro he
          apply h2
          rw [← he]
          exact isPrefixOf_append_self dk _
        have hne2 : ¬ (e.1 = k) := by
          intro he
          exact h1 (he ▸ hp)
        rw [if_pos hp]
        simp only [lookupK]
        rw [if_neg hne, if_neg hne2]
        exact ih
      · rw [if_neg hp]
        simp only [lookupK]
        by_cases he : e.1 = k
        · rw [if_pos he, if_pos he]
        · rw [if_neg he, if_neg he]
          exact ih

theorem renameOp_lookup_ne (fs : FS) (src dst : Str) (fs2 : FS) (k : Key)
    (h : renameOp fs src dst = some fs2)
    (h1 : ¬ (normKey src).isPrefixOf k = true) (h2 : ¬ (normKey dst).isPrefixOf k = true) :
    lookupK fs2 k = lookupK fs k := by
  simp only [renameOp] at h
  split at h
  · exact absurd h (by simp)
  · split at h
    · exact absurd h (by simp)
    · cases h
      exact renameMap_lookup_ne fs _ _ k h1 h2

/-! ### String and key lemmas -/

theorem splitChAux_append (sep : Char) (a b acc : Str) :
    splitChAux sep (a ++ sep :: b) acc = splitChAux sep a acc ++ pySplit b sep := by
  induction a generalizing acc with
  | nil => simp [splitChAux, pySplit]
  | cons c cs ih =>
      by_cases h : c = sep
      · simp [splitChAux, h, ih]
      · simp [splitChAux, h, ih]

theorem pySplit_append (a b : Str) (sep : Char) :
    pySplit (a ++ sep :: b) sep = pySplit a sep ++ pySplit b sep :=
  splitChAux_append sep a b []

theorem splitChAux_nosep (sep : Char) (s : Str) (h : sep ∉ s) (acc : Str) :
    splitChAux sep s acc = [acc.reverse ++ s] := by
  induction s generalizing acc with
  | nil => simp [splitChAux]
  | cons c cs ih =>
      have hc : ¬ (c = sep) := by
        intro he
        exact h (he ▸ List.mem_cons_self c cs)
      have hcs : sep ∉ cs := fun hm => h (List.mem_cons_of_mem _ hm)
      simp [splitChAux, hc, ih hcs]

theorem pySplit_nosep (s : Str) (sep : Char) (h : sep ∉ s) : pySplit s sep = [s] := by
  simpa using splitChAux_nosep sep s h []

/-- A clean path component: nonempty, no slash, not a dot link. -/
def cleanComp (c : Str) : Prop := c ≠ [] ∧ '/' ∉ c ∧ c ≠ S "." ∧ c ≠ S ".."

theorem normComps_append_clean (xs : List Str) (n : Str) (h : cleanComp n) (acc : List Str) :
    normComps (xs ++ [n]) acc = normComps xs acc ++ [n] := by
  obtain ⟨h1, _h2, h3, h4⟩ := h
  induction xs generalizing acc with
  | nil =>
      have hno : ¬ (n = [] ∨ n = S ".") := by
        rintro (he | he)
        · exact h1 he
        · exact h3 he
      simp only [List.nil_append, normComps]
      rw [if_neg hno, if_neg h4]
      simp [normComps]
  | cons c cs ih =>
      simp only [List.cons_append, normComps]
      by_cases hc : c = [] ∨ c = S "."
      · rw [if_pos hc, if_pos hc]
        exact ih _
      · rw [if_neg hc, if_neg hc]
        by_cases hcc : c = S ".."
        · rw [if_pos hcc, if_pos hcc]
          exact ih _
        · rw [if_neg hcc, if_neg hcc]
          exact ih _

theorem normKey_append_comp (a : Str) (n : Str) (h : cleanComp n) :
    normKey (a ++ '/' :: n) = normKey a ++ [n] := by
  unfold normKey
  rw [pySplit_append, pySplit_nosep n '/' h.2.1]
  exact normComps_append_clean _ n h []

/-- Join components onto a path with slashes (the shape `os.walk` paths
take below a root). -/
def slashJoin (ns : List Str) : Str := ns.foldl (fun acc c => acc ++ '/' :: c) []

theorem slashJoin_foldl_shift (ns : List Str) (x y : Str) :
    ns.foldl (fun acc c => acc ++ '/' :: c) (x ++ y) =
      x ++ ns.foldl (fun acc c => acc ++ '/' :: c) y := by
  induction ns generalizing y with
  | nil => simp
  | cons n ns ih =>
      simp only [List.foldl_cons]
      rw [List.append_assoc]
      exact ih _

theorem slashJoin_cons (n : Str) (ns : List Str) :
    slashJoin (n :: ns) = '/' :: n ++ slashJoin ns := by
  unfold slashJoin
  simp only [List.foldl_cons, List.nil_append]
  simpa using slashJoin_foldl_shift ns ('/' :: n) []

theorem normKey_append_slashJoin (a : Str) (ns : List Str) (h : ∀ n ∈ ns, cleanComp n) :
    normKey (a ++ slashJoin ns) = normKey a ++ ns := by
  induction ns generalizing a with
  | nil => simp [slashJoin]
  | cons n ns ih =>
      rw [slashJoin_cons, ← List.append_assoc,
        ih (a ++ '/' :: n) (fun m hm => h m (List.mem_cons_of_mem _ hm)),
        normKey_append_comp a n (h n (List.mem_cons_self n ns))]
      simp

/-- Splitting the current version string on `'-'` yields three fields: the
step `new_proton_ver, new_prefix_ver = CURRENT_PREFIX_VERSION.split('-')`
therefore raises `ValueError` on every run that reaches it. -/
theorem currentSplitDash : pySplit currentPrefixVersion '-' = [S "6.20", S "GE", S "1"] := by
  decide

/-- Characterisation of `upgrade_pfx` on any recorded tag other than the
current version string: the announcement and the invalid-version line are
logged and nothing else happens, because parsing
`CURRENT_PREFIX_VERSION` raises before any patch or wipe is reached. -/
theorem upgradePfx_stuck (cd pn rh : Str) (old : Str) (s : St)
    (hne : ¬ (old = currentPrefixVersion)) :
    upgradePfx cd pn rh (some old) s =
      some (addLog (addLog s (upgradeAnnounce cd (some old))) invalidVersionLog) := by
  unfold upgradePfx
  rw [if_neg (by simpa using hne)]
  simp only []
  by_cases hdash : containsSub old (S "-") = true
  · rw [if_neg (by simpa using hdash)]
    split
    all_goals first
      | rfl
      | (split <;> rfl)
  · rw [if_pos (by simpa using hdash)]

/-- `upgrade_pfx` never changes the filesystem in this source, whatever the
recorded tag: every path through it returns before mutating anything. -/
theorem upgradePfx_fs_unchanged (cd pn rh : Str) (oldVer : Option Str) (s : St) :
    ∃ s2, upgradePfx cd pn rh oldVer s = some s2 ∧ s2.fs = s.fs ∧ s2.trace = s.trace := by
  by_cases he : oldVer = some currentPrefixVersion
  · exact ⟨s, by simp [upgradePfx, he], rfl, rfl⟩
  · cases oldVer with
    | none =>
        refine ⟨addLog s (upgradeAnnounce cd none), ?_, rfl, rfl⟩
        simp [upgradePfx]
    | some old =>
        refine ⟨_, upgradePfx_stuck cd pn rh old s (by simpa using he), rfl, rfl⟩

/-! ### Claims C1 and C5: the upgrade state machine -/

/-- Does a tag parse as `major.minor-revision` with integer components
(the format claim C5 appeals to)? -/
def parsesAsTag (v : Str) : Bool :=
  match pySplit v '-' with
  | [a, b] =>
      (match pySplit a '.' with
       | [x, y] => (pyInt x).isSome && (pyInt y).isSome && (pyInt b).isSome
       | _ => false)
  | _ => false

/-- A prefix instance recorded at tag `7.0-1`, with a manifest and tracked
content in place. -/
def stC1 : St :=
  { fs := [(normKey (S "/c/version"), .file (strBytes (S "7.0-1\n"))),
           (normKey (S "/c/tracked_files"), .file (strBytes (S "drive_c/\ndrive_c/x.dll\n"))),
           (normKey (S "/c/pfx"), .dir),
           (normKey (S "/c/pfx/drive_c"), .dir),
           (normKey (S "/c/pfx/drive_c/x.dll"), .file [1, 2, 3])],
    logs := [], trace := [], dllov := [] }

/-- Claim C1, settled as a code bug: a recorded tag `7.0-1` is numerically
greater than the current `6.20` at the `(major, minor)` level, so the claim
requires `upgrade_pfx` to wipe all manifest-owned content; instead the
run only logs the invalid-version line and returns with the filesystem
untouched (splitting `CURRENT_PREFIX_VERSION = "6.20-GE-1"` on `'-'`
yields three fields and the two-variable unpacking raises `ValueError`).
The final conjunct shows the wipe the claim demands would have been
observable: `remove_tracked_files` would delete the tracked content. -/
theorem claimC1_downgrade_tag_does_not_wipe :
    upgradePfx (S "/c") (S "/p") (S "ab") (some (S "7.0-1")) stC1 =
      some (addLog (addLog stC1 (upgradeAnnounce (S "/c") (some (S "7.0-1")))) invalidVersionLog) ∧
    lexistsB stC1.fs (cdTrackedFile (S "/c")) = true ∧
    (removeTrackedFiles (S "/c") stC1).map
        (fun s2 => lexistsB s2.fs (S "/c/pfx/drive_c/x.dll")) = some false := by
  refine ⟨upgradePfx_stuck _ _ _ _ _ (by decide), by decide, by decide⟩

/-- A small state for the C5 counterexample and witness. -/
def stC5 : St := { fs := [(normKey (S "/c5/pfx"), .dir)], logs := [], trace := [], dllov := [] }

/-- Counterexample to claim C5 as stated: the recorded tag `6.20-GE-1`
fails to parse as `major.minor-revision` (its components include the
non-integer `GE`), yet `upgrade_pfx` returns silently — no log line is
written — because the tag equals the current version string and the
equality check precedes the malformed-version handling. -/
theorem claimC5_cex_current_tag_unlogged :
    parsesAsTag currentPrefixVersion = false ∧
    upgradePfx (S "/c5") (S "/p") (S "r") (some currentPrefixVersion) stC5 = some stC5 := by
  exact ⟨by decide, rfl⟩

/-- Claim C5 as amended: for every malformed recorded tag other than the
current version string itself, `upgrade_pfx` logs the invalid-version
condition and performs no filesystem mutation. -/
theorem claimC5_malformed_tag_logged_no_mutation (cd pn rh : Str) (old : Str) (s : St)
    (hmal : parsesAsTag old = false) (hne : old ≠ currentPrefixVersion) :
    ∃ s2, upgradePfx cd pn rh (some old) s = some s2 ∧ s2.fs = s.fs ∧
      s2.logs = s.logs ++ [upgradeAnnounce cd (some old), invalidVersionLog] := by
  refine ⟨_, upgradePfx_stuck cd pn rh old s hne, rfl, by simp [addLog]⟩

/-- Witness for the amended C5 theorem at the malformed tag `3.x-1`. -/
theorem claimC5_witness :
    parsesAsTag (S "3.x-1") = false ∧ S "3.x-1" ≠ currentPrefixVersion ∧
    ∃ s2, upgradePfx (S "/c5") (S "/p") (S "r") (some (S "3.x-1")) stC5 = some s2 ∧
      s2.fs = stC5.fs ∧
      s2.logs = stC5.logs ++ [upgradeAnnounce (S "/c5") (some (S "3.x-1")), invalidVersionLog] :=
  ⟨by decide, by decide,
    claimC5_malformed_tag_logged_no_mutation (S "/c5") (S "/p") (S "r") (S "3.x-1") stC5
      (by decide) (by decide)⟩

/-! ### Claim C10: the stub classifier -/

/-- Bytes of a file exactly long enough to end with the 16-byte builtin
marker at offset `0x40`: too short to carry 20 bytes there. -/
def c10bytes : List Nat := List.replicate 0x40 0 ++ strBytes (S "Wine builtin DLL")

/-- A filesystem holding only that short file. -/
def c10fs : FS := [(normKey (S "/f/short.dll"), .file c10bytes)]

/-- Counterexample to claim C10 as stated: a non-symlink file too short to
carry 20 bytes at offset `0x40` does not produce an error and is *not*
classified `False` — the short read still starts with the 16-byte builtin
marker, so the classifier returns `True`. -/
theorem claimC10_cex_short_marker_file :
    c10bytes.length < 0x40 + 20 ∧
    islinkB c10fs (S "/f/short.dll") = false ∧
    fileIsWineBuiltinDll c10fs (S "/f/short.dll") = true := by decide

theorem existsB_of_openBytes (fs : FS) (p : Str) (bs : List Nat)
    (h : openBytes fs p = some bs) : existsB fs p = true := by
  unfold openBytes at h
  unfold existsB
  cases hr : resolveNode fs (resolveFuel fs) p with
  | none => rw [hr] at h; exact absurd h (by simp)
  | some kn => simp

/-- Claim C10 as amended: the classifier is total; a non-symlink path that
does not exist classifies `False`; and the classifier returns `True`
exactly when the path is a symlink into a known builtin directory or the
path opens to bytes whose up-to-20-byte read at offset `0x40` starts with
one of the markers (an unreadable path classifies `False`; a short read is
not an error and still matches when it carries a whole marker). -/
theorem claimC10_classifier_characterised (fs : FS) (p : Str) :
    (islinkB fs p = false → existsB fs p = false → fileIsWineBuiltinDll fs p = false) ∧
    (fileIsWineBuiltinDll fs p = true ↔
      (islinkB fs p = true ∧ linkTargetIsBuiltinDir (readlinkStr fs p) = true) ∨
      ∃ bs, openBytes fs p = some bs ∧
        (marker1.isPrefixOf ((bs.drop 0x40).take 20) = true ∨
         marker2.isPrefixOf ((bs.drop 0x40).take 20) = true)) := by
  constructor
  · intro hl he
    unfold fileIsWineBuiltinDll
    rw [if_neg (by simp [hl]), if_pos (by simp [he])]
  · constructor
    · intro h
      unfold fileIsWineBuiltinDll at h
      by_cases h1 : (islinkB fs p && linkTargetIsBuiltinDir (readlinkStr fs p)) = true
      · exact Or.inl (by simpa using h1)
      · rw [if_neg (by simpa using h1)] at h
        by_cases h2 : existsB fs p = true
        · rw [if_neg (by simp [h2])] at h
          cases hob : openBytes fs p with
          | none => rw [hob] at h; exact absurd h (by simp)
          | some bs =>
              rw [hob] at h
              exact Or.inr ⟨bs, rfl, by simpa using h⟩
        · rw [if_pos (by simpa using h2)] at h
          exact absurd h (by simp)
    · intro h
      unfold fileIsWineBuiltinDll
      rcases h with ⟨hl, hd⟩ | ⟨bs, hob, hm⟩
      · rw [if_pos (by simp [hl, hd])]
      · by_cases h1 : (islinkB fs p && linkTargetIsBuiltinDir (readlinkStr fs p)) = true
        · rw [if_pos h1]
        · rw [if_neg h1, if_neg (by simp [existsB_of_openBytes fs p bs hob]), hob]
          simpa using hm

/-- Witness for the amended C10 theorem: instantiated at the short marker
file, both conjuncts hold with the right-hand disjunct realised. -/
theorem claimC10_witness :
    (islinkB c10fs (S "/f/short.dll") = false → existsB c10fs (S "/f/short.dll") = false →
      fileIsWineBuiltinDll c10fs (S "/f/short.dll") = false) ∧
    (fileIsWineBuiltinDll c10fs (S "/f/short.dll") = true ↔
      (islinkB c10fs (S "/f/short.dll") = true ∧
        linkTargetIsBuiltinDir (readlinkStr c10fs (S "/f/short.dll")) = true) ∨
      ∃ bs, openBytes c10fs (S "/f/short.dll") = some bs ∧
        (marker1.isPrefixOf ((bs.drop 0x40).take 20) = true ∨
         marker2.isPrefixOf ((bs.drop 0x40).take 20) = true)) :=
  claimC10_classifier_characterised c10fs (S "/f/short.dll")

/-! ### Claim C4: remove_tracked_files -/

/-- Insert keeping deeper keys first. -/
def insertDeeper (d : Str) : List Str → List Str
  | [] => [d]
  | e :: es =>
      if (normKey e).length ≤ (normKey d).length then d :: e :: es
      else e :: insertDeeper d es

/-- Stable deepest-first ordering of the deferred directories. -/
def sortDeepestFirst (ds : List Str) : List Str := ds.foldr insertDeeper []

/-- Modelled from the claim (C4): `remove_tracked_files` with the directory
pass taken in deepest-first order, as the claim asserts, instead of the
source's manifest order.  Defined only for comparison with the source
behaviour. -/
def removeTrackedFilesDeepest (cd : Str) (s : St) : Option St :=
  if ¬ existsB s.fs (cdTrackedFile cd) then
    some (addLog s (S "Prefix has no tracked_files??"))
  else
    match openBytes s.fs (cdTrackedFile cd) with
    | none => none
    | some bs =>
        let lns := linesOfBytes bs
        let p1 := lns.foldl (rtfStep cd) (s.fs, [])
        let s1 := rtfRmdirPass { s with fs := p1.1 } (sortDeepestFirst p1.2)
        match removeOp s1.fs (cdTrackedFile cd) with
        | none => none
        | some fs2 =>
            match removeOp fs2 (cdVersionFile cd) with
            | none => none
            | some fs3 => some { s1 with fs := fs3 }

/-- A prefix whose manifest lists `a/` before `a/b/`, both empty nested
directories. -/
def stC4 : St :=
  { fs := [(normKey (S "/c4/version"), .file (strBytes (S "x\n"))),
           (normKey (S "/c4/tracked_files"), .file (strBytes (S "a/\na/b/\n"))),
           (normKey (S "/c4/pfx"), .dir),
           (normKey (S "/c4/pfx/a"), .dir),
           (normKey (S "/c4/pfx/a/b"), .dir)],
    logs := [], trace := [], dllov := [] }

/-- Counterexample to claim C4 as stated: the directory pass runs in
manifest order, not deepest-first.  On a manifest listing `a/` before
`a/b/`, the source attempts `rmdir a` first (it fails, still holding `b`,
and the failure is swallowed), then removes `a/b`, leaving `a` behind —
whereas the claimed deepest-first pass removes both. -/
theorem claimC4_cex_manifest_order :
    (removeTrackedFiles (S "/c4") stC4).map
        (fun s2 => lexistsB s2.fs (S "/c4/pfx/a")) = some true ∧
    (removeTrackedFilesDeepest (S "/c4") stC4).map
        (fun s2 => lexistsB s2.fs (S "/c4/pfx/a")) = some false ∧
    (removeTrackedFiles (S "/c4") stC4).map (fun s2 => s2.trace) =
      some [.rmdirAttempt (normKey (S "/c4/pfx/a")),
            .rmdirAttempt (normKey (S "/c4/pfx/a/b"))] := by
  refine ⟨by decide, by decide, by decide⟩

/-- The key of a manifest line (prefix directory plus the stripped line). -/
def rtfKeyOf (cd : Str) (ln : Str) : Key := normKey (cdPfxDir cd ++ pyStrip ln)

theorem existsB_of_node (fs : FS) (p : Str) (n : Node) (hn : ∀ t, n ≠ .link t)
    (h : lookupK fs (normKey p) = some n) : existsB fs p = true := by
  unfold existsB resolveFuel
  cases n with
  | link t => exact absurd rfl (hn t)
  | file b => simp [resolveNode, h]
  | dir => simp [resolveNode, h]

theorem existsB_of_no_node (fs : FS) (p : Str)
    (h : lookupK fs (normKey p) = none) : existsB fs p = false := by
  unfold existsB resolveFuel
  simp [resolveNode, h]

theorem isfileB_of_file (fs : FS) (p : Str) (b : List Nat)
    (h : lookupK fs (normKey p) = some (.file b)) : isfileB fs p = true := by
  unfold isfileB resolveFuel
  simp [resolveNode, h]

theorem isfileB_of_dir (fs : FS) (p : Str)
    (h : lookupK fs (normKey p) = some .dir) : isfileB fs p = false := by
  unfold isfileB resolveFuel
  simp [resolveNode, h]

theorem islinkB_of_nonlink (fs : FS) (p : Str) (n : Node) (hn : ∀ t, n ≠ .link t)
    (h : lookupK fs (normKey p) = some n) : islinkB fs p = false := by
  unfold islinkB
  rw [h]
  cases n with
  | link t => exact absurd rfl (hn t)
  | file b => rfl
  | dir => rfl

theorem lookupK_fsDel_sub (fs : FS) (k k' : Key) (n : Node)
    (h : lookupK (fsDel fs k) k' = some n) : lookupK fs k' = some n := by
  by_cases he : k' = k
  · rw [he, lookupK_fsDel_self] at h
    exact absurd h (by simp)
  · rwa [lookupK_fsDel_ne _ _ _ he] at h

theorem rmdirOp_some (fs : FS) (p : Str) (fs2 : FS) (h : rmdirOp fs p = some fs2) :
    fs2 = fsDel fs (normKey p) := by
  simp only [rmdirOp] at h
  split at h
  · split at h
    · exact absurd h (by simp)
    · cases h; rfl
  · exact absurd h (by simp)

/-- Is an optional node a symlink binding? -/
def isLinkNode : Option Node → Bool
  | some (.link _) => true
  | _ => false

theorem nonLink_of_isLinkNode_false (o : Option Node) (h : isLinkNode o = false) :
    ∀ t, o ≠ some (.link t) := by
  intro t hc
  rw [hc] at h
  simp [isLinkNode] at h

theorem islinkB_of_link (fs : FS) (p t : Str)
    (h : lookupK fs (normKey p) = some (.link t)) : islinkB fs p = true := by
  unfold islinkB
  rw [h]

theorem lookupK_fsDel_none (fs : FS) (k k2 : Key) (h : lookupK fs k2 = none) :
    lookupK (fsDel fs k) k2 = none := by
  by_cases he : k2 = k
  · rw [he]
    exact lookupK_fsDel_self _ _
  · rw [lookupK_fsDel_ne _ _ _ he]
    exact h

/-- An absolute link target resolves to itself. -/
theorem resolveLinkTarget_abs (p t : Str) (h : t.head? = some '/') :
    resolveLinkTarget p t = t := by
  unfold resolveLinkTarget
  rw [if_pos h]

/-- A symlink whose immediate target is bound to a non-link node follows to
it: the path exists. -/
theorem existsB_link_onehop (fs : FS) (p t : Str)
    (hb : lookupK fs (normKey p) = some (.link t))
    (ht : (lookupK fs (normKey (resolveLinkTarget p t))).isSome = true)
    (htl : isLinkNode (lookupK fs (normKey (resolveLinkTarget p t))) = false) :
    existsB fs p = true := by
  unfold existsB resolveFuel
  have hlen : fs.length = (fs.length - 1) + 1 := by
    cases fs with
    | nil => cases hb
    | cons e fs2 => simp
  rw [hlen]
  simp only [resolveNode, hb]
  cases htn : lookupK fs (normKey (resolveLinkTarget p t)) with
  | none => rw [htn] at ht; cases ht
  | some n =>
      cases n with
      | link t2 => rw [htn] at htl; cases htl
      | file b => simp [resolveNode, htn]
      | dir => simp [resolveNode, htn]

/-- A symlink whose immediate target key is unbound dangles: the path does
not exist. -/
theorem existsB_link_dangling (fs : FS) (p t : Str)
    (hb : lookupK fs (normKey p) = some (.link t))
    (ht : lookupK fs (normKey (resolveLinkTarget p t)) = none) :
    existsB fs p = false := by
  unfold existsB resolveFuel
  have hlen : fs.length = (fs.length - 1) + 1 := by
    cases fs with
    | nil => cases hb
    | cons e fs2 => simp
  rw [hlen]
  simp only [resolveNode, hb]
  cases hf : fs.length - 1 with
  | zero => simp [resolveNode, ht]
  | succ m => simp [resolveNode, ht]

/-- The key of a manifest symlink entry's immediate target. -/
def rtfTgtKey (cd ln t : Str) : Key :=
  normKey (resolveLinkTarget (cdPfxDir cd ++ pyStrip ln) t)

/-- Pass 1 of `remove_tracked_files`, characterised: unlisted keys are
untouched, file entries end up removed, the pass only ever deletes
bindings, the deferred-directory list is exactly the directory entries in
manifest order, a symlink entry whose immediate target is a non-link node
at an unlisted key resolves and is removed, and an absolute symlink whose
target key is unbound (a dangling link) fails the `os.path.exists` test
and is left in place. -/
theorem rtfFold_props (cd : Str) (lns : List Str) (fs0 : FS) (dirs0 : List Str) :
    (∀ k, (∀ ln ∈ lns, k ≠ rtfKeyOf cd ln) →
        lookupK (lns.foldl (rtfStep cd) (fs0, dirs0)).1 k = lookupK fs0 k) ∧
    (∀ ln ∈ lns, (∃ b2, lookupK fs0 (rtfKeyOf cd ln) = some (.file b2)) →
        lookupK (lns.foldl (rtfStep cd) (fs0, dirs0)).1 (rtfKeyOf cd ln) = none) ∧
    (∀ k n, lookupK (lns.foldl (rtfStep cd) (fs0, dirs0)).1 k = some n →
        lookupK fs0 k = some n) ∧
    ((lns.foldl (rtfStep cd) (fs0, dirs0)).2 = dirs0 ++
      (lns.filter (fun ln => lookupK fs0 (rtfKeyOf cd ln) = some Node.dir)).map
        (fun ln => cdPfxDir cd ++ pyStrip ln)) ∧
    (∀ ln ∈ lns, ∀ t, lookupK fs0 (rtfKeyOf cd ln) = some (.link t) →
        (lookupK fs0 (rtfTgtKey cd ln t)).isSome = true →
        isLinkNode (lookupK fs0 (rtfTgtKey cd ln t)) = false →
        (∀ l2 ∈ lns, rtfTgtKey cd ln t ≠ rtfKeyOf cd l2) →
        lookupK (lns.foldl (rtfStep cd) (fs0, dirs0)).1 (rtfKeyOf cd ln) = none) ∧
    (∀ k t, lookupK fs0 k = some (.link t) → t.head? = some '/' →
        lookupK fs0 (normKey t) = none →
        lookupK (lns.foldl (rtfStep cd) (fs0, dirs0)).1 k = some (.link t)) := by
  induction lns generalizing fs0 dirs0 with
  | nil =>
      exact ⟨fun k _ => rfl, by simp, fun k n h => h, by simp, by simp,
        fun k t hk _ _ => hk⟩
  | cons ln rest ih =>
      simp only [List.foldl_cons]
      cases hnode : lookupK fs0 (rtfKeyOf cd ln) with
      | none =>
          have hstep : rtfStep cd (fs0, dirs0) ln = (fs0, dirs0) := by
            simp only [rtfStep]
            rw [if_neg (by simp [existsB_of_no_node _ _ hnode])]
          rw [hstep]
          obtain ⟨ih1, ih2, ih3, ih4, ih5, ih6⟩ := ih fs0 dirs0
          refine ⟨?_, ?_, ih3, ?_, ?_, ih6⟩
          · intro k hk
            exact ih1 k (fun l hl => hk l (List.mem_cons_of_mem _ hl))
          · intro l hl hfile
            rcases List.mem_cons.mp hl with he | hl2
            · subst he
              rcases hfile with ⟨b2, hb2⟩
              rw [hnode] at hb2
              exact absurd hb2 (by simp)
            · exact ih2 l hl2 hfile
          · rw [ih4]
            congr 1
            rw [List.filter_cons]
            rw [if_neg (by simp [hnode])]
          · intro l hl t hlk hts htl htu
            rcases List.mem_cons.mp hl with he | hl2
            · subst he
              rw [hnode] at hlk
              exact absurd hlk (by simp)
            · exact ih5 l hl2 t hlk hts htl
                (fun l2 hl2b => htu l2 (List.mem_cons_of_mem _ hl2b))
      | some n =>
          cases n with
          | link t0 =>
              by_cases hex : existsB fs0 (cdPfxDir cd ++ pyStrip ln) = true
              · have hstep : rtfStep cd (fs0, dirs0) ln =
                    (fsDel fs0 (rtfKeyOf cd ln), dirs0) := by
                  simp only [rtfStep]
                  rw [if_pos (by simp [hex]),
                    if_pos (by simp [islinkB_of_link fs0 (cdPfxDir cd ++ pyStrip ln) t0 hnode])]
                  rfl
                rw [hstep]
                obtain ⟨ih1, ih2, ih3, ih4, ih5, ih6⟩ :=
                  ih (fsDel fs0 (rtfKeyOf cd ln)) dirs0
                have hfinal_none : ∀ k, lookupK (fsDel fs0 (rtfKeyOf cd ln)) k = none →
                    lookupK (rest.foldl (rtfStep cd) (fsDel fs0 (rtfKeyOf cd ln), dirs0)).1 k
                      = none := by
                  intro k hk
                  cases hfin : lookupK (rest.foldl (rtfStep cd)
                      (fsDel fs0 (rtfKeyOf cd ln), dirs0)).1 k with
                  | none => rfl
                  | some m =>
                      rw [ih3 k m hfin] at hk
                      exact absurd hk (by simp)
                refine ⟨?_, ?_, ?_, ?_, ?_, ?_⟩
                · intro k hk
                  rw [ih1 k (fun l hl => hk l (List.mem_cons_of_mem _ hl)),
                    lookupK_fsDel_ne _ _ _ (hk ln (List.mem_cons_self _ _))]
                · intro l hl hfile
                  rcases List.mem_cons.mp hl with he | hl2
                  · subst he
                    rcases hfile with ⟨b2, hb2⟩
                    rw [hnode] at hb2
                    exact absurd hb2 (by simp)
                  · by_cases hk : rtfKeyOf cd l = rtfKeyOf cd ln
                    · rw [hk]
                      exact hfinal_none _ (lookupK_fsDel_self _ _)
                    · refine ih2 l hl2 ?_
                      rcases hfile with ⟨b2, hb2⟩
                      exact ⟨b2, by rwa [lookupK_fsDel_ne _ _ _ hk]⟩
                · intro k m hm
                  exact lookupK_fsDel_sub _ _ _ _ (ih3 k m hm)
                · rw [ih4]
                  rw [List.filter_cons, if_neg (by simp [hnode])]
                  congr 2
                  apply List.filter_congr
                  intro l hl
                  by_cases hk : rtfKeyOf cd l = rtfKeyOf cd ln
                  · rw [hk, lookupK_fsDel_self, hnode]
                    simp
                  · rw [lookupK_fsDel_ne _ _ _ hk]
                · intro l hl t hlk hts htl htu
                  rcases List.mem_cons.mp hl with he | hl2
                  · subst he
                    exact hfinal_none _ (lookupK_fsDel_self _ _)
                  · by_cases hk : rtfKeyOf cd l = rtfKeyOf cd ln
                    · rw [hk]
                      exact hfinal_none _ (lookupK_fsDel_self _ _)
                    · have htk : rtfTgtKey cd l t ≠ rtfKeyOf cd ln :=
                        htu ln (List.mem_cons_self _ _)
                      refine ih5 l hl2 t ?_ ?_ ?_
                          (fun l2 hl2b => htu l2 (List.mem_cons_of_mem _ hl2b))
                      · rwa [lookupK_fsDel_ne _ _ _ hk]
                      · rwa [lookupK_fsDel_ne _ _ _ htk]
                      · rwa [lookupK_fsDel_ne _ _ _ htk]
                · intro k t hk hab htn
                  have hkK : k ≠ rtfKeyOf cd ln := by
                    intro he
                    rw [he, hnode] at hk
                    simp only [Option.some.injEq, Node.link.injEq] at hk
                    subst hk
                    have hdang : existsB fs0 (cdPfxDir cd ++ pyStrip ln) = false := by
                      refine existsB_link_dangling fs0 (cdPfxDir cd ++ pyStrip ln) t0 hnode ?_
                      rw [resolveLinkTarget_abs _ _ hab]
                      exact htn
                    rw [hdang] at hex
                    exact absurd hex (by simp)
                  refine ih6 k t ?_ hab ?_
                  · rwa [lookupK_fsDel_ne _ _ _ hkK]
                  · exact lookupK_fsDel_none _ _ _ htn
              · have hstep : rtfStep cd (fs0, dirs0) ln = (fs0, dirs0) := by
                  simp only [rtfStep]
                  rw [if_neg (by simp [hex])]
                rw [hstep]
                obtain ⟨ih1, ih2, ih3, ih4, ih5, ih6⟩ := ih fs0 dirs0
                refine ⟨?_, ?_, ih3, ?_, ?_, ih6⟩
                · intro k hk
                  exact ih1 k (fun l hl => hk l (List.mem_cons_of_mem _ hl))
                · intro l hl hfile
                  rcases List.mem_cons.mp hl with he | hl2
                  · subst he
                    rcases hfile with ⟨b2, hb2⟩
                    rw [hnode] at hb2
                    exact absurd hb2 (by simp)
                  · exact ih2 l hl2 hfile
                · rw [ih4]
                  congr 1
                  rw [List.filter_cons]
                  rw [if_neg (by simp [hnode])]
                · intro l hl t hlk hts htl htu
                  rcases List.mem_cons.mp hl with he | hl2
                  · subst he
                    exact absurd
                      (existsB_link_onehop fs0 (cdPfxDir cd ++ pyStrip l) t hlk hts htl) hex
                  · exact ih5 l hl2 t hlk hts htl
                      (fun l2 hl2b => htu l2 (List.mem_cons_of_mem _ hl2b))
          | dir =>
              have hstep : rtfStep cd (fs0, dirs0) ln =
                  (fs0, dirs0 ++ [cdPfxDir cd ++ pyStrip ln]) := by
                simp only [rtfStep]
                rw [if_pos (by simp [existsB_of_node _ _ _ (fun t => by simp) hnode]),
                  if_neg (by simp [isfileB_of_dir _ _ hnode,
                    islinkB_of_nonlink _ _ _ (fun t => by simp) hnode])]
              rw [hstep]
              obtain ⟨ih1, ih2, ih3, ih4, ih5, ih6⟩ :=
                ih fs0 (dirs0 ++ [cdPfxDir cd ++ pyStrip ln])
              refine ⟨?_, ?_, ih3, ?_, ?_, ih6⟩
              · intro k hk
                exact ih1 k (fun l hl => hk l (List.mem_cons_of_mem _ hl))
              · intro l hl hfile
                rcases List.mem_cons.mp hl with he | hl2
                · subst he
                  rcases hfile with ⟨b2, hb2⟩
                  rw [hnode] at hb2
                  exact absurd hb2 (by simp)
                · exact ih2 l hl2 hfile
              · rw [ih4]
                rw [List.filter_cons, if_pos (by simp [hnode])]
                simp
              · intro l hl t hlk hts htl htu
                rcases List.mem_cons.mp hl with he | hl2
                · subst he
                  rw [hnode] at hlk
                  exact absurd hlk (by simp)
                · exact ih5 l hl2 t hlk hts htl
                    (fun l2 hl2b => htu l2 (List.mem_cons_of_mem _ hl2b))
          | file b =>
              have hstep : rtfStep cd (fs0, dirs0) ln =
                  (fsDel fs0 (rtfKeyOf cd ln), dirs0) := by
                simp only [rtfStep]
                rw [if_pos (by simp [existsB_of_node _ _ _ (fun t => by simp) hnode]),
                  if_pos (by simp [isfileB_of_file _ _ _ hnode])]
                rfl
              rw [hstep]
              obtain ⟨ih1, ih2, ih3, ih4, ih5, ih6⟩ :=
                ih (fsDel fs0 (rtfKeyOf cd ln)) dirs0
              have hfinal_none : ∀ k, lookupK (fsDel fs0 (rtfKeyOf cd ln)) k = none →
                  lookupK (rest.foldl (rtfStep cd) (fsDel fs0 (rtfKeyOf cd ln), dirs0)).1 k
                    = none := by
                intro k hk
                cases hfin : lookupK (rest.foldl (rtfStep cd)
                    (fsDel fs0 (rtfKeyOf cd ln), dirs0)).1 k with
                | none => rfl
                | some m =>
                    rw [ih3 k m hfin] at hk
                    exact absurd hk (by simp)
              refine ⟨?_, ?_, ?_, ?_, ?_, ?_⟩
              · intro k hk
                rw [ih1 k (fun l hl => hk l (List.mem_cons_of_mem _ hl)),
                  lookupK_fsDel_ne _ _ _ (hk ln (List.mem_cons_self _ _))]
              · intro l hl hfile
                rcases List.mem_cons.mp hl with he | hl2
                · subst he
                  exact hfinal_none _ (lookupK_fsDel_self _ _)
                · by_cases hk : rtfKeyOf cd l = rtfKeyOf cd ln
                  · rw [hk]
                    exact hfinal_none _ (lookupK_fsDel_self _ _)
                  · refine ih2 l hl2 ?_
                    rcases hfile with ⟨b2, hb2⟩
                    exact ⟨b2, by rwa [lookupK_fsDel_ne _ _ _ hk]⟩
              · intro k m hm
                exact lookupK_fsDel_sub _ _ _ _ (ih3 k m hm)
              · rw [ih4]
                rw [List.filter_cons, if_neg (by simp [hnode])]
                congr 2
                apply List.filter_congr
                intro l hl
                by_cases hk : rtfKeyOf cd l = rtfKeyOf cd ln
                · rw [hk, lookupK_fsDel_self, hnode]
                  simp
                · rw [lookupK_fsDel_ne _ _ _ hk]
              · intro l hl t hlk hts htl htu
                rcases List.mem_cons.mp hl with he | hl2
                · subst he
                  rw [hnode] at hlk
                  exact absurd hlk (by simp)
                · by_cases hk : rtfKeyOf cd l = rtfKeyOf cd ln
                  · rw [hk]
                    exact hfinal_none _ (lookupK_fsDel_self _ _)
                  · have htk : rtfTgtKey cd l t ≠ rtfKeyOf cd ln :=
                      htu ln (List.mem_cons_self _ _)
                    refine ih5 l hl2 t ?_ ?_ ?_
                        (fun l2 hl2b => htu l2 (List.mem_cons_of_mem _ hl2b))
                    · rwa [lookupK_fsDel_ne _ _ _ hk]
                    · rwa [lookupK_fsDel_ne _ _ _ htk]
                    · rwa [lookupK_fsDel_ne _ _ _ htk]
              · intro k t hk hab htn
                have hkK : k ≠ rtfKeyOf cd ln := by
                  intro he
                  rw [he, hnode] at hk
                  exact absurd hk (by simp)
                refine ih6 k t ?_ hab ?_
                · rwa [lookupK_fsDel_ne _ _ _ hkK]
                · exact lookupK_fsDel_none _ _ _ htn

/-- The directory pass of `remove_tracked_files`: the trace records one
`rmdir` attempt per deferred directory in order, the pass only deletes
directory bindings among the given keys, and logs are untouched. -/
theorem rtfRmdirPass_props (ds : List Str) (s : St) :
    (rtfRmdirPass s ds).trace = s.trace ++ ds.map (fun d => Ev.rmdirAttempt (normKey d)) ∧
    (rtfRmdirPass s ds).logs = s.logs ∧
    (∀ k, (∀ d ∈ ds, k ≠ normKey d) → lookupK (rtfRmdirPass s ds).fs k = lookupK s.fs k) ∧
    (∀ k n, lookupK (rtfRmdirPass s ds).fs k = some n → lookupK s.fs k = some n) ∧
    (∀ k t, lookupK s.fs k = some (.link t) →
        lookupK (rtfRmdirPass s ds).fs k = some (.link t)) := by
  have stepTrace : ∀ (s1 : St) (d1 : Str),
      (rtfRmdirStep s1 d1).trace = s1.trace ++ [Ev.rmdirAttempt (normKey d1)] := by
    intro s1 d1
    simp only [rtfRmdirStep]
    split <;> simp [addEvs]
  have stepLogs : ∀ (s1 : St) (d1 : Str), (rtfRmdirStep s1 d1).logs = s1.logs := by
    intro s1 d1
    simp only [rtfRmdirStep]
    split <;> simp [addEvs]
  have stepFsNe : ∀ (s1 : St) (d1 : Str) (k : Key), k ≠ normKey d1 →
      lookupK (rtfRmdirStep s1 d1).fs k = lookupK s1.fs k := by
    intro s1 d1 k hk
    simp only [rtfRmdirStep]
    split
    · case _ fs2 hr =>
        have := rmdirOp_some _ _ _ hr
        simp only [addEvs] at this ⊢
        rw [this]
        exact lookupK_fsDel_ne _ _ _ hk
    · simp [addEvs]
  have stepFsSub : ∀ (s1 : St) (d1 : Str) (k : Key) (n : Node),
      lookupK (rtfRmdirStep s1 d1).fs k = some n → lookupK s1.fs k = some n := by
    intro s1 d1 k n hn
    simp only [rtfRmdirStep] at hn
    split at hn
    · case _ fs2 hr =>
        have := rmdirOp_some _ _ _ hr
        simp only [addEvs] at this hn
        rw [this] at hn
        exact lookupK_fsDel_sub _ _ _ _ hn
    · simpa [addEvs] using hn
  have stepFsLink : ∀ (s1 : St) (d1 : Str) (k : Key) (t : Str),
      lookupK s1.fs k = some (.link t) →
      lookupK (rtfRmdirStep s1 d1).fs k = some (.link t) := by
    intro s1 d1 k t hk
    by_cases he : k = normKey d1
    · simp only [rtfRmdirStep]
      split
      · case _ fs2 hr =>
          simp only [rmdirOp, addEvs] at hr
          rw [← he, hk] at hr
          exact absurd hr (by simp)
      · simpa [addEvs] using hk
    · rw [stepFsNe s1 d1 k he]
      exact hk
  induction ds generalizing s with
  | nil => exact ⟨by simp [rtfRmdirPass], rfl, fun k _ => rfl, fun k n h => h, fun k t h => h⟩
  | cons d rest ih =>
      have hone : rtfRmdirPass s (d :: rest) = rtfRmdirPass (rtfRmdirStep s d) rest := rfl
      rw [hone]
      obtain ⟨ih1, ih2, ih3, ih4, ih5⟩ := ih (rtfRmdirStep s d)
      refine ⟨?_, ?_, ?_, ?_, ?_⟩
      · rw [ih1, stepTrace]
        simp
      · rw [ih2, stepLogs]
      · intro k hk
        rw [ih3 k (fun e he => hk e (List.mem_cons_of_mem _ he))]
        exact stepFsNe s d k (hk d (List.mem_cons_self _ _))
      · intro k n hn
        exact stepFsSub s d k n (ih4 k n hn)
      · intro k t hk
        exact ih5 k t (stepFsLink s d k t hk)

theorem lookupK_isSome_of_openBytes (fs : FS) (p : Str) (bs : List Nat)
    (h : openBytes fs p = some bs) : (lookupK fs (normKey p)).isSome = true := by
  unfold openBytes resolveFuel at h
  unfold resolveNode at h
  cases hl : lookupK fs (normKey p) with
  | none => rw [hl] at h; simp at h
  | some n => simp

/-- Claim C4 as amended: `remove_tracked_files` unlinks every listed entry
that exists as a file or symlink — a file entry is deleted, a symlink entry
that resolves (its immediate target a non-link node at an unlisted key) is
deleted, and a dangling absolute symlink fails the `os.path.exists` test
and is skipped — then attempts `rmdir` on the directory entries *in
manifest order*: every attempt appears in the trace, so a swallowed
non-empty-directory failure aborts nothing.  It touches no unlisted key
and finally deletes the manifest and version files. -/
theorem claimC4_remove_tracked_files (cd : Str) (s : St) (bs : List Nat)
    (hopen : openBytes s.fs (cdTrackedFile cd) = some bs)
    (hver : (lookupK s.fs (normKey (cdVersionFile cd))).isSome = true)
    (hvt : normKey (cdVersionFile cd) ≠ normKey (cdTrackedFile cd))
    (hln : ∀ ln ∈ linesOfBytes bs,
        rtfKeyOf cd ln ≠ normKey (cdTrackedFile cd) ∧
        rtfKeyOf cd ln ≠ normKey (cdVersionFile cd)) :
    ∃ s2, removeTrackedFiles cd s = some s2 ∧
      lookupK s2.fs (normKey (cdTrackedFile cd)) = none ∧
      lookupK s2.fs (normKey (cdVersionFile cd)) = none ∧
      (∀ ln ∈ linesOfBytes bs, (∃ b2, lookupK s.fs (rtfKeyOf cd ln) = some (.file b2)) →
          lookupK s2.fs (rtfKeyOf cd ln) = none) ∧
      (∀ ln ∈ linesOfBytes bs, ∀ t,
          lookupK s.fs (rtfKeyOf cd ln) = some (.link t) →
          (lookupK s.fs (rtfTgtKey cd ln t)).isSome = true →
          isLinkNode (lookupK s.fs (rtfTgtKey cd ln t)) = false →
          (∀ l2 ∈ linesOfBytes bs, rtfTgtKey cd ln t ≠ rtfKeyOf cd l2) →
          lookupK s2.fs (rtfKeyOf cd ln) = none) ∧
      (∀ ln ∈ linesOfBytes bs, ∀ t,
          lookupK s.fs (rtfKeyOf cd ln) = some (.link t) →
          t.head? = some '/' →
          lookupK s.fs (normKey t) = none →
          lookupK s2.fs (rtfKeyOf cd ln) = some (.link t)) ∧
      (∀ k, (∀ ln ∈ linesOfBytes bs, k ≠ rtfKeyOf cd ln) →
          k ≠ normKey (cdTrackedFile cd) → k ≠ normKey (cdVersionFile cd) →
          lookupK s2.fs k = lookupK s.fs k) ∧
      s2.trace = s.trace ++ ((linesOfBytes bs).filter
          (fun ln => lookupK s.fs (rtfKeyOf cd ln) = some Node.dir)).map
          (fun ln => Ev.rmdirAttempt (rtfKeyOf cd ln)) := by
  obtain ⟨f1, f2, f3, f4, f5, f6⟩ := rtfFold_props cd (linesOfBytes bs) s.fs []
  set lns := linesOfBytes bs with hlns
  set p1 := lns.foldl (rtfStep cd) (s.fs, []) with hp1
  have hdsKey : ∀ d ∈ p1.2, ∃ ln ∈ lns, normKey d = rtfKeyOf cd ln := by
    intro d hd
    rw [f4] at hd
    simp only [List.nil_append, List.mem_map, List.mem_filter] at hd
    rcases hd with ⟨ln, ⟨hl, _⟩, hrfl⟩
    exact ⟨ln, hl, by rw [← hrfl]; rfl⟩
  obtain ⟨r1, r2, r3, r4, r5⟩ := rtfRmdirPass_props p1.2 { s with fs := p1.1 }
  set s1 := rtfRmdirPass { s with fs := p1.1 } p1.2 with hs1
  -- the manifest and version records survive both passes
  have hTr1 : lookupK s1.fs (normKey (cdTrackedFile cd)) =
      lookupK s.fs (normKey (cdTrackedFile cd)) := by
    rw [r3 _ ?hne]
    · exact f1 _ (fun l hl => fun he => ((hln l hl).1 he.symm))
    case hne =>
      intro d hd he
      rcases hdsKey d hd with ⟨ln, hl, hk⟩
      exact (hln ln hl).1 (by rw [← hk, ← he])
  have hVer1 : lookupK s1.fs (normKey (cdVersionFile cd)) =
      lookupK s.fs (normKey (cdVersionFile cd)) := by
    rw [r3 _ ?hne2]
    · exact f1 _ (fun l hl => fun he => ((hln l hl).2 he.symm))
    case hne2 =>
      intro d hd he
      rcases hdsKey d hd with ⟨ln, hl, hk⟩
      exact (hln ln hl).2 (by rw [← hk, ← he])
  have hTrSome : (lookupK s.fs (normKey (cdTrackedFile cd))).isSome = true :=
    lookupK_isSome_of_openBytes _ _ _ hopen
  have hRem1 : removeOp s1.fs (cdTrackedFile cd) =
      some (fsDel s1.fs (normKey (cdTrackedFile cd))) := by
    unfold removeOp
    rw [if_pos ?hex]
    case hex =>
      unfold lexistsB
      rw [hTr1]
      exact hTrSome
  have hRem2 : removeOp (fsDel s1.fs (normKey (cdTrackedFile cd))) (cdVersionFile cd) =
      some (fsDel (fsDel s1.fs (normKey (cdTrackedFile cd))) (normKey (cdVersionFile cd))) := by
    unfold removeOp
    rw [if_pos ?hex2]
    case hex2 =>
      unfold lexistsB
      rw [lookupK_fsDel_ne _ _ _ hvt, hVer1]
      exact hver
  set fsF := fsDel (fsDel s1.fs (normKey (cdTrackedFile cd))) (normKey (cdVersionFile cd)) with hfsF
  have hrun : removeTrackedFiles cd s = some { s1 with fs := fsF } := by
    unfold removeTrackedFiles
    rw [if_neg (by simp [existsB_of_openBytes _ _ _ hopen]), hopen]
    simp only [← hlns, ← hp1, ← hs1, hRem1, hRem2, ← hfsF]
  refine ⟨_, hrun, ?_, ?_, ?_, ?_, ?_, ?_, ?_⟩
  · rw [hfsF, lookupK_fsDel_ne _ _ _ (fun he => hvt he.symm), lookupK_fsDel_self]
  · rw [hfsF, lookupK_fsDel_self]
  · intro ln hl hfile
    have h1 : lookupK p1.1 (rtfKeyOf cd ln) = none := f2 ln hl hfile
    cases hfin : lookupK fsF (rtfKeyOf cd ln) with
    | none => rfl
    | some m =>
        rw [hfsF] at hfin
        have h2 := lookupK_fsDel_sub _ _ _ _ (lookupK_fsDel_sub _ _ _ _ hfin)
        have h3 := r4 _ _ h2
        rw [h1] at h3
        exact absurd h3 (by simp)
  · intro ln hl t hlk hts htl htu
    have h1 : lookupK p1.1 (rtfKeyOf cd ln) = none := f5 ln hl t hlk hts htl htu
    cases hfin : lookupK fsF (rtfKeyOf cd ln) with
    | none => rfl
    | some m =>
        rw [hfsF] at hfin
        have h2 := lookupK_fsDel_sub _ _ _ _ (lookupK_fsDel_sub _ _ _ _ hfin)
        have h3 := r4 _ _ h2
        rw [h1] at h3
        exact absurd h3 (by simp)
  · intro ln hl t hlk hab htn
    have h1 : lookupK p1.1 (rtfKeyOf cd ln) = some (.link t) := f6 _ t hlk hab htn
    have h2 : lookupK s1.fs (rtfKeyOf cd ln) = some (.link t) := r5 _ t h1
    rw [hfsF, lookupK_fsDel_ne _ _ _ (hln ln hl).2, lookupK_fsDel_ne _ _ _ (hln ln hl).1]
    exact h2
  · intro k hk hkt hkv
    rw [hfsF, lookupK_fsDel_ne _ _ _ hkv, lookupK_fsDel_ne _ _ _ hkt,
      r3 _ ?hne3]
    · exact f1 k hk
    case hne3 =>
      intro d hd he
      rcases hdsKey d hd with ⟨ln, hl, hkk⟩
      exact hk ln hl (by rw [← hkk, ← he])
  · have ht : s1.trace = s.trace ++ p1.2.map (fun d => Ev.rmdirAttempt (normKey d)) := r1
    show s1.trace = _
    rw [ht, f4]
    simp only [List.nil_append, List.map_map]
    rfl

/-- A prefix whose manifest lists two nested directories, a plain file, a
symlink resolving to a file outside the prefix, and a dangling symlink. -/
def stC4w : St :=
  { fs := [(normKey (S "/c4w/version"), .file (strBytes (S "x\n"))),
           (normKey (S "/c4w/tracked_files"), .file (strBytes (S "a/\na/b/\nf.txt\nlnk.dll\ndang.dll\n"))),
           (normKey (S "/c4w/pfx"), .dir),
           (normKey (S "/c4w/pfx/a"), .dir),
           (normKey (S "/c4w/pfx/a/b"), .dir),
           (normKey (S "/c4w/pfx/f.txt"), .file [1]),
           (normKey (S "/c4w/pfx/lnk.dll"), .link (S "/t/target.dll")),
           (normKey (S "/c4w/pfx/dang.dll"), .link (S "/t/missing.dll")),
           (normKey (S "/t/target.dll"), .file [2])],
    logs := [], trace := [], dllov := [] }

/-- Witness for the amended C4 theorem at a manifest holding two nested
directories, a plain file, a resolving symlink and a dangling symlink. -/
theorem claimC4_witness :
    ∃ s2, removeTrackedFiles (S "/c4w") stC4w = some s2 ∧
      lookupK s2.fs (normKey (cdTrackedFile (S "/c4w"))) = none ∧
      lookupK s2.fs (normKey (cdVersionFile (S "/c4w"))) = none ∧
      (∀ ln ∈ linesOfBytes (strBytes (S "a/\na/b/\nf.txt\nlnk.dll\ndang.dll\n")),
        (∃ b2, lookupK stC4w.fs (rtfKeyOf (S "/c4w") ln) = some (.file b2)) →
          lookupK s2.fs (rtfKeyOf (S "/c4w") ln) = none) ∧
      (∀ ln ∈ linesOfBytes (strBytes (S "a/\na/b/\nf.txt\nlnk.dll\ndang.dll\n")), ∀ t,
          lookupK stC4w.fs (rtfKeyOf (S "/c4w") ln) = some (.link t) →
          (lookupK stC4w.fs (rtfTgtKey (S "/c4w") ln t)).isSome = true →
          isLinkNode (lookupK stC4w.fs (rtfTgtKey (S "/c4w") ln t)) = false →
          (∀ l2 ∈ linesOfBytes (strBytes (S "a/\na/b/\nf.txt\nlnk.dll\ndang.dll\n")),
            rtfTgtKey (S "/c4w") ln t ≠ rtfKeyOf (S "/c4w") l2) →
          lookupK s2.fs (rtfKeyOf (S "/c4w") ln) = none) ∧
      (∀ ln ∈ linesOfBytes (strBytes (S "a/\na/b/\nf.txt\nlnk.dll\ndang.dll\n")), ∀ t,
          lookupK stC4w.fs (rtfKeyOf (S "/c4w") ln) = some (.link t) →
          t.head? = some '/' →
          lookupK stC4w.fs (normKey t) = none →
          lookupK s2.fs (rtfKeyOf (S "/c4w") ln) = some (.link t)) ∧
      (∀ k, (∀ ln ∈ linesOfBytes (strBytes (S "a/\na/b/\nf.txt\nlnk.dll\ndang.dll\n")),
            k ≠ rtfKeyOf (S "/c4w") ln) →
          k ≠ normKey (cdTrackedFile (S "/c4w")) → k ≠ normKey (cdVersionFile (S "/c4w")) →
          lookupK s2.fs k = lookupK stC4w.fs k) ∧
      s2.trace = stC4w.trace ++ ((linesOfBytes (strBytes (S "a/\na/b/\nf.txt\nlnk.dll\ndang.dll\n"))).filter
          (fun ln => lookupK stC4w.fs (rtfKeyOf (S "/c4w") ln) = some Node.dir)).map
          (fun ln => Ev.rmdirAttempt (rtfKeyOf (S "/c4w") ln)) :=
  claimC4_remove_tracked_files (S "/c4w") stC4w (strBytes (S "a/\na/b/\nf.txt\nlnk.dll\ndang.dll\n"))
    (by decide) (by decide) (by decide) (by decide)

/-! ### Claim C8: merge_user_dir -/

/-- A legacy tree with subdirectories `A` (already present at the
destination) and `B` (absent there, holding a file). -/
def c8fs : FS :=
  [(normKey (S "/c/pfx/old"), .dir),
   (normKey (S "/c/pfx/old/A"), .dir),
   (normKey (S "/c/pfx/old/B"), .dir),
   (normKey (S "/c/pfx/old/B/f.txt"), .file [7]),
   (normKey (S "/c/pfx/new"), .dir),
   (normKey (S "/c/pfx/new/A"), .dir)]

/-- Claim C8, settled as a code bug: merging `old` into `new` should copy
the entries of `B` (absent at the destination and not inside any
already-merged subtree), but the source's `extant_dirs += dst_dir` extends
the list with the *characters* of the path string, and the subsequent
substring test `dir_ in dst_dir` then matches every later directory (each
contains `'/'`), so after meeting the pre-existing `A` the walk skips `B`
entirely: neither `new/B` nor `new/B/f.txt` is created. -/
theorem claimC8_merge_skips_sibling_dirs :
    lookupK c8fs (normKey (S "/c/pfx/old/B/f.txt")) = some (.file [7]) ∧
    lexistsB c8fs (S "/c/pfx/new/A") = true ∧
    lexistsB c8fs (S "/c/pfx/new/B") = false ∧
    (mergeUserDir c8fs (S "/c/pfx/old") (S "/c/pfx/new")).map
        (fun fs => (lexistsB fs (S "/c/pfx/new/B"), lexistsB fs (S "/c/pfx/new/B/f.txt"))) =
      some (false, false) := by
  refine ⟨by decide, by decide, by decide, by decide⟩

/-! ### Well-formed filesystems and walk shapes -/

/-- Every key component in the filesystem is clean. -/
def FSok (fs : FS) : Prop := ∀ e ∈ fs, ∀ c ∈ e.1, cleanComp c

/-- Generic preservation along an `Option`-monadic fold. -/
theorem foldlM_option_preserves {σ α : Type} (step : σ → α → Option σ) (l : List α)
    (x0 x2 : σ) (h : l.foldlM step x0 = some x2) (P : σ → Prop)
    (hstep : ∀ x y a, a ∈ l → step x a = some y → P x → P y) (h0 : P x0) : P x2 := by
  induction l generalizing x0 with
  | nil =>
      simp only [List.foldlM_nil] at h
      cases h
      exact h0
  | cons a rest ih =>
      rw [List.foldlM_cons] at h
      cases hs : step x0 a with
      | none => rw [hs] at h; simp at h
      | some x1 =>
          simp only [hs, Option.bind_eq_bind, Option.some_bind] at h
          exact ih x1 h
            (fun x y b hb => hstep x y b (List.mem_cons_of_mem _ hb))
            (hstep x0 x1 a (List.mem_cons_self _ _) hs h0)

theorem childEntries_name_clean (fs : FS) (hok : FSok fs) (k : Key) :
    ∀ p ∈ childEntries fs k, cleanComp p.1 := by
  intro p hp
  unfold childEntries at hp
  rcases List.mem_filterMap.mp hp with ⟨e, he, hcond⟩
  split at hcond
  · cases hcond
    case _ hlen =>
      have hne : e.1 ≠ [] := by
        intro hnil
        rw [hnil] at hlen
        simp at hlen
      have : e.1.getLastD [] ∈ e.1 := by
        rw [List.getLastD_eq_getLast?, List.getLast?_eq_getLast _ hne]
        simp only [Option.getD_some]
        exact List.getLast_mem hne
      exact hok e he _ this
  · exact absurd hcond (by simp)

theorem walkChildren_clean (fs : FS) (hok : FSok fs) (d : Str) :
    (∀ n ∈ (walkChildren fs d).1, cleanComp n) ∧
    (∀ n ∈ (walkChildren fs d).2, cleanComp n) := by
  constructor
  · intro n hn
    unfold walkChildren at hn
    simp only at hn
    rcases List.mem_filterMap.mp hn with ⟨p, hp, hcond⟩
    have := childEntries_name_clean fs hok (normKey d) p hp
    split at hcond
    · cases hcond; exact this
    · split at hcond
      · cases hcond; exact this
      · exact absurd hcond (by simp)
    · exact absurd hcond (by simp)
  · intro n hn
    unfold walkChildren at hn
    simp only at hn
    rcases List.mem_filterMap.mp hn with ⟨p, hp, hcond⟩
    have := childEntries_name_clean fs hok (normKey d) p hp
    split at hcond
    · exact absurd hcond (by simp)
    · split at hcond
      · exact absurd hcond (by simp)
      · cases hcond; exact this
    · cases hcond; exact this

theorem joinPath_clean (d n : Str) (hd : d ≠ []) (hl : d.getLast? ≠ some '/')
    (hn : cleanComp n) : joinPath d n = d ++ '/' :: n := by
  unfold joinPath
  have hh : ¬ (n.head? = some '/') := by
    rcases hn with ⟨hne, hsl, _, _⟩
    cases n with
    | nil => simp
    | cons c cs =>
        simp only [List.head?_cons]
        intro hc
        cases hc
        exact hsl (List.mem_cons_self _ _)
  rw [if_neg hh, if_neg (by simp [hd, hl])]

theorem cons_slash_getLast (n : Str) (hn : cleanComp n) :
    ('/' :: n).getLast? ≠ some '/' ∧ ('/' :: n : Str) ≠ [] := by
  rcases hn with ⟨hne, hsl, _, _⟩
  refine ⟨?_, by simp⟩
  cases n with
  | nil => exact absurd rfl hne
  | cons c cs =>
      rw [List.getLast?_cons_cons]
      intro hc
      have hq : (c :: cs : Str).getLast? = some ((c :: cs).getLast (by simp)) :=
        List.getLast?_eq_getLast _ _
      rw [hq] at hc
      have h2 := Option.some.inj hc
      exact hsl (h2 ▸ List.getLast_mem (by simp))

theorem findSub_zero (s pat : Str) (h : pat.isPrefixOf s = true) : findSub s pat = some 0 := by
  unfold findSub
  have hr : List.range (s.length + 1) = 0 :: (List.range s.length).map Nat.succ :=
    List.range_succ_eq_map s.length
  rw [hr]
  simp [List.find?, h]

theorem pyReplaceOnce_of_append (a s b : Str) :
    pyReplaceOnce (a ++ s) a b = b ++ s := by
  unfold pyReplaceOnce
  rw [findSub_zero _ _ (by simp)]
  simp [List.drop_left]

theorem append_slashJoin_ok (d : Str) (ns : List Str) (hne : d ≠ [])
    (hd : d.getLast? ≠ some '/') (h : ∀ n ∈ ns, cleanComp n) :
    (d ++ slashJoin ns) ≠ [] ∧ (d ++ slashJoin ns).getLast? ≠ some '/' := by
  induction ns generalizing d with
  | nil => simp only [slashJoin, List.foldl_nil, List.append_nil]; exact ⟨hne, hd⟩
  | cons n ns ih =>
      rw [slashJoin_cons, ← List.append_assoc]
      refine ih (d ++ '/' :: n) (by simp) ?_
        (fun m hm => h m (List.mem_cons_of_mem _ hm))
      rw [List.getLast?_append_cons]
      exact (cons_slash_getLast n (h n (List.mem_cons_self _ _))).1

theorem walkAux_shape (fs : FS) (hok : FSok fs) (fuel : Nat) :
    ∀ (d : Str), d ≠ [] → d.getLast? ≠ some '/' →
    ∀ t ∈ walkAux fs fuel d,
      (∃ ns : List Str, (∀ n ∈ ns, cleanComp n) ∧ t.1 = d ++ slashJoin ns) ∧
      (∀ n ∈ t.2.1, cleanComp n) ∧ (∀ n ∈ t.2.2, cleanComp n) := by
  induction fuel with
  | zero =>
      intro d _ _ t ht
      exact absurd ht (by simp [walkAux])
  | succ fuel ih =>
      intro d hd1 hd2 t ht
      rw [walkAux] at ht
      rcases List.mem_cons.mp ht with h | h
      · subst h
        exact ⟨⟨[], by simp, by simp [slashJoin]⟩,
          (walkChildren_clean fs hok d).1, (walkChildren_clean fs hok d).2⟩
      · rcases List.mem_flatMap.mp h with ⟨n, hn, ht2⟩
        have hnc : cleanComp n :=
          (walkChildren_clean fs hok d).1 n (List.mem_of_mem_filter hn)
        have hj : joinPath d n = d ++ '/' :: n := joinPath_clean d n hd1 hd2 hnc
        have hlast : (joinPath d n).getLast? ≠ some '/' := by
          rw [hj, List.getLast?_append_cons]
          exact (cons_slash_getLast n hnc).1
        have hne : joinPath d n ≠ [] := by rw [hj]; simp
        obtain ⟨⟨ns, hns, hshape⟩, h1, h2⟩ := ih (joinPath d n) hne hlast t ht2
        refine ⟨⟨n :: ns, ?_, ?_⟩, h1, h2⟩
        · intro m hm
          rcases List.mem_cons.mp hm with hm | hm
          · exact hm ▸ hnc
          · exact hns m hm
        · rw [hshape, hj, slashJoin_cons, ← List.append_assoc]

theorem isdirB_false_of_existsB_false (fs : FS) (p : Str) (h : existsB fs p = false) :
    isdirB fs p = false := by
  unfold existsB at h
  unfold isdirB
  cases hr : resolveNode fs (resolveFuel fs) p with
  | none => rfl
  | some pr => rw [hr] at h; simp at h

/-- `try_copy` preservation at a destination that is not a directory: only
the destination key itself can change. -/
theorem tryCopy_lookup_ne_nd (fs : FS) (src dst : Str) (o fl : Bool) (fs2 : FS) (k : Key)
    (h : tryCopy fs src dst o fl = some fs2)
    (hnd : isdirB fs dst = false) (hk1 : k ≠ normKey dst) :
    lookupK fs2 k = lookupK fs k := by
  simp only [tryCopy] at h
  have hkd : k ≠ normKey (tryCopyDstfile fs src dst) := by
    unfold tryCopyDstfile
    rw [if_neg (by simp [hnd])]
    exact hk1
  have hfs1 : lookupK (tryCopyClear fs (tryCopyDstfile fs src dst)) k = lookupK fs k := by
    unfold tryCopyClear
    split
    · exact lookupK_fsDel_ne _ _ _ hkd
    · rfl
  split at h
  · cases h
    rw [lookupK_fsSet_ne _ _ _ _ hkd]
    exact hfs1
  · split at h
    · cases h
      rw [lookupK_fsSet_ne _ _ _ _ hkd]
      exact hfs1
    · split at h
      · cases h
        exact hfs1
      · exact absurd h (by simp)

theorem ne_of_not_isPrefixOf (a k ext : Key) (hk : a.isPrefixOf k = false) :
    k ≠ a ++ ext := by
  intro he
  rw [he, isPrefixOf_append_self] at hk
  cases hk

/-- One `merge_user_dir` walk step only writes strictly below the
destination root: any binding at a key the destination key is not a prefix
of survives. -/
theorem mergeStep_preserves (src dst : Str)
    (hd1 : dst ≠ []) (hd2 : dst.getLast? ≠ some '/')
    (acc acc2 : FS × List Str) (t : Str × List Str × List Str)
    (ns : List Str) (hns : ∀ m ∈ ns, cleanComp m) (ht1 : t.1 = src ++ slashJoin ns)
    (hdirs : ∀ m ∈ t.2.1, cleanComp m) (hfiles : ∀ m ∈ t.2.2, cleanComp m)
    (h : mergeStep src dst acc t = some acc2)
    (k : Key) (n : Node) (hk : (normKey dst).isPrefixOf k = false)
    (hb : lookupK acc.1 k = some n) : lookupK acc2.1 k = some n := by
  have hdd : pyReplaceOnce t.1 src dst = dst ++ slashJoin ns := by
    rw [ht1]
    exact pyReplaceOnce_of_append src (slashJoin ns) dst
  have hdne := append_slashJoin_ok dst ns hd1 hd2 hns
  have hkey : ∀ m : Str, cleanComp m →
      k ≠ normKey (joinPath (dst ++ slashJoin ns) m) := by
    intro m hm
    rw [joinPath_clean _ m hdne.1 hdne.2 hm,
      normKey_append_comp _ m hm, normKey_append_slashJoin dst ns hns,
      List.append_assoc]
    exact ne_of_not_isPrefixOf _ k _ hk
  simp only [mergeStep] at h
  rw [hdd] at h
  split at h
  · cases h
    exact hb
  · split at h
    · cases hA : t.2.1.foldlM (fun fs d =>
          if islinkB fs (joinPath t.1 d) &&
              ¬ existsB fs (joinPath (dst ++ slashJoin ns) d) then
            tryCopy fs (joinPath t.1 d) (joinPath (dst ++ slashJoin ns) d) false false
          else some fs) (makedirsTry acc.1 (dst ++ slashJoin ns)) with
      | none => rw [hA] at h; simp at h
      | some fsA =>
          rw [hA] at h
          simp only [Option.some_bind] at h
          cases hB : t.2.2.foldlM (fun fs f =>
              if ¬ existsB fs (joinPath (dst ++ slashJoin ns) f) then
                tryCopy fs (joinPath t.1 f) (joinPath (dst ++ slashJoin ns) f) false false
              else some fs) fsA with
          | none => rw [hB] at h; simp at h
          | some fsB =>
              rw [hB] at h
              simp only [Option.map_some'] at h
              cases h
              have h0 : lookupK (makedirsTry acc.1 (dst ++ slashJoin ns)) k = some n :=
                makedirsTry_bound _ _ _ _ hb
              have hPA : lookupK fsA k = some n := by
                refine foldlM_option_preserves _ _ _ _ hA
                  (fun fs => lookupK fs k = some n) ?_ h0
                intro x y d hd hg hP
                split at hg
                · case _ hc =>
                    have hguard : existsB x (joinPath (dst ++ slashJoin ns) d) = false := by
                      simp only [Bool.and_eq_true, decide_eq_true_eq] at hc
                      simpa using hc.2
                    rw [tryCopy_lookup_ne_nd _ _ _ _ _ _ _ hg
                      (isdirB_false_of_existsB_false _ _ hguard)
                      (hkey d (hdirs d hd))]
                    exact hP
                · cases hg
                  exact hP
              refine foldlM_option_preserves _ _ _ _ hB
                (fun fs => lookupK fs k = some n) ?_ hPA
              intro x y f hf hg hP
              split at hg
              · case _ hc =>
                  have hguard : existsB x (joinPath (dst ++ slashJoin ns) f) = false := by
                    simpa using hc
                  rw [tryCopy_lookup_ne_nd _ _ _ _ _ _ _ hg
                    (isdirB_false_of_existsB_false _ _ hguard)
                    (hkey f (hfiles f hf))]
                  exact hP
              · cases hg
                exact hP
    · cases h
      exact hb

/-- `merge_user_dir` only writes at or below the destination root. -/
theorem mergeUserDir_preserves (fs : FS) (hok : FSok fs) (src dst : Str)
    (hs1 : src ≠ []) (hs2 : src.getLast? ≠ some '/')
    (hd1 : dst ≠ []) (hd2 : dst.getLast? ≠ some '/')
    (fs2 : FS) (h : mergeUserDir fs src dst = some fs2)
    (k : Key) (n : Node) (hk : (normKey dst).isPrefixOf k = false)
    (hb : lookupK fs k = some n) : lookupK fs2 k = some n := by
  unfold mergeUserDir at h
  cases hF : (osWalk fs src).foldlM (mergeStep src dst) (fs, []) with
  | none => rw [hF] at h; simp at h
  | some a =>
      rw [hF] at h
      simp only [Option.map_some'] at h
      cases h
      refine foldlM_option_preserves (mergeStep src dst) (osWalk fs src) (fs, []) a hF
        (fun acc => lookupK acc.1 k = some n) ?_ hb
      intro x y t htl hstep hP
      have hsh : (∃ ms : List Str, (∀ m ∈ ms, cleanComp m) ∧ t.1 = src ++ slashJoin ms) ∧
          (∀ m ∈ t.2.1, cleanComp m) ∧ (∀ m ∈ t.2.2, cleanComp m) := by
        unfold osWalk at htl
        split at htl
        · exact walkAux_shape fs hok (walkFuel fs) src hs1 hs2 t htl
        · exact absurd htl (by simp)
      obtain ⟨⟨ms, hms, ht1⟩, hdirs, hfiles⟩ := hsh
      exact mergeStep_preserves src dst hd1 hd2 x y t ms hms ht1 hdirs hfiles hstep k n hk hP

/-! ### Normalised keys are clean, and every operation keeps `FSok` -/

theorem splitChAux_no_sep (sep : Char) (s : Str) :
    ∀ (acc : Str), sep ∉ acc → ∀ x ∈ splitChAux sep s acc, sep ∉ x := by
  induction s with
  | nil =>
      intro acc hacc x hx
      simp only [splitChAux, List.mem_singleton] at hx
      subst hx
      simpa using hacc
  | cons c cs ih =>
      intro acc hacc x hx
      simp only [splitChAux] at hx
      split at hx
      · rcases List.mem_cons.mp hx with hx | hx
        · subst hx
          simpa using hacc
        · exact ih [] (by simp) x hx
      · case _ hc =>
          refine ih (c :: acc) ?_ x hx
          intro hm
          rcases List.mem_cons.mp hm with hm | hm
          · exact hc hm.symm
          · exact hacc hm

theorem normComps_mem (cs : List Str) :
    ∀ (acc : List Str), ∀ x ∈ normComps cs acc,
      x ∈ acc ∨ (x ∈ cs ∧ x ≠ [] ∧ x ≠ S "." ∧ x ≠ S "..") := by
  induction cs with
  | nil =>
      intro acc x hx
      simp only [normComps, List.mem_reverse] at hx
      exact Or.inl hx
  | cons c cs ih =>
      intro acc x hx
      simp only [normComps] at hx
      split at hx
      · rcases ih acc x hx with h | ⟨h1, h2⟩
        · exact Or.inl h
        · exact Or.inr ⟨List.mem_cons_of_mem _ h1, h2⟩
      · split at hx
        · rcases ih acc.tail x hx with h | ⟨h1, h2⟩
          · exact Or.inl (List.mem_of_mem_tail h)
          · exact Or.inr ⟨List.mem_cons_of_mem _ h1, h2⟩
        · case _ hne hne2 =>
            rcases ih (c :: acc) x hx with h | ⟨h1, h2⟩
            · rcases List.mem_cons.mp h with h | h
              · subst h
                refine Or.inr ⟨List.mem_cons_self _ _, ?_, ?_, hne2⟩
                · intro he; exact hne (Or.inl he)
                · intro he; exact hne (Or.inr he)
              · exact Or.inl h
            · exact Or.inr ⟨List.mem_cons_of_mem _ h1, h2⟩

theorem normKey_cleanKey (p : Str) : ∀ c ∈ normKey p, cleanComp c := by
  intro c hc
  rcases normComps_mem (pySplit p '/') [] c hc with h | ⟨hmem, h1, h2, h3⟩
  · exact absurd h (List.not_mem_nil c)
  · exact ⟨h1, splitChAux_no_sep '/' p [] (by simp) c hmem, h2, h3⟩

theorem foldl_preserves {σ α : Type} (g : σ → α → σ) (l : List α) (P : σ → Prop)
    (hstep : ∀ x a, a ∈ l → P x → P (g x a)) :
    ∀ x0, P x0 → P (l.foldl g x0) := by
  induction l with
  | nil => intro x0 h0; simpa using h0
  | cons a rest ih =>
      intro x0 h0
      rw [List.foldl_cons]
      exact ih (fun x b hb => hstep x b (List.mem_cons_of_mem _ hb)) _
        (hstep x0 a (List.mem_cons_self _ _) h0)

theorem FSok_fsSet (fs : FS) (k : Key) (n : Node) (hok : FSok fs)
    (hk : ∀ c ∈ k, cleanComp c) : FSok (fsSet fs k n) := by
  induction fs with
  | nil =>
      intro e he c hc
      simp only [fsSet, List.mem_singleton] at he
      subst he
      exact hk c hc
  | cons a fs ih =>
      intro e he c hc
      simp only [fsSet] at he
      split at he
      · rcases List.mem_cons.mp he with he | he
        · subst he; exact hk c hc
        · exact hok e (List.mem_cons_of_mem _ he) c hc
      · rcases List.mem_cons.mp he with he | he
        · rw [he] at hc; exact hok a (List.mem_cons_self _ _) c hc
        · exact ih (fun e' he' => hok e' (List.mem_cons_of_mem _ he')) e he c hc

theorem FSok_filter (fs : FS) (q : Key × Node → Bool) (hok : FSok fs) :
    FSok (fs.filter q) :=
  fun e he => hok e (List.mem_of_mem_filter he)

theorem FSok_fsDel (fs : FS) (k : Key) (hok : FSok fs) : FSok (fsDel fs k) :=
  FSok_filter fs _ hok

theorem FSok_fsDelTree (fs : FS) (k : Key) (hok : FSok fs) : FSok (fsDelTree fs k) :=
  FSok_filter fs _ hok

theorem FSok_rawMakedirs (fs : FS) (p : Str) (fs2 : FS)
    (h : rawMakedirs fs p = some fs2) (hok : FSok fs) : FSok fs2 := by
  simp only [rawMakedirs] at h
  split at h
  · exact absurd h (by simp)
  · split at h
    · exact absurd h (by simp)
    · split at h
      · exact absurd h (by simp)
      · cases h
        refine foldl_preserves _ _ FSok ?_ fs hok
        intro x a ha hP
        rcases List.mem_map.mp ha with ⟨i, _, hi⟩
        split
        · exact hP
        · refine FSok_fsSet x a .dir hP ?_
          intro c hc
          rw [← hi] at hc
          exact normKey_cleanKey p c (List.mem_of_mem_take hc)

theorem FSok_makedirsTry (fs : FS) (p : Str) (hok : FSok fs) :
    FSok (makedirsTry fs p) := by
  unfold makedirsTry
  cases hr : rawMakedirs fs p with
  | none => exact hok
  | some fs2 => exact FSok_rawMakedirs fs p fs2 hr hok

theorem FSok_makedirsExistOk (fs : FS) (p : Str) (fs2 : FS)
    (h : makedirsExistOk fs p = some fs2) (hok : FSok fs) : FSok fs2 := by
  unfold makedirsExistOk at h
  split at h
  · cases h; exact hok
  · exact absurd h (by simp)
  · exact FSok_rawMakedirs fs p fs2 h hok

theorem FSok_renameOp (fs : FS) (src dst : Str) (fs2 : FS)
    (h : renameOp fs src dst = some fs2) (hok : FSok fs) : FSok fs2 := by
  simp only [renameOp] at h
  split at h
  · exact absurd h (by simp)
  · split at h
    · exact absurd h (by simp)
    · cases h
      intro e he c hc
      rcases List.mem_map.mp he with ⟨a, ha, hfa⟩
      by_cases hp : (normKey src).isPrefixOf a.1 = true
      · rw [if_pos hp] at hfa
        subst hfa
        simp only at hc
        rcases List.mem_append.mp hc with hc | hc
        · exact normKey_cleanKey dst c hc
        · exact hok a ha c (List.mem_of_mem_drop hc)
      · rw [if_neg hp] at hfa
        subst hfa
        exact hok a ha c hc

theorem FSok_removeOp (fs : FS) (p : Str) (fs2 : FS)
    (h : removeOp fs p = some fs2) (hok : FSok fs) : FSok fs2 := by
  rw [removeOp_some fs p fs2 h]
  exact FSok_fsDel fs _ hok

theorem FSok_symlinkOp (fs : FS) (t lp : Str) (fs2 : FS)
    (h : symlinkOp fs t lp = some fs2) (hok : FSok fs) : FSok fs2 := by
  rw [symlinkOp_some fs t lp fs2 h]
  exact FSok_fsSet fs _ _ hok (normKey_cleanKey lp)

theorem FSok_tryCopyClear (fs : FS) (df : Str) (hok : FSok fs) :
    FSok (tryCopyClear fs df) := by
  unfold tryCopyClear
  split
  · exact FSok_fsDel fs _ hok
  · exact hok

theorem FSok_tryCopy (fs : FS) (src dst : Str) (o fl : Bool) (fs2 : FS)
    (h : tryCopy fs src dst o fl = some fs2) (hok : FSok fs) : FSok fs2 := by
  simp only [tryCopy] at h
  have h1 : FSok (tryCopyClear fs (tryCopyDstfile fs src dst)) :=
    FSok_tryCopyClear fs _ hok
  split at h
  · cases h
    exact FSok_fsSet _ _ _ h1 (normKey_cleanKey _)
  · split at h
    · cases h
      exact FSok_fsSet _ _ _ h1 (normKey_cleanKey _)
    · split at h
      · cases h
        exact h1
      · exact absurd h (by simp)

theorem FSok_tryCopyfile (fs : FS) (src dst : Str) (fs2 : FS)
    (h : tryCopyfile fs src dst = some fs2) (hok : FSok fs) : FSok fs2 := by
  unfold tryCopyfile at h
  split at h
  · exact absurd h (by simp)
  · split at h
    · cases h
      exact FSok_fsSet _ _ _ (FSok_tryCopyClear fs _ hok) (normKey_cleanKey _)
    · exact absurd h (by simp)

theorem FSok_mergeStep (src dst : Str) (acc acc2 : FS × List Str)
    (t : Str × List Str × List Str) (h : mergeStep src dst acc t = some acc2)
    (hok : FSok acc.1) : FSok acc2.1 := by
  simp only [mergeStep] at h
  split at h
  · cases h; exact hok
  · split at h
    · cases hA : t.2.1.foldlM (fun fs d =>
          if islinkB fs (joinPath t.1 d) &&
              ¬ existsB fs (joinPath (pyReplaceOnce t.1 src dst) d) then
            tryCopy fs (joinPath t.1 d) (joinPath (pyReplaceOnce t.1 src dst) d) false false
          else some fs) (makedirsTry acc.1 (pyReplaceOnce t.1 src dst)) with
      | none => rw [hA] at h; simp at h
      | some fsA =>
          rw [hA] at h
          simp only [Option.some_bind] at h
          cases hB : t.2.2.foldlM (fun fs f =>
              if ¬ existsB fs (joinPath (pyReplaceOnce t.1 src dst) f) then
                tryCopy fs (joinPath t.1 f) (joinPath (pyReplaceOnce t.1 src dst) f) false false
              else some fs) fsA with
          | none => rw [hB] at h; simp at h
          | some fsB =>
              rw [hB] at h
              simp only [Option.map_some'] at h
              cases h
              have h0 : FSok (makedirsTry acc.1 (pyReplaceOnce t.1 src dst)) :=
                FSok_makedirsTry _ _ hok
              have hPA : FSok fsA := by
                refine foldlM_option_preserves _ _ _ _ hA FSok ?_ h0
                intro x y d _ hg hP
                split at hg
                · exact FSok_tryCopy _ _ _ _ _ _ hg hP
                · cases hg; exact hP
              refine foldlM_option_preserves _ _ _ _ hB FSok ?_ hPA
              intro x y f _ hg hP
              split at hg
              · exact FSok_tryCopy _ _ _ _ _ _ hg hP
              · cases hg; exact hP
    · cases h
      exact hok

theorem FSok_mergeUserDir (fs : FS) (src dst : Str) (fs2 : FS)
    (h : mergeUserDir fs src dst = some fs2) (hok : FSok fs) : FSok fs2 := by
  unfold mergeUserDir at h
  cases hF : (osWalk fs src).foldlM (mergeStep src dst) (fs, []) with
  | none => rw [hF] at h; simp at h
  | some a =>
      rw [hF] at h
      simp only [Option.map_some'] at h
      cases h
      refine foldlM_option_preserves (mergeStep src dst) (osWalk fs src) (fs, []) a hF
        (fun acc => FSok acc.1) ?_ hok
      intro x y t _ hstep hP
      exact FSok_mergeStep src dst x y t hstep hP

theorem renameMap_src_none (fs : FS) (sk dk : Key) (hnp : dk.isPrefixOf sk = false) :
    lookupK (fs.map (fun e =>
      if sk.isPrefixOf e.1 then (dk ++ e.1.drop sk.length, e.2) else e)) sk = none := by
  induction fs with
  | nil => rfl
  | cons e fs ih =>
      simp only [List.map_cons]
      by_cases hp : sk.isPrefixOf e.1 = true
      · rw [if_pos hp]
        simp only [lookupK]
        have hne : ¬ ((dk ++ e.1.drop sk.length) = sk) := by
          intro he
          have hx := isPrefixOf_append_self dk (e.1.drop sk.length)
          rw [he, hnp] at hx
          cases hx
        rw [if_neg hne]
        exact ih
      · rw [if_neg hp]
        simp only [lookupK]
        have hne : ¬ (e.1 = sk) := by
          intro he
          apply hp
          rw [he]
          simp
        rw [if_neg hne]
        exact ih

theorem renameOp_src_none (fs : FS) (src dst : Str) (fs2 : FS)
    (h : renameOp fs src dst = some fs2)
    (hnp : (normKey dst).isPrefixOf (normKey src) = false) :
    lookupK fs2 (normKey src) = none := by
  simp only [renameOp] at h
  split at h
  · exact absurd h (by simp)
  · split at h
    · exact absurd h (by simp)
    · cases h
      exact renameMap_src_none fs _ _ hnp

/-- After the merge stage, the legacy path is unbound or bound to a link. -/
theorem migrateMergeStage_post (s s1 : St) (oldP newP : Str)
    (hnp : (normKey (oldP ++ S " BACKUP")).isPrefixOf (normKey oldP) = false)
    (h : migrateMergeStage s oldP newP = some s1) :
    lookupK s1.fs (normKey oldP) = none ∨
      ∃ t, lookupK s1.fs (normKey oldP) = some (.link t) := by
  unfold migrateMergeStage at h
  split at h
  · cases hm : mergeUserDir s.fs oldP newP with
    | none => rw [hm] at h; simp at h
    | some fsM =>
        rw [hm] at h
        simp only [Option.some_bind] at h
        cases hr : renameOp fsM oldP (oldP ++ S " BACKUP") with
        | none => rw [hr] at h; simp at h
        | some fsR =>
            rw [hr] at h
            simp only [Option.map_some'] at h
            cases h
            exact Or.inl (renameOp_src_none fsM _ _ fsR hr hnp)
  · case _ hcond =>
      cases h
      cases hl : lookupK s.fs (normKey oldP) with
      | none => exact Or.inl rfl
      | some n =>
          cases n with
          | link t => exact Or.inr ⟨t, rfl⟩
          | file bs =>
              exfalso
              apply hcond
              constructor
              · unfold lexistsB
                rw [hl]
                rfl
              · unfold islinkB
                rw [hl]
                simp
          | dir =>
              exfalso
              apply hcond
              constructor
              · unfold lexistsB
                rw [hl]
                rfl
              · unfold islinkB
                rw [hl]
                simp

/-- After the link stage, the legacy path is a symlink with the configured
target, provided it was unbound or link-bound when the stage started. -/
theorem migrateLinkStage_link (s1 s2 : St) (oldP lnk : Str)
    (hpre : lookupK s1.fs (normKey oldP) = none ∨
      ∃ t, lookupK s1.fs (normKey oldP) = some (.link t))
    (h : migrateLinkStage s1 oldP lnk = some s2) :
    lookupK s2.fs (normKey oldP) = some (.link lnk) := by
  unfold migrateLinkStage at h
  split at h
  · cases hs : symlinkOp (makedirsTry s1.fs (dirnameStr oldP)) lnk oldP with
    | none => rw [hs] at h; simp at h
    | some fsL =>
        rw [hs] at h
        simp only [Option.map_some'] at h
        cases h
        rw [symlinkOp_some _ _ _ _ hs]
        exact lookupK_fsSet_self _ _ _
  · split at h
    · cases hr : removeOp s1.fs oldP with
      | none => rw [hr] at h; simp at h
      | some fsD =>
          rw [hr] at h
          simp only [Option.some_bind] at h
          cases hs : symlinkOp fsD lnk oldP with
          | none => rw [hs] at h; simp at h
          | some fsL =>
              rw [hs] at h
              simp only [Option.map_some'] at h
              cases h
              rw [symlinkOp_some _ _ _ _ hs]
              exact lookupK_fsSet_self _ _ _
    · case _ hex hcond =>
        cases h
        rcases hpre with hn | ⟨t, ht⟩
        · exfalso
          apply hex
          unfold lexistsB
          rw [hn]
          simp
        · have hlink : islinkB s1.fs oldP = true := by
            unfold islinkB
            rw [ht]
          have hread : readlinkStr s1.fs oldP = t := by
            unfold readlinkStr
            rw [ht]
          have : readlinkStr s1.fs oldP = lnk := by
            by_contra hne
            exact hcond ⟨hlink, hne⟩
          rw [ht, ← hread, this]

theorem FSok_migrateBreakLoop (s : St) (oldRel newP : Str) (hok : FSok s.fs) :
    FSok (migrateBreakLoop s oldRel newP).fs := by
  unfold migrateBreakLoop
  split
  · exact FSok_fsDel _ _ hok
  · exact hok

theorem FSok_migrateMergeStage (s s1 : St) (oldP newP : Str)
    (h : migrateMergeStage s oldP newP = some s1) (hok : FSok s.fs) : FSok s1.fs := by
  unfold migrateMergeStage at h
  split at h
  · cases hm : mergeUserDir s.fs oldP newP with
    | none => rw [hm] at h; simp at h
    | some fsM =>
        rw [hm] at h
        simp only [Option.some_bind] at h
        cases hr : renameOp fsM oldP (oldP ++ S " BACKUP") with
        | none => rw [hr] at h; simp at h
        | some fsR =>
            rw [hr] at h
            simp only [Option.map_some'] at h
            cases h
            exact FSok_renameOp fsM _ _ fsR hr (FSok_mergeUserDir s.fs _ _ fsM hm hok)
  · cases h
    exact hok

theorem FSok_migrateLinkStage (s1 s2 : St) (oldP lnk : Str)
    (h : migrateLinkStage s1 oldP lnk = some s2) (hok : FSok s1.fs) : FSok s2.fs := by
  unfold migrateLinkStage at h
  split at h
  · cases hs : symlinkOp (makedirsTry s1.fs (dirnameStr oldP)) lnk oldP with
    | none => rw [hs] at h; simp at h
    | some fsL =>
        rw [hs] at h
        simp only [Option.map_some'] at h
        cases h
        exact FSok_symlinkOp _ _ _ _ hs (FSok_makedirsTry _ _ hok)
  · split at h
    · cases hr : removeOp s1.fs oldP with
      | none => rw [hr] at h; simp at h
      | some fsD =>
          rw [hr] at h
          simp only [Option.some_bind] at h
          cases hs : symlinkOp fsD lnk oldP with
          | none => rw [hs] at h; simp at h
          | some fsL =>
              rw [hs] at h
              simp only [Option.map_some'] at h
              cases h
              exact FSok_symlinkOp _ _ _ _ hs (FSok_removeOp _ _ _ hr hok)
    · cases h
      exact hok

theorem FSok_migrateEntry (cd : Str) (s s2 : St) (ent : Str × Str × Str)
    (h : migrateEntry cd s ent = some s2) (hok : FSok s.fs) : FSok s2.fs := by
  unfold migrateEntry at h
  cases hm : migrateMergeStage (migrateBreakLoop s ent.1 ent.2.1)
      (cdPfxDir cd ++ ent.1) ent.2.1 with
  | none => rw [hm] at h; simp at h
  | some s1 =>
      rw [hm] at h
      simp only [Option.some_bind] at h
      exact FSok_migrateLinkStage s1 s2 _ _ h
        (FSok_migrateMergeStage _ s1 _ _ hm (FSok_migrateBreakLoop s _ _ hok))

/-- `migrate_user_paths` establishes a table entry's redirect link, whatever
the legacy path held before. -/
theorem migrateEntry_establishes (cd : Str) (s s2 : St) (ent : Str × Str × Str)
    (hnp : (normKey (cdPfxDir cd ++ ent.1 ++ S " BACKUP")).isPrefixOf
      (normKey (cdPfxDir cd ++ ent.1)) = false)
    (h : migrateEntry cd s ent = some s2) :
    lookupK s2.fs (normKey (cdPfxDir cd ++ ent.1)) = some (.link ent.2.2) := by
  unfold migrateEntry at h
  cases hm : migrateMergeStage (migrateBreakLoop s ent.1 ent.2.1)
      (cdPfxDir cd ++ ent.1) ent.2.1 with
  | none => rw [hm] at h; simp at h
  | some s1 =>
      rw [hm] at h
      simp only [Option.some_bind] at h
      exact migrateLinkStage_link s1 s2 _ _
        (migrateMergeStage_post _ s1 _ _ hnp hm) h

theorem ne_of_isPrefixOf_false (a k : Key) (h : a.isPrefixOf k = false) : k ≠ a := by
  intro he
  have hx := isPrefixOf_append_self a []
  rw [List.append_nil] at hx
  rw [he, hx] at h
  cases h

theorem migrateBreakLoop_preserves (s : St) (oldRel newP : Str) (k : Key)
    (hk : k ≠ normKey newP) :
    lookupK (migrateBreakLoop s oldRel newP).fs k = lookupK s.fs k := by
  unfold migrateBreakLoop
  split
  · exact lookupK_fsDel_ne _ _ _ hk
  · rfl

theorem migrateMergeStage_preserves (s s1 : St) (oldP newP : Str)
    (hok : FSok s.fs)
    (ho1 : oldP ≠ []) (ho2 : oldP.getLast? ≠ some '/')
    (hn1 : newP ≠ []) (hn2 : newP.getLast? ≠ some '/')
    (k : Key) (n : Node)
    (hk2 : (normKey newP).isPrefixOf k = false)
    (hk3 : (normKey oldP).isPrefixOf k = false)
    (hk4 : (normKey (oldP ++ S " BACKUP")).isPrefixOf k = false)
    (h : migrateMergeStage s oldP newP = some s1)
    (hb : lookupK s.fs k = some n) : lookupK s1.fs k = some n := by
  unfold migrateMergeStage at h
  split at h
  · cases hm : mergeUserDir s.fs oldP newP with
    | none => rw [hm] at h; simp at h
    | some fsM =>
        rw [hm] at h
        simp only [Option.some_bind] at h
        cases hr : renameOp fsM oldP (oldP ++ S " BACKUP") with
        | none => rw [hr] at h; simp at h
        | some fsR =>
            rw [hr] at h
            simp only [Option.map_some'] at h
            cases h
            have hM : lookupK fsM k = some n :=
              mergeUserDir_preserves s.fs hok oldP newP ho1 ho2 hn1 hn2 fsM hm k n hk2 hb
            have hR := renameOp_lookup_ne fsM oldP _ fsR k hr
              (by simp [hk3]) (by simp [hk4])
            simp only []
            rw [hR]
            exact hM
  · cases h
    exact hb

theorem migrateLinkStage_preserves (s1 s2 : St) (oldP lnk : Str) (k : Key) (n : Node)
    (hk : k ≠ normKey oldP)
    (h : migrateLinkStage s1 oldP lnk = some s2)
    (hb : lookupK s1.fs k = some n) : lookupK s2.fs k = some n := by
  unfold migrateLinkStage at h
  split at h
  · cases hs : symlinkOp (makedirsTry s1.fs (dirnameStr oldP)) lnk oldP with
    | none => rw [hs] at h; simp at h
    | some fsL =>
        rw [hs] at h
        simp only [Option.map_some'] at h
        cases h
        rw [symlinkOp_some _ _ _ _ hs]
        simp only []
        rw [lookupK_fsSet_ne _ _ _ _ hk]
        exact makedirsTry_bound _ _ _ _ hb
  · split at h
    · cases hr : removeOp s1.fs oldP with
      | none => rw [hr] at h; simp at h
      | some fsD =>
          rw [hr] at h
          simp only [Option.some_bind] at h
          cases hs : symlinkOp fsD lnk oldP with
          | none => rw [hs] at h; simp at h
          | some fsL =>
              rw [hs] at h
              simp only [Option.map_some'] at h
              cases h
              rw [symlinkOp_some _ _ _ _ hs]
              simp only []
              rw [lookupK_fsSet_ne _ _ _ _ hk]
              rw [removeOp_some _ _ _ hr]
              rw [lookupK_fsDel_ne _ _ _ hk]
              exact hb
    · cases h
      exact hb

/-- One `migrate_user_paths` table entry only writes at its own legacy path,
its backup path, and below its destination: every other binding survives. -/
theorem migrateEntry_preserves (cd : Str) (s s2 : St) (ent : Str × Str × Str)
    (hok : FSok s.fs)
    (ho1 : cdPfxDir cd ++ ent.1 ≠ []) (ho2 : (cdPfxDir cd ++ ent.1).getLast? ≠ some '/')
    (hn1 : ent.2.1 ≠ []) (hn2 : ent.2.1.getLast? ≠ some '/')
    (k : Key) (n : Node)
    (hk2 : (normKey ent.2.1).isPrefixOf k = false)
    (hk3 : (normKey (cdPfxDir cd ++ ent.1)).isPrefixOf k = false)
    (hk4 : (normKey (cdPfxDir cd ++ ent.1 ++ S " BACKUP")).isPrefixOf k = false)
    (h : migrateEntry cd s ent = some s2)
    (hb : lookupK s.fs k = some n) : lookupK s2.fs k = some n := by
  have hkNew : k ≠ normKey ent.2.1 := ne_of_isPrefixOf_false _ _ hk2
  have hkOld : k ≠ normKey (cdPfxDir cd ++ ent.1) := ne_of_isPrefixOf_false _ _ hk3
  unfold migrateEntry at h
  cases hm : migrateMergeStage (migrateBreakLoop s ent.1 ent.2.1)
      (cdPfxDir cd ++ ent.1) ent.2.1 with
  | none => rw [hm] at h; simp at h
  | some s1 =>
      rw [hm] at h
      simp only [Option.some_bind] at h
      have hb0 : lookupK (migrateBreakLoop s ent.1 ent.2.1).fs k = some n := by
        rw [migrateBreakLoop_preserves s ent.1 ent.2.1 k hkNew]
        exact hb
      have h1 : lookupK s1.fs k = some n :=
        migrateMergeStage_preserves _ s1 _ _
          (FSok_migrateBreakLoop s _ _ hok) ho1 ho2 hn1 hn2 k n hk2 hk3 hk4 hm hb0
      exact migrateLinkStage_preserves s1 s2 _ _ k n hkOld h h1

theorem migrateFold_preserves (cd : Str) (l : List (Str × Str × Str)) (k : Key) (n : Node)
    (hconds : ∀ b ∈ l,
      (cdPfxDir cd ++ b.1 ≠ [] ∧ (cdPfxDir cd ++ b.1).getLast? ≠ some '/' ∧
        b.2.1 ≠ [] ∧ b.2.1.getLast? ≠ some '/') ∧
      (normKey b.2.1).isPrefixOf k = false ∧
      (normKey (cdPfxDir cd ++ b.1)).isPrefixOf k = false ∧
      (normKey (cdPfxDir cd ++ b.1 ++ S " BACKUP")).isPrefixOf k = false)
    (s s2 : St) (h : l.foldlM (migrateEntry cd) s = some s2)
    (hok : FSok s.fs) (hb : lookupK s.fs k = some n) :
    FSok s2.fs ∧ lookupK s2.fs k = some n := by
  refine foldlM_option_preserves (migrateEntry cd) l s s2 h
    (fun x => FSok x.fs ∧ lookupK x.fs k = some n) ?_ ⟨hok, hb⟩
  intro x y b hbm hstep hP
  obtain ⟨⟨hb1, hb2, hb3, hb4⟩, hc1, hc2, hc3⟩ := hconds b hbm
  exact ⟨FSok_migrateEntry cd x y b hstep hP.1,
    migrateEntry_preserves cd x y b hP.1 hb1 hb2 hb3 hb4 k n hc1 hc2 hc3 hstep hP.2⟩

theorem migrateFold_links (cd : Str) (l : List (Str × Str × Str)) :
    ∀ (s s2 : St), FSok s.fs →
    (∀ ent ∈ l,
      (normKey (cdPfxDir cd ++ ent.1 ++ S " BACKUP")).isPrefixOf
        (normKey (cdPfxDir cd ++ ent.1)) = false ∧
      cdPfxDir cd ++ ent.1 ≠ [] ∧ (cdPfxDir cd ++ ent.1).getLast? ≠ some '/' ∧
      ent.2.1 ≠ [] ∧ ent.2.1.getLast? ≠ some '/') →
    (∀ a ∈ l, ∀ b ∈ l, a.1 ≠ b.1 →
      (normKey b.2.1).isPrefixOf (normKey (cdPfxDir cd ++ a.1)) = false ∧
      (normKey (cdPfxDir cd ++ b.1)).isPrefixOf (normKey (cdPfxDir cd ++ a.1)) = false ∧
      (normKey (cdPfxDir cd ++ b.1 ++ S " BACKUP")).isPrefixOf
        (normKey (cdPfxDir cd ++ a.1)) = false) →
    ((l.map (fun e => e.1)).Pairwise (fun a b => a ≠ b)) →
    l.foldlM (migrateEntry cd) s = some s2 →
    ∀ ent ∈ l, lookupK s2.fs (normKey (cdPfxDir cd ++ ent.1)) = some (.link ent.2.2) := by
  induction l with
  | nil =>
      intro s s2 _ _ _ _ _ ent hent
      exact absurd hent (List.not_mem_nil _)
  | cons e t ih =>
      intro s s2 hok hA hB hND h ent hent
      rw [List.foldlM_cons] at h
      cases he : migrateEntry cd s e with
      | none => rw [he] at h; simp at h
      | some sA =>
          rw [he] at h
          simp only [Option.bind_eq_bind, Option.some_bind] at h
          have hokA : FSok sA.fs := FSok_migrateEntry cd s sA e he hok
          rw [List.map_cons] at hND
          have hpw := List.pairwise_cons.mp hND
          rcases List.mem_cons.mp hent with heq | hmem
          · subst heq
            have hest : lookupK sA.fs (normKey (cdPfxDir cd ++ ent.1)) =
                some (.link ent.2.2) :=
              migrateEntry_establishes cd s sA ent (hA ent (List.mem_cons_self _ _)).1 he
            refine (migrateFold_preserves cd t (normKey (cdPfxDir cd ++ ent.1))
              (.link ent.2.2) ?_ sA s2 h hokA hest).2
            intro b hbm
            have hbt := hA b (List.mem_cons_of_mem _ hbm)
            have hne : ent.1 ≠ b.1 :=
              hpw.1 b.1 (List.mem_map.mpr ⟨b, hbm, rfl⟩)
            have hcb := hB ent (List.mem_cons_self _ _) b (List.mem_cons_of_mem _ hbm) hne
            exact ⟨⟨hbt.2.1, hbt.2.2.1, hbt.2.2.2.1, hbt.2.2.2.2⟩, hcb.1, hcb.2.1, hcb.2.2⟩
          · exact ih sA s2 hokA (fun x hx => hA x (List.mem_cons_of_mem _ hx))
              (fun a ha b hb => hB a (List.mem_cons_of_mem _ ha) b (List.mem_cons_of_mem _ hb))
              hpw.2 h ent hmem

/-- The path-shape side conditions on the compat-data root under which the
`migrate_user_paths` table entries act at pairwise disjoint keys (any sane
absolute root such as the Steam `compatdata/<appid>` directory satisfies
them; a witness checks one concretely). -/
def migrateCdOk (cd : Str) : Prop :=
  (∀ ent ∈ migrateTable cd,
      (normKey (cdPfxDir cd ++ ent.1 ++ S " BACKUP")).isPrefixOf
        (normKey (cdPfxDir cd ++ ent.1)) = false ∧
      cdPfxDir cd ++ ent.1 ≠ [] ∧ (cdPfxDir cd ++ ent.1).getLast? ≠ some '/' ∧
      ent.2.1 ≠ [] ∧ ent.2.1.getLast? ≠ some '/') ∧
  (∀ a ∈ migrateTable cd, ∀ b ∈ migrateTable cd, a.1 ≠ b.1 →
      (normKey b.2.1).isPrefixOf (normKey (cdPfxDir cd ++ a.1)) = false ∧
      (normKey (cdPfxDir cd ++ b.1)).isPrefixOf (normKey (cdPfxDir cd ++ a.1)) = false ∧
      (normKey (cdPfxDir cd ++ b.1 ++ S " BACKUP")).isPrefixOf
        (normKey (cdPfxDir cd ++ a.1)) = false)

/-- Claim C9: after `migrate_user_paths` completes without raising, each of
the three legacy paths in its fixed table (`Local Settings/Application
Data`, `Application Data`, `My Documents`, under the steamuser profile)
exists as a symlink whose target string equals that entry's configured
redirect link target, regardless of the legacy path's prior state (absent,
real directory, or symlink with any target). -/
theorem claimC9_migrate_user_paths (cd : Str) (s s2 : St)
    (hok : FSok s.fs) (hcd : migrateCdOk cd)
    (h : migrateUserPaths cd s = some s2) :
    ∀ ent ∈ migrateTable cd,
      lookupK s2.fs (normKey (cdPfxDir cd ++ ent.1)) = some (.link ent.2.2) := by
  unfold migrateUserPaths at h
  refine migrateFold_links cd (migrateTable cd) s s2 hok hcd.1 hcd.2 ?_ h
  simp only [migrateTable, List.map_cons, List.map_nil]
  decide

/-- A fresh state on an empty filesystem for the claim C9 witness. -/
def migC9St : St := { fs := [], logs := [], trace := [], dllov := [] }

/-- Witness for claim C9 at a concrete compat-data root: the `My Documents`
legacy path ends up as a symlink to `./Documents`. -/
theorem claimC9_witness :
    lookupK ((migrateUserPaths (S "/c") migC9St).getD migC9St).fs
        (normKey (cdPfxDir (S "/c") ++ S "drive_c/users/steamuser/My Documents")) =
      some (.link (S "./Documents")) := by
  have h := claimC9_migrate_user_paths (S "/c") migC9St
    ((migrateUserPaths (S "/c") migC9St).getD migC9St)
    (by intro e he; exact absurd he (List.not_mem_nil _))
    (by constructor <;> decide) (by decide)
  exact h (S "drive_c/users/steamuser/My Documents",
    cdPfxDir (S "/c") ++ S "drive_c/users/steamuser/Documents", S "./Documents")
    (by decide)

/-! ### Claim C3: update_builtin_libs and real destination files -/

theorem openBytes_of_file (fs : FS) (p : Str) (bs : List Nat)
    (h : lookupK fs (normKey p) = some (.file bs)) : openBytes fs p = some bs := by
  unfold openBytes resolveFuel
  simp [resolveNode, h]

/-- On a path bound to a regular file, the builtin classifier is exactly the
marker test on the file's bytes. -/
theorem fileIsWineBuiltinDll_of_file (fs : FS) (p : Str) (bs : List Nat)
    (h : lookupK fs (normKey p) = some (.file bs)) :
    fileIsWineBuiltinDll fs p =
      (marker1.isPrefixOf ((bs.drop 0x40).take 20) ||
        marker2.isPrefixOf ((bs.drop 0x40).take 20)) := by
  unfold fileIsWineBuiltinDll
  rw [islinkB_of_nonlink fs p _ (by intro t h2; cases h2) h]
  rw [existsB_of_node fs p _ (by intro t h2; cases h2) h]
  rw [openBytes_of_file fs p bs h]
  simp

theorem appendTracked_lookup_ne (cd : Str) (fs : FS) (ln : Str) (fs2 : FS) (k : Key)
    (h : appendTracked cd fs ln = some fs2) (hk : k ≠ normKey (cdTrackedFile cd)) :
    lookupK fs2 k = lookupK fs k := by
  unfold appendTracked at h
  split at h
  · cases h
    exact lookupK_fsSet_ne _ _ _ _ hk
  · exact absurd h (by simp)

theorem updCopy_lookup_ne (cd : Str) (patterns prev : List Str)
    (relDir srcFile dstFile f : Str) (s s2 : St) (k : Key)
    (h : updCopy cd patterns prev relDir srcFile dstFile f s = some s2)
    (hk1 : k ≠ normKey dstFile) (hkm : k ≠ normKey (cdTrackedFile cd)) :
    lookupK s2.fs k = lookupK s.fs k := by
  simp only [updCopy] at h
  cases hp : pfxCopy s.fs srcFile dstFile (patterns.any (fun pat => globMatch pat f)) with
  | none => rw [hp] at h; simp at h
  | some fsP =>
      rw [hp] at h
      simp only [Option.some_bind] at h
      have h1 : lookupK fsP k = lookupK s.fs k :=
        pfxCopy_lookup_ne _ _ _ _ _ _ hp hk1
      split at h
      · cases h
        exact h1
      · cases ha : appendTracked cd fsP (relDir ++ f) with
        | none => rw [ha] at h; simp at h
        | some fsT =>
            rw [ha] at h
            simp only [Option.map_some'] at h
            cases h
            simp only [addEvs]
            rw [appendTracked_lookup_ne _ _ _ _ _ ha hkm]
            exact h1

/-- One `update_builtin_libs` walk step never touches a binding that holds a
regular file whose bytes fail the builtin-marker test. -/
theorem updateStep_preserves_real (cd pn : Str) (patterns prev : List Str)
    (x y : St) (t : Str × List Str × List Str) (k : Key) (bs : List Nat)
    (hkm : k ≠ normKey (cdTrackedFile cd))
    (hreal : (marker1.isPrefixOf ((bs.drop 0x40).take 20) ||
      marker2.isPrefixOf ((bs.drop 0x40).take 20)) = false)
    (h : updateStep cd pn patterns prev x t = some y)
    (hb : lookupK x.fs k = some (.file bs)) : lookupK y.fs k = some (.file bs) := by
  simp only [updateStep] at h
  set relDir0 := lstripSlash (pyReplaceOnce t.1 (defaultPfxDir pn) []) with hrd0
  set relDir := if relDir0.length > 0 then relDir0 ++ [ '/' ] else relDir0 with hrd
  set dstDir := pyReplaceOnce t.1 (defaultPfxDir pn) (cdPfxDir cd) with hdd
  cases hs1 : (if ¬ lexistsB x.fs dstDir then
      (rawMakedirs x.fs dstDir).bind (fun fs =>
        (appendTracked cd fs relDir).map (fun fs2 =>
          addEvs { x with fs := fs2 } [.mkdirRec relDir, .recordDir relDir]))
    else some x) with
  | none => rw [hs1] at h; simp at h
  | some x1 =>
      rw [hs1] at h
      simp only [Option.some_bind] at h
      have hb1 : lookupK x1.fs k = some (.file bs) := by
        split at hs1
        · cases hmk : rawMakedirs x.fs dstDir with
          | none => rw [hmk] at hs1; simp at hs1
          | some fsM =>
              rw [hmk] at hs1
              simp only [Option.some_bind] at hs1
              cases hat : appendTracked cd fsM relDir with
              | none => rw [hat] at hs1; simp at hs1
              | some fsT =>
                  rw [hat] at hs1
                  simp only [Option.map_some'] at hs1
                  cases hs1
                  simp only [addEvs]
                  rw [appendTracked_lookup_ne _ _ _ _ _ hat hkm]
                  exact rawMakedirs_bound _ _ _ _ _ hmk hb
        · cases hs1
          exact hb
      clear hs1
      refine foldlM_option_preserves _ _ _ _ h
        (fun st => lookupK st.fs k = some (.file bs)) ?_ hb1
      intro a b f _ hg hP
      split at hg
      · cases hg
        exact hP
      · split at hg
        · case _ hcls =>
            by_cases hkey : k = normKey (joinPath dstDir f)
            · exfalso
              rw [hkey] at hP
              rw [fileIsWineBuiltinDll_of_file a.fs (joinPath dstDir f) bs hP, hreal] at hcls
              cases hcls
            · cases hrm : removeOp a.fs (joinPath dstDir f) with
              | none => rw [hrm] at hg; simp at hg
              | some fsR =>
                  rw [hrm] at hg
                  simp only [Option.some_bind] at hg
                  have hR : lookupK fsR k = some (.file bs) := by
                    rw [removeOp_some _ _ _ hrm, lookupK_fsDel_ne _ _ _ hkey]
                    exact hP
                  rw [updCopy_lookup_ne _ _ _ _ _ _ _ _ _ _ hg hkey hkm]
                  exact hR
        · split at hg
          · cases hg
            exact hP
          · case _ hnex =>
              by_cases hkey : k = normKey (joinPath dstDir f)
              · exfalso
                apply hnex
                unfold lexistsB
                rw [← hkey, hP]
                rfl
              · cases hmk : makedirsExistOk a.fs dstDir with
                | none => rw [hmk] at hg; simp at hg
                | some fsM =>
                    rw [hmk] at hg
                    simp only [Option.some_bind] at hg
                    have hM : lookupK fsM k = some (.file bs) :=
                      makedirsExistOk_bound _ _ _ _ _ hmk hP
                    rw [updCopy_lookup_ne _ _ _ _ _ _ _ _ _ _ hg hkey hkm]
                    exact hM

/-- Claim C3, amended: `update_builtin_libs` never modifies a binding that
holds a regular (non-symlink) file whose bytes fail the builtin/placeholder
marker test — such a file is classified real whenever the synchronizer
looks at it, so it is neither removed nor replaced.  (The spec's broader
claim, covering every destination *path* classified real at the start of
the sync, fails: a destination symlink can be reclassified mid-run; see the
counterexample.) -/
theorem claimC3_update_builtin_libs (cd pn dllCopyPats : Str) (s s2 : St)
    (k : Key) (bs : List Nat)
    (hk : lookupK s.fs k = some (.file bs))
    (hreal : (marker1.isPrefixOf ((bs.drop 0x40).take 20) ||
      marker2.isPrefixOf ((bs.drop 0x40).take 20)) = false)
    (hkm : k ≠ normKey (cdTrackedFile cd))
    (h : updateBuiltinLibs cd pn dllCopyPats s = some s2) :
    lookupK s2.fs k = some (.file bs) := by
  simp only [updateBuiltinLibs] at h
  split at h
  · exact absurd h (by simp)
  · cases hf : (osWalk s.fs (defaultPfxDir pn)).foldlM
        (updateStep cd pn (pySplit dllCopyPats ',')
          ((linesOfBytes _).map pyStrip)) s with
    | none => rw [hf] at h; simp at h
    | some sF =>
        rw [hf] at h
        simp only [Option.map_some'] at h
        cases h
        simp only [addEvs]
        refine (foldlM_option_preserves _ _ _ _ hf
          (fun st => lookupK st.fs k = some (.file bs)) ?_ hk)
        intro x y t _ hstep hP
        exact updateStep_preserves_real cd pn _ _ x y t k bs hkm hreal hstep hP

/-- A 0x40-byte header followed by the builtin marker: template files that
classify as Wine builtin DLLs. -/
def c3mark : List Nat := List.replicate 0x40 0 ++ strBytes (S "Wine builtin DLL")

/-- A prefix where `zzz.dll` is a symlink chain onto `ntdll.dll`, itself a
symlink to a real (non-marker) file shipped outside the builtin dirs. -/
def c3fs : FS :=
  [(normKey (S "/p/files/share/default_pfx"), .dir),
   (normKey (S "/p/files/share/default_pfx/d"), .dir),
   (normKey (S "/p/files/share/default_pfx/d/ntdll.dll"), .file c3mark),
   (normKey (S "/p/files/share/default_pfx/d/zzz.dll"), .file c3mark),
   (normKey (S "/p/files/lib/wine/i386-windows/w.dll"), .file [1, 2, 3]),
   (normKey (S "/c/tracked_files"), .file []),
   (normKey (S "/c/pfx"), .dir),
   (normKey (S "/c/pfx/d"), .dir),
   (normKey (S "/c/pfx/d/ntdll.dll"), .link (S "/p/files/lib/wine/i386-windows/w.dll")),
   (normKey (S "/c/pfx/d/zzz.dll"), .link (S "./ntdll.dll")),
   (normKey (S "/c/pfx/d/real.dll"), .file [9, 9])]

/-- The session state over `c3fs`. -/
def c3st : St := { fs := c3fs, logs := [], trace := [], dllov := [] }

/-- Counterexample to claim C3 as stated: at the start of the sync the
destination `zzz.dll` exists and is classified real (it is a symlink chain
ending at a non-marker file outside the builtin dirs), yet the run replaces
it with the template's marker file — syncing `ntdll.dll` first retargets
the chain, so `zzz.dll` is reclassified builtin mid-run. -/
theorem claimC3_cex_reclassified_mid_run :
    existsB c3fs (S "/c/pfx/d/zzz.dll") = true ∧
    fileIsWineBuiltinDll c3fs (S "/c/pfx/d/zzz.dll") = false ∧
    (updateBuiltinLibs (S "/c") (S "/p") (S "ntdll.dll") c3st).map
        (fun s => lookupK s.fs (normKey (S "/c/pfx/d/zzz.dll"))) =
      some (some (.file c3mark)) := by
  refine ⟨by decide, by decide, by decide⟩

/-- Witness for the amended claim C3 at a concrete run: the regular
non-marker file `real.dll` is untouched by the same sync. -/
theorem claimC3_witness :
    lookupK ((updateBuiltinLibs (S "/c") (S "/p") (S "ntdll.dll") c3st).getD c3st).fs
        (normKey (S "/c/pfx/d/real.dll")) = some (.file [9, 9]) :=
  claimC3_update_builtin_libs (S "/c") (S "/p") (S "ntdll.dll") c3st _
    (normKey (S "/c/pfx/d/real.dll")) [9, 9] (by decide) (by decide) (by decide) (by decide)

/-! ### Claim C6: manifest re-recording across syncs -/

theorem updCopy_recordFile (cd : Str) (patterns prev : List Str)
    (relDir srcFile dstFile f : Str) (s s2 : St)
    (h : updCopy cd patterns prev relDir srcFile dstFile f s = some s2) (ln : Str)
    (hm : Ev.recordFile ln ∈ s2.trace) :
    Ev.recordFile ln ∈ s.trace ∨ prev.contains ln = false := by
  simp only [updCopy] at h
  cases hp : pfxCopy s.fs srcFile dstFile (patterns.any (fun pat => globMatch pat f)) with
  | none => rw [hp] at h; simp at h
  | some fsP =>
      rw [hp] at h
      simp only [Option.some_bind] at h
      split at h
      · cases h
        exact Or.inl hm
      · case _ hc =>
          cases ha : appendTracked cd fsP (relDir ++ f) with
          | none => rw [ha] at h; simp at h
          | some fsT =>
              rw [ha] at h
              simp only [Option.map_some'] at h
              cases h
              simp only [addEvs] at hm
              rcases List.mem_append.mp hm with hm | hm
              · exact Or.inl hm
              · have he : ln = relDir ++ f := by
                  rcases List.mem_singleton.mp hm with he
                  cases he
                  rfl
                subst he
                exact Or.inr (Bool.not_eq_true _ ▸ eq_false_of_ne_true hc)

theorem updateStep_recordFile (cd pn : Str) (patterns prev : List Str)
    (x y : St) (t : Str × List Str × List Str)
    (h : updateStep cd pn patterns prev x t = some y) (ln : Str)
    (hm : Ev.recordFile ln ∈ y.trace) :
    Ev.recordFile ln ∈ x.trace ∨ prev.contains ln = false := by
  simp only [updateStep] at h
  set relDir0 := lstripSlash (pyReplaceOnce t.1 (defaultPfxDir pn) []) with hrd0
  set relDir := if relDir0.length > 0 then relDir0 ++ [ '/' ] else relDir0 with hrd
  set dstDir := pyReplaceOnce t.1 (defaultPfxDir pn) (cdPfxDir cd) with hdd
  cases hs1 : (if ¬ lexistsB x.fs dstDir then
      (rawMakedirs x.fs dstDir).bind (fun fs =>
        (appendTracked cd fs relDir).map (fun fs2 =>
          addEvs { x with fs := fs2 } [.mkdirRec relDir, .recordDir relDir]))
    else some x) with
  | none => rw [hs1] at h; simp at h
  | some x1 =>
      rw [hs1] at h
      simp only [Option.some_bind] at h
      have hx1 : ∀ ln2, Ev.recordFile ln2 ∈ x1.trace → Ev.recordFile ln2 ∈ x.trace := by
        intro ln2 hm2
        split at hs1
        · cases hmk : rawMakedirs x.fs dstDir with
          | none => rw [hmk] at hs1; simp at hs1
          | some fsM =>
              rw [hmk] at hs1
              simp only [Option.some_bind] at hs1
              cases hat : appendTracked cd fsM relDir with
              | none => rw [hat] at hs1; simp at hs1
              | some fsT =>
                  rw [hat] at hs1
                  simp only [Option.map_some'] at hs1
                  cases hs1
                  simp only [addEvs] at hm2
                  rcases List.mem_append.mp hm2 with hm2 | hm2
                  · exact hm2
                  · rcases List.mem_cons.mp hm2 with hm2 | hm2
                    · cases hm2
                    · rcases List.mem_singleton.mp hm2 with hm2
                      cases hm2
        · cases hs1
          exact hm2
      have hfold := foldlM_option_preserves _ _ _ _ h
        (fun st => ∀ ln2, Ev.recordFile ln2 ∈ st.trace →
          Ev.recordFile ln2 ∈ x.trace ∨ prev.contains ln2 = false)
        ?_ (fun ln2 hm2 => Or.inl (hx1 ln2 hm2))
      · exact hfold ln hm
      · intro a b f _ hg hP ln2 hm2
        split at hg
        · cases hg
          exact hP ln2 hm2
        · split at hg
          · cases hrm : removeOp a.fs (joinPath dstDir f) with
            | none => rw [hrm] at hg; simp at hg
            | some fsR =>
                rw [hrm] at hg
                simp only [Option.some_bind] at hg
                rcases updCopy_recordFile _ _ _ _ _ _ _ _ _ hg ln2 hm2 with hh | hh
                · exact hP ln2 hh
                · exact Or.inr hh
          · split at hg
            · cases hg
              exact hP ln2 hm2
            · cases hmk : makedirsExistOk a.fs dstDir with
              | none => rw [hmk] at hg; simp at hg
              | some fsM =>
                  rw [hmk] at hg
                  simp only [Option.some_bind] at hg
                  rcases updCopy_recordFile _ _ _ _ _ _ _ _ _ hg ln2 hm2 with hh | hh
                  · exact hP ln2 hh
                  · exact Or.inr hh

/-- Claim C6, amended: within one `update_builtin_libs` run, a FILE record
is only appended for a manifest line not already recorded when the run
started — re-recording a recorded file line is a no-op as claimed.  The
claim fails for directory lines: the directory record is appended whenever
the destination directory is absent, with no already-recorded check, so a
recorded directory line duplicates (see the counterexample). -/
theorem claimC6_update_builtin_libs (cd pn dllCopyPats : Str) (s s2 : St)
    (bsT : List Nat) (hman : openBytes s.fs (cdTrackedFile cd) = some bsT)
    (h : updateBuiltinLibs cd pn dllCopyPats s = some s2) :
    ∀ ln, Ev.recordFile ln ∈ s2.trace →
      Ev.recordFile ln ∈ s.trace ∨
        ((linesOfBytes bsT).map pyStrip).contains ln = false := by
  intro ln hm
  simp only [updateBuiltinLibs, hman] at h
  cases hf : (osWalk s.fs (defaultPfxDir pn)).foldlM
      (updateStep cd pn (pySplit dllCopyPats ',') ((linesOfBytes bsT).map pyStrip)) s with
  | none => rw [hf] at h; simp at h
  | some sF =>
      rw [hf] at h
      simp only [Option.map_some'] at h
      cases h
      simp only [addEvs] at hm
      rcases List.mem_append.mp hm with hm | hm
      · refine foldlM_option_preserves _ _ _ _ hf
          (fun st => Ev.recordFile ln ∈ st.trace →
            Ev.recordFile ln ∈ s.trace ∨
              ((linesOfBytes bsT).map pyStrip).contains ln = false)
          ?_ (fun hm2 => Or.inl hm2) hm
        intro x y t _ hstep hP hmy
        rcases updateStep_recordFile _ _ _ _ x y t hstep ln hmy with hh | hh
        · exact hP hh
        · exact Or.inr hh
      · rcases List.mem_singleton.mp hm with hm
        cases hm

/-- A template with one subdirectory holding a builtin marker file, and an
instance whose manifest already records the directory line `d/` while the
directory itself is absent from the prefix. -/
def c6fs : FS :=
  [(normKey (S "/p/files/share/default_pfx"), .dir),
   (normKey (S "/p/files/share/default_pfx/d"), .dir),
   (normKey (S "/p/files/share/default_pfx/d/f.dll"), .file c3mark),
   (normKey (S "/c/tracked_files"), .file (strBytes (S "d/") ++ [10])),
   (normKey (S "/c/pfx"), .dir)]

/-- The session state over `c6fs`. -/
def c6st : St := { fs := c6fs, logs := [], trace := [], dllov := [] }

/-- Counterexample to claim C6 as stated: the directory line `d/` is
already recorded in the manifest, yet the sync appends it again (the
directory-record write has no already-recorded check), so the manifest ends
with `d/` twice. -/
theorem claimC6_cex_duplicate_dir_line :
    ((linesOfBytes (strBytes (S "d/") ++ [10])).map pyStrip).contains (S "d/") = true ∧
    (updateBuiltinLibs (S "/c") (S "/p") (S "x") c6st).map
        (fun s => lookupK s.fs (normKey (S "/c/tracked_files"))) =
      some (some (.file (strBytes (S "d/") ++ [10] ++ strBytes (S "d/") ++ [10] ++
        strBytes (S "d/f.dll") ++ [10]))) ∧
    (linesOfBytes (strBytes (S "d/") ++ [10] ++ strBytes (S "d/") ++ [10] ++
      strBytes (S "d/f.dll") ++ [10])).count (S "d/") = 2 := by
  refine ⟨by decide, by decide, by decide⟩

/-- Witness for the amended claim C6 at a concrete run: the one file line
the sync records, `d/f.dll`, was not recorded in the starting manifest. -/
theorem claimC6_witness :
    Ev.recordFile (S "d/f.dll") ∈ c6st.trace ∨
      ((linesOfBytes (strBytes (S "d/") ++ [10])).map pyStrip).contains
        (S "d/f.dll") = false :=
  claimC6_update_builtin_libs (S "/c") (S "/p") (S "x") c6st
    ((updateBuiltinLibs (S "/c") (S "/p") (S "x") c6st).getD c6st)
    (strBytes (S "d/") ++ [10]) (by decide) (by decide) (S "d/f.dll") (by decide)

/-! ### Claim C7: directory creation versus manifest durability -/

theorem updCopy_no_flush (cd : Str) (patterns prev : List Str)
    (relDir srcFile dstFile f : Str) (s s2 : St)
    (h : updCopy cd patterns prev relDir srcFile dstFile f s = some s2)
    (hm : Ev.manifestFlush ∈ s2.trace) : Ev.manifestFlush ∈ s.trace := by
  simp only [updCopy] at h
  cases hp : pfxCopy s.fs srcFile dstFile (patterns.any (fun pat => globMatch pat f)) with
  | none => rw [hp] at h; simp at h
  | some fsP =>
      rw [hp] at h
      simp only [Option.some_bind] at h
      split at h
      · cases h
        exact hm
      · cases ha : appendTracked cd fsP (relDir ++ f) with
        | none => rw [ha] at h; simp at h
        | some fsT =>
            rw [ha] at h
            simp only [Option.map_some'] at h
            cases h
            simp only [addEvs] at hm
            rcases List.mem_append.mp hm with hm | hm
            · exact hm
            · rcases List.mem_singleton.mp hm with hm
              cases hm

theorem updateStep_no_flush (cd pn : Str) (patterns prev : List Str)
    (x y : St) (t : Str × List Str × List Str)
    (h : updateStep cd pn patterns prev x t = some y)
    (hm : Ev.manifestFlush ∈ y.trace) : Ev.manifestFlush ∈ x.trace := by
  simp only [updateStep] at h
  set relDir0 := lstripSlash (pyReplaceOnce t.1 (defaultPfxDir pn) []) with hrd0
  set relDir := if relDir0.length > 0 then relDir0 ++ [ '/' ] else relDir0 with hrd
  set dstDir := pyReplaceOnce t.1 (defaultPfxDir pn) (cdPfxDir cd) with hdd
  cases hs1 : (if ¬ lexistsB x.fs dstDir then
      (rawMakedirs x.fs dstDir).bind (fun fs =>
        (appendTracked cd fs relDir).map (fun fs2 =>
          addEvs { x with fs := fs2 } [.mkdirRec relDir, .recordDir relDir]))
    else some x) with
  | none => rw [hs1] at h; simp at h
  | some x1 =>
      rw [hs1] at h
      simp only [Option.some_bind] at h
      have hx1 : Ev.manifestFlush ∈ x1.trace → Ev.manifestFlush ∈ x.trace := by
        intro hm2
        split at hs1
        · cases hmk : rawMakedirs x.fs dstDir with
          | none => rw [hmk] at hs1; simp at hs1
          | some fsM =>
              rw [hmk] at hs1
              simp only [Option.some_bind] at hs1
              cases hat : appendTracked cd fsM relDir with
              | none => rw [hat] at hs1; simp at hs1
              | some fsT =>
                  rw [hat] at hs1
                  simp only [Option.map_some'] at hs1
                  cases hs1
                  simp only [addEvs] at hm2
                  rcases List.mem_append.mp hm2 with hm2 | hm2
                  · exact hm2
                  · rcases List.mem_cons.mp hm2 with hm2 | hm2
                    · cases hm2
                    · rcases List.mem_singleton.mp hm2 with hm2
                      cases hm2
        · cases hs1
          exact hm2
      have hfold := foldlM_option_preserves _ _ _ _ h
        (fun st => Ev.manifestFlush ∈ st.trace → Ev.manifestFlush ∈ x.trace)
        ?_ hx1
      · exact hfold hm
      · intro a b f _ hg hP hmb
        split at hg
        · cases hg
          exact hP hmb
        · split at hg
          · cases hrm : removeOp a.fs (joinPath dstDir f) with
            | none => rw [hrm] at hg; simp at hg
            | some fsR =>
                rw [hrm] at hg
                simp only [Option.some_bind] at hg
                have hh := updCopy_no_flush cd patterns prev relDir (joinPath t.1 f)
                  (joinPath dstDir f) f { a with fs := fsR } b hg hmb
                exact hP hh
          · split at hg
            · cases hg
              exact hP hmb
            · cases hmk : makedirsExistOk a.fs dstDir with
              | none => rw [hmk] at hg; simp at hg
              | some fsM =>
                  rw [hmk] at hg
                  simp only [Option.some_bind] at hg
                  have hh := updCopy_no_flush cd patterns prev relDir (joinPath t.1 f)
                    (joinPath dstDir f) f { a with fs := fsM } b hg hmb
                  exact hP hh

/-- Claim C7, amended: the manifest is not durably flushed when a directory
is created — `os.makedirs` runs first and the record write is buffered; the
single flush of an `update_builtin_libs` run is the handle close at its
very end.  Formally: the run's trace ends with its one `manifestFlush`
event, and no flush occurs anywhere before, in particular not between a
directory creation and the run's end. -/
theorem claimC7_update_builtin_libs (cd pn dllCopyPats : Str) (s s2 : St)
    (hs : Ev.manifestFlush ∉ s.trace)
    (h : updateBuiltinLibs cd pn dllCopyPats s = some s2) :
    s2.trace.getLast? = some Ev.manifestFlush ∧
      Ev.manifestFlush ∉ s2.trace.dropLast := by
  simp only [updateBuiltinLibs] at h
  split at h
  · exact absurd h (by simp)
  · cases hf : (osWalk s.fs (defaultPfxDir pn)).foldlM
        (updateStep cd pn (pySplit dllCopyPats ',') ((linesOfBytes _).map pyStrip)) s with
    | none => rw [hf] at h; simp at h
    | some sF =>
        rw [hf] at h
        simp only [Option.map_some'] at h
        cases h
        have hnf : Ev.manifestFlush ∉ sF.trace := by
          intro hm
          exact hs (foldlM_option_preserves _ _ _ _ hf
            (fun st => Ev.manifestFlush ∈ st.trace → Ev.manifestFlush ∈ s.trace)
            (fun x y t _ hstep hP hmb =>
              hP (updateStep_no_flush _ _ _ _ x y t hstep hmb))
            (fun hm2 => hm2) hm)
        constructor
        · simp only [addEvs]
          rw [List.getLast?_append_cons]
          rfl
        · simp only [addEvs]
          rw [List.dropLast_concat]
          exact hnf

/-- Counterexample to claim C7 as stated: in the `c6st` run the directory
creation (`mkdirRec`) happens first, its manifest record follows only into
the userspace buffer (`recordDir`), the run moves on to copy and record a
file, and the only durable flush is the handle close at the very end — so
the created directory exists on disk long before its record is persisted. -/
theorem claimC7_cex_flush_only_at_close :
    (updateBuiltinLibs (S "/c") (S "/p") (S "x") c6st).map (fun s => s.trace) =
      some [Ev.mkdirRec (S "d/"), Ev.recordDir (S "d/"),
        Ev.recordFile (S "d/f.dll"), Ev.manifestFlush] := by decide

/-- Witness for the amended claim C7 at a concrete run. -/
theorem claimC7_witness :
    (((updateBuiltinLibs (S "/c") (S "/p") (S "x") c6st).getD c6st).trace.getLast? =
      some Ev.manifestFlush) ∧
      Ev.manifestFlush ∉
        ((updateBuiltinLibs (S "/c") (S "/p") (S "x") c6st).getD c6st).trace.dropLast :=
  claimC7_update_builtin_libs (S "/c") (S "/p") (S "x") c6st _ (by decide) (by decide)

/-! ### Claim C2: setup_prefix idempotence on the three persisted files -/

/-- Concrete compat-data root for the C2 development. -/
def c2cd : Str := S "/c"

/-- Concrete Proton base directory for the C2 development. -/
def c2pn : Str := S "/p"

/-- A fixed session environment, unchanged between the two runs. -/
def c2env : SessionEnv :=
  { steamdir := S "/sd", compatConfig := [], wineDllOverridesDxgiB := false,
    protonDllCopy := some (S "x"), mtimeSteamclient := S "1", mtimeSteamclient64 := S "1",
    mtimeSteamDll := S "1", mtimeSystemReg := S "1", nvidiaDir := none,
    steamCompatInstallPath := none, steamCompatLibraryPaths := none, randHex := S "ab" }

/-- The version-file bytes both runs write. -/
def c2vbytes : List Nat := strBytes (currentPrefixVersion ++ [ '\n' ])

/-- The config fingerprint bytes of the fixed environment. -/
def c2cbytes : List Nat := strBytes (prefixInfo c2pn c2env)

/-- The Steam support-file destination directory. -/
def c2steamDst : Str := cdPfxDir c2cd ++ S "drive_c/Program Files (x86)/Steam/"

/-- The `(source path, destination path)` pairs the Steam section copies. -/
def c2SteamPairs : List (Str × Str) :=
  steamFiles1.map (fun p => (c2env.steamdir ++ S "/legacycompat/" ++ p.1, c2steamDst ++ p.2)) ++
    steamFiles2.map (fun p => (protonPath c2pn p.1, c2steamDst ++ p.2))

/-- Is an optional node a regular file? -/
def isFileNode : Option Node → Bool
  | some (.file _) => true
  | _ => false

theorem isFileNode_elim (o : Option Node) (h : isFileNode o = true) :
    ∃ bs, o = some (.file bs) := by
  cases o with
  | none => cases h
  | some n =>
      cases n with
      | file bs => exact ⟨bs, rfl⟩
      | link t => cases h
      | dir => cases h

/-- The post-first-run facts the second run relies on: version and config
fingerprint written by the first run, the manifest a regular file, and the
Steam support files present on both sides. -/
def c2Inv (mb : List Nat) (fs : FS) : Prop :=
  lookupK fs (normKey (cdVersionFile c2cd)) = some (.file c2vbytes) ∧
  lookupK fs (normKey (cdConfigInfoFile c2cd)) = some (.file c2cbytes) ∧
  lookupK fs (normKey (cdTrackedFile c2cd)) = some (.file mb) ∧
  ∀ pr ∈ c2SteamPairs, isFileNode (lookupK fs (normKey pr.1)) = true ∧
    isFileNode (lookupK fs (normKey pr.2)) = true

/-- A key distinct from every key `c2Inv` tracks. -/
def c2Other (k2 : Key) : Prop :=
  normKey (cdVersionFile c2cd) ≠ k2 ∧ normKey (cdConfigInfoFile c2cd) ≠ k2 ∧
    normKey (cdTrackedFile c2cd) ≠ k2 ∧
    ∀ pr ∈ c2SteamPairs, normKey pr.1 ≠ k2 ∧ normKey pr.2 ≠ k2

instance c2OtherDecidable (k2 : Key) : Decidable (c2Other k2) := by
  unfold c2Other
  infer_instance

theorem c2Inv_of_eq (mb : List Nat) (fs fs2 : FS)
    (he : ∀ k : Key, (k = normKey (cdVersionFile c2cd) ∨ k = normKey (cdConfigInfoFile c2cd) ∨
        k = normKey (cdTrackedFile c2cd) ∨
        ∃ pr ∈ c2SteamPairs, k = normKey pr.1 ∨ k = normKey pr.2) →
      lookupK fs2 k = lookupK fs k)
    (hi : c2Inv mb fs) : c2Inv mb fs2 := by
  obtain ⟨h1, h2, h3, h4⟩ := hi
  refine ⟨?_, ?_, ?_, ?_⟩
  · rw [he _ (Or.inl rfl)]; exact h1
  · rw [he _ (Or.inr (Or.inl rfl))]; exact h2
  · rw [he _ (Or.inr (Or.inr (Or.inl rfl)))]; exact h3
  · intro pr hpr
    rw [he _ (Or.inr (Or.inr (Or.inr ⟨pr, hpr, Or.inl rfl⟩))),
      he _ (Or.inr (Or.inr (Or.inr ⟨pr, hpr, Or.inr rfl⟩)))]
    exact h4 pr hpr

theorem c2Other_ne (k2 k : Key) (hk : c2Other k2)
    (hkm : k = normKey (cdVersionFile c2cd) ∨ k = normKey (cdConfigInfoFile c2cd) ∨
      k = normKey (cdTrackedFile c2cd) ∨
      ∃ pr ∈ c2SteamPairs, k = normKey pr.1 ∨ k = normKey pr.2) : k ≠ k2 := by
  obtain ⟨hv, hc, hm, hs⟩ := hk
  rcases hkm with rfl | rfl | rfl | ⟨pr, hpr, hh⟩
  · exact hv
  · exact hc
  · exact hm
  · rcases hh with rfl | rfl
    · exact (hs pr hpr).1
    · exact (hs pr hpr).2

theorem c2Inv_fsSet_other (mb : List Nat) (fs : FS) (k2 : Key) (n : Node)
    (hk : c2Other k2) (hi : c2Inv mb fs) : c2Inv mb (fsSet fs k2 n) :=
  c2Inv_of_eq mb fs _ (fun k hkm => lookupK_fsSet_ne _ _ _ _ (c2Other_ne k2 k hk hkm)) hi

theorem c2Inv_fsDel_other (mb : List Nat) (fs : FS) (k2 : Key)
    (hk : c2Other k2) (hi : c2Inv mb fs) : c2Inv mb (fsDel fs k2) :=
  c2Inv_of_eq mb fs _ (fun k hkm => lookupK_fsDel_ne _ _ _ (c2Other_ne k2 k hk hkm)) hi

theorem c2Inv_makedirsTry (mb : List Nat) (fs : FS) (p : Str) (hi : c2Inv mb fs) :
    c2Inv mb (makedirsTry fs p) := by
  obtain ⟨h1, h2, h3, h4⟩ := hi
  refine ⟨makedirsTry_bound _ _ _ _ h1, makedirsTry_bound _ _ _ _ h2,
    makedirsTry_bound _ _ _ _ h3, ?_⟩
  intro pr hpr
  obtain ⟨hsrc, hdst⟩ := h4 pr hpr
  obtain ⟨b1, hb1⟩ := isFileNode_elim _ hsrc
  obtain ⟨b2, hb2⟩ := isFileNode_elim _ hdst
  rw [makedirsTry_bound _ _ _ _ hb1, makedirsTry_bound _ _ _ _ hb2]
  exact ⟨rfl, rfl⟩

theorem c2Inv_tryCopy_other (mb : List Nat) (fs : FS) (src dst : Str) (o fl : Bool) (fs2 : FS)
    (h : tryCopy fs src dst o fl = some fs2)
    (hk1 : c2Other (normKey dst)) (hk2 : c2Other (normKey (joinPath dst (basenameStr src))))
    (hi : c2Inv mb fs) : c2Inv mb fs2 :=
  c2Inv_of_eq mb fs fs2 (fun k hkm => tryCopy_lookup_ne fs src dst o fl fs2 k h
    (c2Other_ne _ k hk1 hkm) (c2Other_ne _ k hk2 hkm)) hi

theorem c2Inv_removeOp_other (mb : List Nat) (fs : FS) (p : Str) (fs2 : FS)
    (h : removeOp fs p = some fs2) (hk : c2Other (normKey p)) (hi : c2Inv mb fs) :
    c2Inv mb fs2 := by
  rw [removeOp_some _ _ _ h]
  exact c2Inv_fsDel_other mb fs _ hk hi

theorem c2Inv_symlinkOp_other (mb : List Nat) (fs : FS) (t lp : Str) (fs2 : FS)
    (h : symlinkOp fs t lp = some fs2) (hk : c2Other (normKey lp)) (hi : c2Inv mb fs) :
    c2Inv mb fs2 := by
  rw [symlinkOp_some _ _ _ _ h]
  exact c2Inv_fsSet_other mb fs _ _ hk hi

/-- `try_copy` onto a just-removed regular destination: a plain byte copy. -/
theorem tryCopy_file_to_removed (fs : FS) (src dst : Str) (sb : List Nat)
    (hsrc : lookupK fs (normKey src) = some (.file sb))
    (hdst : lookupK fs (normKey dst) = none) :
    tryCopy fs src dst false true = some (fsSet fs (normKey dst) (.file sb)) := by
  have hnd : isdirB fs dst = false :=
    isdirB_false_of_existsB_false fs dst (existsB_of_no_node fs dst hdst)
  have hdf : tryCopyDstfile fs src dst = dst := by
    unfold tryCopyDstfile
    rw [if_neg (by simp [hnd])]
  have hcl : tryCopyClear fs dst = fs := by
    unfold tryCopyClear
    rw [if_neg (by unfold lexistsB; rw [hdst]; simp)]
  simp only [tryCopy, hdf, hcl]
  rw [if_neg (by simp)]
  rw [openBytes_of_file fs src sb hsrc]

/-- One Steam support-file copy keeps `c2Inv`: with both sides present as
regular files, the step removes and re-copies the destination without
touching the manifest. -/
theorem c2SteamCopyOne_inv (mb : List Nat) (s s2 : St) (srcfile tgt : Str)
    (hpr : (srcfile, c2steamDst ++ tgt) ∈ c2SteamPairs)
    (h : steamCopyOne c2cd c2steamDst (S "drive_c/Program Files (x86)/Steam/") s srcfile tgt =
      some s2)
    (hi : c2Inv mb s.fs) : c2Inv mb s2.fs := by
  obtain ⟨hsrcF, hdstF⟩ := hi.2.2.2 _ hpr
  obtain ⟨sb, hsb⟩ := isFileNode_elim _ hsrcF
  obtain ⟨db, hdb⟩ := isFileNode_elim _ hdstF
  have hsdne : normKey srcfile ≠ normKey (c2steamDst ++ tgt) :=
    (by decide : ∀ pr ∈ c2SteamPairs, normKey pr.1 ≠ normKey pr.2) _ hpr
  simp only [steamCopyOne] at h
  split at h
  · split at h
    · have hrm : removeOp s.fs (c2steamDst ++ tgt) =
          some (fsDel s.fs (normKey (c2steamDst ++ tgt))) := by
        unfold removeOp
        rw [if_pos (by unfold lexistsB; rw [hdb]; rfl)]
      simp only [onFS, hrm, Option.map_some', Option.bind_eq_bind, Option.some_bind] at h
      have hsrc2 : lookupK (fsDel s.fs (normKey (c2steamDst ++ tgt))) (normKey srcfile) =
          some (.file sb) := by
        rw [lookupK_fsDel_ne _ _ _ hsdne]
        exact hsb
      have htc := tryCopy_file_to_removed (fsDel s.fs (normKey (c2steamDst ++ tgt)))
        srcfile (c2steamDst ++ tgt) sb hsrc2 (lookupK_fsDel_self _ _)
      simp only [htc, Option.map_some'] at h
      cases h
      show c2Inv mb (fsSet (fsDel s.fs (normKey (c2steamDst ++ tgt)))
        (normKey (c2steamDst ++ tgt)) (.file sb))
      obtain ⟨h1, h2, h3, h4⟩ := hi
      have hfr : ∀ (k : Key), k ≠ normKey (c2steamDst ++ tgt) →
          lookupK (fsSet (fsDel s.fs (normKey (c2steamDst ++ tgt)))
            (normKey (c2steamDst ++ tgt)) (.file sb)) k = lookupK s.fs k := by
        intro k hk
        rw [lookupK_fsSet_ne _ _ _ _ hk, lookupK_fsDel_ne _ _ _ hk]
      refine ⟨?_, ?_, ?_, ?_⟩
      · rw [hfr _ ((by decide : ∀ pr ∈ c2SteamPairs,
          normKey (cdVersionFile c2cd) ≠ normKey pr.2) _ hpr)]
        exact h1
      · rw [hfr _ ((by decide : ∀ pr ∈ c2SteamPairs,
          normKey (cdConfigInfoFile c2cd) ≠ normKey pr.2) _ hpr)]
        exact h2
      · rw [hfr _ ((by decide : ∀ pr ∈ c2SteamPairs,
          normKey (cdTrackedFile c2cd) ≠ normKey pr.2) _ hpr)]
        exact h3
      · intro pr2 hpr2
        obtain ⟨hs2, hd2⟩ := h4 pr2 hpr2
        constructor
        · obtain ⟨b1, hb1⟩ := isFileNode_elim _ hs2
          have hne : normKey pr2.1 ≠ normKey (c2steamDst ++ tgt) :=
            (by decide : ∀ pr ∈ c2SteamPairs, ∀ pr2 ∈ c2SteamPairs,
              normKey pr2.1 ≠ normKey pr.2) _ hpr _ hpr2
          rw [hfr _ hne, hb1]
          rfl
        · by_cases hdk : normKey pr2.2 = normKey (c2steamDst ++ tgt)
          · rw [hdk, lookupK_fsSet_self]
            rfl
          · obtain ⟨b2, hb2⟩ := isFileNode_elim _ hd2
            rw [hfr _ hdk, hb2]
            rfl
    · case _ hno => exact absurd (isfileB_of_file _ _ _ hdb) hno
  · cases h
    exact hi

/-- The whole Steam support-file section keeps `c2Inv`. -/
theorem c2Inv_steamStage (mb : List Nat) (s s2 : St)
    (h : steamCopyStage c2cd c2pn c2env s = some s2) (hi : c2Inv mb s.fs) :
    c2Inv mb s2.fs := by
  have hm : lookupK s.fs (normKey (cdTrackedFile c2cd)) = some (.file mb) := hi.2.2.1
  simp only [steamCopyStage, hm, Option.bind_eq_bind, Option.some_bind] at h
  cases hf1 : steamFiles1.foldlM (fun (s : St) (p : Str × Str) =>
      steamCopyOne c2cd (cdPfxDir c2cd ++ S "drive_c/Program Files (x86)/Steam/")
        (S "drive_c/Program Files (x86)/Steam/") s
        (c2env.steamdir ++ S "/legacycompat/" ++ p.1) p.2)
      { s with fs := makedirsTry s.fs (cdPfxDir c2cd ++ S "drive_c/Program Files (x86)/Steam/") } with
  | none => rw [hf1] at h; simp at h
  | some sA =>
      rw [hf1] at h
      simp only [Option.some_bind] at h
      have hA : c2Inv mb sA.fs := by
        refine foldlM_option_preserves _ _ _ _ hf1 (fun st => c2Inv mb st.fs) ?_
          (c2Inv_makedirsTry mb s.fs _ hi)
        intro x y p hp hg hP
        refine c2SteamCopyOne_inv mb x y _ p.2 ?_ hg hP
        exact List.mem_append.mpr (Or.inl (List.mem_map.mpr ⟨p, hp, rfl⟩))
      refine foldlM_option_preserves _ _ _ _ h (fun st => c2Inv mb st.fs) ?_ hA
      intro x y p hp hg hP
      refine c2SteamCopyOne_inv mb x y _ p.2 ?_ hg hP
      exact List.mem_append.mpr (Or.inr (List.mem_map.mpr ⟨p, hp, rfl⟩))

/-- `migrate_user_paths` keeps `c2Inv` (its writes stay inside the prefix
profile paths). -/
theorem c2Inv_migrate (mb : List Nat) (s s2 : St)
    (h : migrateUserPaths c2cd s = some s2) (hok : FSok s.fs) (hi : c2Inv mb s.fs) :
    c2Inv mb s2.fs := by
  unfold migrateUserPaths at h
  obtain ⟨h1, h2, h3, h4⟩ := hi
  have hshape : ∀ b ∈ migrateTable c2cd,
      (cdPfxDir c2cd ++ b.1 ≠ [] ∧ (cdPfxDir c2cd ++ b.1).getLast? ≠ some '/' ∧
        b.2.1 ≠ [] ∧ b.2.1.getLast? ≠ some '/') := by decide
  have hcv : ∀ b ∈ migrateTable c2cd,
      (normKey b.2.1).isPrefixOf (normKey (cdVersionFile c2cd)) = false ∧
      (normKey (cdPfxDir c2cd ++ b.1)).isPrefixOf (normKey (cdVersionFile c2cd)) = false ∧
      (normKey (cdPfxDir c2cd ++ b.1 ++ S " BACKUP")).isPrefixOf
        (normKey (cdVersionFile c2cd)) = false := by decide
  have hcc : ∀ b ∈ migrateTable c2cd,
      (normKey b.2.1).isPrefixOf (normKey (cdConfigInfoFile c2cd)) = false ∧
      (normKey (cdPfxDir c2cd ++ b.1)).isPrefixOf (normKey (cdConfigInfoFile c2cd)) = false ∧
      (normKey (cdPfxDir c2cd ++ b.1 ++ S " BACKUP")).isPrefixOf
        (normKey (cdConfigInfoFile c2cd)) = false := by decide
  have hcm : ∀ b ∈ migrateTable c2cd,
      (normKey b.2.1).isPrefixOf (normKey (cdTrackedFile c2cd)) = false ∧
      (normKey (cdPfxDir c2cd ++ b.1)).isPrefixOf (normKey (cdTrackedFile c2cd)) = false ∧
      (normKey (cdPfxDir c2cd ++ b.1 ++ S " BACKUP")).isPrefixOf
        (normKey (cdTrackedFile c2cd)) = false := by decide
  have hcs : ∀ pr ∈ c2SteamPairs, ∀ b ∈ migrateTable c2cd,
      ((normKey b.2.1).isPrefixOf (normKey pr.1) = false ∧
       (normKey (cdPfxDir c2cd ++ b.1)).isPrefixOf (normKey pr.1) = false ∧
       (normKey (cdPfxDir c2cd ++ b.1 ++ S " BACKUP")).isPrefixOf (normKey pr.1) = false) ∧
      ((normKey b.2.1).isPrefixOf (normKey pr.2) = false ∧
       (normKey (cdPfxDir c2cd ++ b.1)).isPrefixOf (normKey pr.2) = false ∧
       (normKey (cdPfxDir c2cd ++ b.1 ++ S " BACKUP")).isPrefixOf (normKey pr.2) = false) := by
    decide
  refine ⟨(migrateFold_preserves c2cd _ _ _
      (fun b hb => ⟨hshape b hb, (hcv b hb).1, (hcv b hb).2.1, (hcv b hb).2.2⟩)
      s s2 h hok h1).2,
    (migrateFold_preserves c2cd _ _ _
      (fun b hb => ⟨hshape b hb, (hcc b hb).1, (hcc b hb).2.1, (hcc b hb).2.2⟩)
      s s2 h hok h2).2,
    (migrateFold_preserves c2cd _ _ _
      (fun b hb => ⟨hshape b hb, (hcm b hb).1, (hcm b hb).2.1, (hcm b hb).2.2⟩)
      s s2 h hok h3).2, ?_⟩
  intro pr hpr
  obtain ⟨hs2, hd2⟩ := h4 pr hpr
  obtain ⟨b1, hb1⟩ := isFileNode_elim _ hs2
  obtain ⟨b2, hb2⟩ := isFileNode_elim _ hd2
  rw [(migrateFold_preserves c2cd _ _ _
      (fun b hb => ⟨hshape b hb, ((hcs pr hpr b hb).1).1, ((hcs pr hpr b hb).1).2.1,
        ((hcs pr hpr b hb).1).2.2⟩) s s2 h hok hb1).2,
    (migrateFold_preserves c2cd _ _ _
      (fun b hb => ⟨hshape b hb, ((hcs pr hpr b hb).2).1, ((hcs pr hpr b hb).2).2.1,
        ((hcs pr hpr b hb).2).2.2⟩) s s2 h hok hb2).2]
  exact ⟨rfl, rfl⟩

/-- `create_fonts_symlinks` keeps `c2Inv`. -/
theorem c2Inv_fonts (mb : List Nat) (s s2 : St)
    (h : createFontsSymlinks c2cd c2pn s = some s2) (hi : c2Inv mb s.fs) :
    c2Inv mb s2.fs := by
  simp only [createFontsSymlinks] at h
  cases hf : (fontsMap c2pn).foldlM (fun fs (p : Str × Str × Str) =>
      if lexistsB fs (joinPath (cdPfxDir c2cd ++ S "/drive_c/windows/Fonts") p.2.2) then
        if islinkB fs (joinPath (cdPfxDir c2cd ++ S "/drive_c/windows/Fonts") p.2.2) then
          (removeOp fs (joinPath (cdPfxDir c2cd ++ S "/drive_c/windows/Fonts") p.2.2)).bind
            (fun fs2 => symlinkOp fs2 (joinPath p.1 p.2.1)
              (joinPath (cdPfxDir c2cd ++ S "/drive_c/windows/Fonts") p.2.2))
        else some fs
      else symlinkOp fs (joinPath p.1 p.2.1)
        (joinPath (cdPfxDir c2cd ++ S "/drive_c/windows/Fonts") p.2.2))
      (makedirsTry s.fs (cdPfxDir c2cd ++ S "/drive_c/windows/Fonts")) with
  | none => rw [hf] at h; simp at h
  | some fsF =>
      rw [hf] at h
      simp only [Option.map_some'] at h
      cases h
      show c2Inv mb fsF
      have hkeys : ∀ p ∈ fontsMap c2pn,
          c2Other (normKey (joinPath (cdPfxDir c2cd ++ S "/drive_c/windows/Fonts") p.2.2)) := by
        decide
      refine foldlM_option_preserves _ _ _ _ hf (c2Inv mb) ?_
        (c2Inv_makedirsTry mb s.fs _ hi)
      intro x y p hp hg hP
      split at hg
      · split at hg
        · cases hrm : removeOp x (joinPath (cdPfxDir c2cd ++ S "/drive_c/windows/Fonts") p.2.2) with
          | none => rw [hrm] at hg; simp at hg
          | some fsD =>
              rw [hrm] at hg
              simp only [Option.some_bind] at hg
              exact c2Inv_symlinkOp_other mb fsD _ _ y hg (hkeys p hp)
                (c2Inv_removeOp_other mb x _ fsD hrm (hkeys p hp) hP)
        · cases hg
          exact hP
      · exact c2Inv_symlinkOp_other mb x _ _ y hg (hkeys p hp) hP

theorem c2Inv_onFS_tryCopy (mb : List Nat) (x y : St) (src dst : Str) (o fl : Bool)
    (h : onFS (fun fs => tryCopy fs src dst o fl) x = some y)
    (hk1 : c2Other (normKey dst)) (hk2 : c2Other (normKey (joinPath dst (basenameStr src))))
    (hi : c2Inv mb x.fs) : c2Inv mb y.fs := by
  unfold onFS at h
  rcases Option.map_eq_some'.mp h with ⟨fs2, ht, hy⟩
  rw [← hy]
  exact c2Inv_tryCopy_other mb x.fs src dst o fl fs2 ht hk1 hk2 hi

theorem c2Inv_onFS_removeOp (mb : List Nat) (x y : St) (p : Str)
    (h : onFS (fun fs => removeOp fs p) x = some y)
    (hk : c2Other (normKey p)) (hi : c2Inv mb x.fs) : c2Inv mb y.fs := by
  unfold onFS at h
  rcases Option.map_eq_some'.mp h with ⟨fs2, ht, hy⟩
  rw [← hy]
  exact c2Inv_removeOp_other mb x.fs p fs2 ht hk hi

theorem c2Inv_onFS_symlinkOp (mb : List Nat) (x y : St) (t lp : Str)
    (h : onFS (fun fs => symlinkOp fs t lp) x = some y)
    (hk : c2Other (normKey lp)) (hi : c2Inv mb x.fs) : c2Inv mb y.fs := by
  unfold onFS at h
  rcases Option.map_eq_some'.mp h with ⟨fs2, ht, hy⟩
  rw [← hy]
  exact c2Inv_symlinkOp_other mb x.fs t lp fs2 ht hk hi

/-- The NVAPI section keeps `c2Inv` (in the fixed environment it only ever
removes the previously copied NVAPI DLLs). -/
theorem c2Inv_nvapiStage (mb : List Nat) (s s2 : St)
    (h : nvapiStage c2cd c2pn c2env s = some s2) (hi : c2Inv mb s.fs) : c2Inv mb s2.fs := by
  unfold nvapiStage at h
  split at h
  · case _ hnv => exact absurd hnv (by decide)
  · simp only [Option.bind_eq_bind] at h
    split at h
    · rcases Option.bind_eq_some.mp h with ⟨z, hz, h⟩
      have hPz : c2Inv mb z.fs := c2Inv_onFS_removeOp mb _ _ _ hz (by decide) hi
      split at h
      · exact c2Inv_onFS_removeOp mb _ _ _ h (by decide) hPz
      · cases h
        exact hPz
    · simp only [Option.some_bind] at h
      split at h
      · exact c2Inv_onFS_removeOp mb _ _ _ h (by decide) hi
      · cases h
        exact hi

/-- The support-library tail of `setup_prefix` keeps `c2Inv`: every write
lands on a DLL or JSON destination under the prefix, away from the three
persisted files and the Steam pairs. -/
theorem c2Inv_tailCopies (mb : List Nat) (s s2 : St)
    (h : tailCopies c2cd c2pn c2env s = some s2) (hi : c2Inv mb s.fs) : c2Inv mb s2.fs := by
  simp only [tailCopies, Option.bind_eq_bind] at h
  rcases Option.bind_eq_some.mp h with ⟨s1, he, h⟩
  have hi1 : c2Inv mb s1.fs := c2Inv_onFS_tryCopy mb _ s1 _ _ _ _ he (by decide) (by decide)
    (c2Inv_makedirsTry mb s.fs _ hi)
  rcases Option.bind_eq_some.mp h with ⟨s2a, he2, h⟩
  have hi2 : c2Inv mb s2a.fs := c2Inv_onFS_tryCopy mb _ _ _ _ _ _ he2 (by decide) (by decide) hi1
  rcases Option.bind_eq_some.mp h with ⟨s3, he3, h⟩
  have hi3 : c2Inv mb s3.fs := c2Inv_onFS_tryCopy mb _ _ _ _ _ _ he3 (by decide) (by decide) hi2
  rcases Option.bind_eq_some.mp h with ⟨s4, he4, h⟩
  have hi4 : c2Inv mb s4.fs := c2Inv_onFS_tryCopy mb _ _ _ _ _ _ he4 (by decide) (by decide) hi3
  rcases Option.bind_eq_some.mp h with ⟨s5, he5, h⟩
  have hi5 : c2Inv mb s5.fs := c2Inv_onFS_tryCopy mb _ _ _ _ _ _ he5 (by decide) (by decide)
    (c2Inv_makedirsTry mb s4.fs _ hi4)
  rcases Option.bind_eq_some.mp h with ⟨s6, he6, h⟩
  have hi6 : c2Inv mb s6.fs := c2Inv_onFS_tryCopy mb _ _ _ _ _ _ he6 (by decide) (by decide) hi5
  rcases Option.bind_eq_some.mp h with ⟨s7, he7, h⟩
  have hi7 : c2Inv mb s7.fs := c2Inv_onFS_tryCopy mb _ _ _ _ _ _ he7 (by decide) (by decide) hi6
  rcases Option.bind_eq_some.mp h with ⟨s8, he8, h⟩
  have hi8 : c2Inv mb s8.fs := by
    refine foldlM_option_preserves _ _ _ _ he8 (fun st => c2Inv mb st.fs) ?_ hi7
    intro x y f hf hg hP
    simp only [Option.bind_eq_bind] at hg
    rcases Option.bind_eq_some.mp hg with ⟨z, hz, hg⟩
    have hPz : c2Inv mb z.fs := c2Inv_onFS_tryCopy mb _ _ _ _ _ _ hz
      ((by decide : ∀ f ∈ (if useWined3d c2env then
          [S "d3d11", S "d3d10", S "d3d10core", S "d3d10_1", S "d3d9"] else []) ++
          (if useDxvkDxgi c2env then [] else [S "dxgi"]),
        c2Other (normKey (cdPfxDir c2cd ++ S "drive_c/windows/system32/" ++ f ++ S ".dll")))
        f hf)
      ((by decide : ∀ f ∈ (if useWined3d c2env then
          [S "d3d11", S "d3d10", S "d3d10core", S "d3d10_1", S "d3d9"] else []) ++
          (if useDxvkDxgi c2env then [] else [S "dxgi"]),
        c2Other (normKey (joinPath (cdPfxDir c2cd ++ S "drive_c/windows/system32/" ++ f ++ S ".dll")
          (basenameStr (defaultPfxDir c2pn ++ S "drive_c/windows/system32/" ++ f ++ S ".dll")))))
        f hf) hP
    exact c2Inv_onFS_tryCopy mb _ _ _ _ _ _ hg
      ((by decide : ∀ f ∈ (if useWined3d c2env then
          [S "d3d11", S "d3d10", S "d3d10core", S "d3d10_1", S "d3d9"] else []) ++
          (if useDxvkDxgi c2env then [] else [S "dxgi"]),
        c2Other (normKey (cdPfxDir c2cd ++ S "drive_c/windows/syswow64/" ++ f ++ S ".dll")))
        f hf)
      ((by decide : ∀ f ∈ (if useWined3d c2env then
          [S "d3d11", S "d3d10", S "d3d10core", S "d3d10_1", S "d3d9"] else []) ++
          (if useDxvkDxgi c2env then [] else [S "dxgi"]),
        c2Other (normKey (joinPath (cdPfxDir c2cd ++ S "drive_c/windows/syswow64/" ++ f ++ S ".dll")
          (basenameStr (defaultPfxDir c2pn ++ S "drive_c/windows/syswow64/" ++ f ++ S ".dll")))))
        f hf) hPz
  rcases Option.bind_eq_some.mp h with ⟨s9, he9, h⟩
  have hi9 : c2Inv mb s9.fs := by
    refine foldlM_option_preserves _ _ _ _ he9 (fun st => c2Inv mb st.fs) ?_ hi8
    intro x y f hf hg hP
    simp only [Option.bind_eq_bind] at hg
    rcases Option.bind_eq_some.mp hg with ⟨z, hz, hg⟩
    have hPz : c2Inv mb z.fs := c2Inv_onFS_tryCopy mb _ _ _ _ _ _ hz
      ((by decide : ∀ f ∈ (if useWined3d c2env then [S "dxvk_config"]
          else [S "dxvk_config", S "d3d11", S "d3d10", S "d3d10core", S "d3d10_1", S "d3d9"]) ++
          (if useDxvkDxgi c2env then [S "dxgi"] else []),
        c2Other (normKey (cdPfxDir c2cd ++ S "drive_c/windows/system32/" ++ f ++ S ".dll")))
        f hf)
      ((by decide : ∀ f ∈ (if useWined3d c2env then [S "dxvk_config"]
          else [S "dxvk_config", S "d3d11", S "d3d10", S "d3d10core", S "d3d10_1", S "d3d9"]) ++
          (if useDxvkDxgi c2env then [S "dxgi"] else []),
        c2Other (normKey (joinPath (cdPfxDir c2cd ++ S "drive_c/windows/system32/" ++ f ++ S ".dll")
          (basenameStr (protonLib64Dir c2pn ++ S "wine/dxvk/" ++ f ++ S ".dll")))))
        f hf) hP
    rcases Option.bind_eq_some.mp hg with ⟨w, hw, hg⟩
    have hPw : c2Inv mb w.fs := c2Inv_onFS_tryCopy mb _ _ _ _ _ _ hw
      ((by decide : ∀ f ∈ (if useWined3d c2env then [S "dxvk_config"]
          else [S "dxvk_config", S "d3d11", S "d3d10", S "d3d10core", S "d3d10_1", S "d3d9"]) ++
          (if useDxvkDxgi c2env then [S "dxgi"] else []),
        c2Other (normKey (cdPfxDir c2cd ++ S "drive_c/windows/syswow64/" ++ f ++ S ".dll")))
        f hf)
      ((by decide : ∀ f ∈ (if useWined3d c2env then [S "dxvk_config"]
          else [S "dxvk_config", S "d3d11", S "d3d10", S "d3d10core", S "d3d10_1", S "d3d9"]) ++
          (if useDxvkDxgi c2env then [S "dxgi"] else []),
        c2Other (normKey (joinPath (cdPfxDir c2cd ++ S "drive_c/windows/syswow64/" ++ f ++ S ".dll")
          (basenameStr (protonLibDir c2pn ++ S "wine/dxvk/" ++ f ++ S ".dll")))))
        f hf) hPz
    cases hg
    exact hPw
  rcases Option.bind_eq_some.mp h with ⟨s10, he10, h⟩
  have hi10 : c2Inv mb s10.fs := c2Inv_nvapiStage mb s9 s10 he10 hi9
  rcases Option.bind_eq_some.mp h with ⟨s11, he11, h⟩
  have hi11 : c2Inv mb s11.fs := by
    unfold nvidiaStage at he11
    split at he11
    · case _ nd heq => exact absurd heq (by simp [c2env])
    · cases he11
      exact hi10
  rcases Option.bind_eq_some.mp h with ⟨s12, he12, h⟩
  have hi12 : c2Inv mb s12.fs :=
    c2Inv_onFS_tryCopy mb _ _ _ _ _ _ he12 (by decide) (by decide) hi11
  exact c2Inv_onFS_tryCopy mb _ _ _ _ _ _ h (by decide) (by decide) hi12

/-- The game-drive section keeps `c2Inv`. -/
theorem c2Inv_gamedrive (mb : List Nat) (s s2 : St)
    (h : gamedriveStage c2cd c2env s = some s2) (hi : c2Inv mb s.fs) : c2Inv mb s2.fs := by
  simp only [gamedriveStage] at h
  split at h
  · case _ hg => exact absurd hg (by decide)
  · split at h
    · exact c2Inv_onFS_removeOp mb _ _ _ h (by decide) hi
    · cases h
      exact hi

/-- The post-upgrade remainder of a second `setup_prefix` run: with the
recorded version current, the fingerprint matching, `user.reg` present and
the Steam files in place, the three persisted files come out with exactly
the bytes they went in with. -/
theorem c2Rest (mb : List Nat) (sM s2 : St)
    (hok : FSok sM.fs)
    (hu : isFileNode (lookupK sM.fs (normKey (cdPfxDir c2cd ++ S "/user.reg"))) = true)
    (hi : c2Inv mb sM.fs)
    (h : setupPrefixRest c2cd c2pn c2env (some currentPrefixVersion) sM = some s2) :
    lookupK s2.fs (normKey (cdTrackedFile c2cd)) = some (.file mb) ∧
    lookupK s2.fs (normKey (cdVersionFile c2cd)) = some (.file c2vbytes) ∧
    lookupK s2.fs (normKey (cdConfigInfoFile c2cd)) = some (.file c2cbytes) := by
  simp only [setupPrefixRest, Option.bind_eq_bind] at h
  obtain ⟨ub, hub⟩ := isFileNode_elim _ hu
  have hexu : existsB sM.fs (cdPfxDir c2cd ++ S "/user.reg") = true :=
    existsB_of_node _ _ _ (by intro t ht; cases ht) hub
  rcases Option.bind_eq_some.mp h with ⟨s0, hcp, h⟩
  have hi0 : c2Inv mb s0.fs := by
    unfold copyPfxIfNeeded at hcp
    rw [if_neg (by rw [hexu]; simp)] at hcp
    cases hcp
    exact hi
  have hok0 : FSok s0.fs := by
    unfold copyPfxIfNeeded at hcp
    rw [if_neg (by rw [hexu]; simp)] at hcp
    cases hcp
    exact hok
  rcases Option.bind_eq_some.mp h with ⟨sA, hmig, h⟩
  have hiA : c2Inv mb sA.fs := c2Inv_migrate mb s0 sA hmig hok0 hi0
  rcases Option.bind_eq_some.mp h with ⟨sB, hdc, h⟩
  have hiB : c2Inv mb sB.fs := by
    unfold dosdeviceLink at hdc
    split at hdc
    · exact c2Inv_onFS_symlinkOp mb _ _ _ _ hdc (by decide) hiA
    · cases hdc
      exact hiA
  rcases Option.bind_eq_some.mp h with ⟨sC, hdz, h⟩
  have hiC : c2Inv mb sC.fs := by
    unfold dosdeviceLink at hdz
    split at hdz
    · exact c2Inv_onFS_symlinkOp mb _ _ _ _ hdz (by decide) hiB
    · cases hdz
      exact hiB
  rcases Option.bind_eq_some.mp h with ⟨sD, hcfg, h⟩
  have hiD : c2Inv mb sD.fs := by
    simp only [configSync] at hcfg
    rw [if_neg ?hcnd] at hcfg
    case hcnd =>
      rintro (hne | hne)
      · exact hne rfl
      · apply hne
        rw [openBytes_of_file _ _ _ hiC.2.1]
        rfl
    cases hcfg
    exact hiC
  have hiD2 : c2Inv mb (writeFileBytes sD.fs (cdVersionFile c2cd)
      (strBytes (currentPrefixVersion ++ [ '\n' ]))) := by
    unfold writeFileBytes
    obtain ⟨d1, d2, d3, d4⟩ := hiD
    refine ⟨by rw [lookupK_fsSet_self]; rfl, ?_, ?_, ?_⟩
    · rw [lookupK_fsSet_ne _ _ _ _ (by decide)]
      exact d2
    · rw [lookupK_fsSet_ne _ _ _ _ (by decide)]
      exact d3
    · intro pr hpr
      obtain ⟨e1, e2⟩ := d4 pr hpr
      obtain ⟨b1, hb1⟩ := isFileNode_elim _ e1
      obtain ⟨b2, hb2⟩ := isFileNode_elim _ e2
      rw [lookupK_fsSet_ne _ _ _ _ ((by decide : ∀ pr ∈ c2SteamPairs,
          normKey pr.1 ≠ normKey (cdVersionFile c2cd)) _ hpr),
        lookupK_fsSet_ne _ _ _ _ ((by decide : ∀ pr ∈ c2SteamPairs,
          normKey pr.2 ≠ normKey (cdVersionFile c2cd)) _ hpr), hb1, hb2]
      exact ⟨rfl, rfl⟩
  rcases Option.bind_eq_some.mp h with ⟨sE, hfon, h⟩
  have hiE : c2Inv mb sE.fs := by
    refine c2Inv_fonts mb _ sE hfon ?_
    exact hiD2
  rcases Option.bind_eq_some.mp h with ⟨sF, hstm, h⟩
  have hiF : c2Inv mb sF.fs := c2Inv_steamStage mb sE sF hstm hiE
  rcases Option.bind_eq_some.mp h with ⟨sG, htl, h⟩
  have hiG : c2Inv mb sG.fs := c2Inv_tailCopies mb sF sG htl hiF
  have hiH : c2Inv mb s2.fs := c2Inv_gamedrive mb sG s2 h hiG
  exact ⟨hiH.2.2.1, hiH.1, hiH.2.1⟩

/-- Claim C2: running `setup_prefix` a second time on an instance carrying
the marks of an immediately preceding first run with the same template,
environment and feature configuration — version file stamped with the
current tag, config fingerprint matching, `user.reg` present, Steam support
files in place — leaves the tracked-files manifest, the version file and
the `config_info` fingerprint byte-identical to their first-run contents. -/
theorem claimC2_setup_prefix_idempotent (s1 s2 : St) (mb : List Nat)
    (hok : FSok s1.fs)
    (hu : isFileNode (lookupK s1.fs (normKey (cdPfxDir c2cd ++ S "/user.reg"))) = true)
    (hi : c2Inv mb s1.fs)
    (h : setupPrefix c2cd c2pn c2env s1 = some s2) :
    lookupK s2.fs (normKey (cdTrackedFile c2cd)) =
      lookupK s1.fs (normKey (cdTrackedFile c2cd)) ∧
    lookupK s2.fs (normKey (cdVersionFile c2cd)) =
      lookupK s1.fs (normKey (cdVersionFile c2cd)) ∧
    lookupK s2.fs (normKey (cdConfigInfoFile c2cd)) =
      lookupK s1.fs (normKey (cdConfigInfoFile c2cd)) := by
  obtain ⟨hv, hc, hm, hst⟩ := hi
  obtain ⟨ub, hub⟩ := isFileNode_elim _ hu
  have hfin : ∀ (sM : St), FSok sM.fs →
      isFileNode (lookupK sM.fs (normKey (cdPfxDir c2cd ++ S "/user.reg"))) = true →
      c2Inv mb sM.fs →
      setupPrefixRest c2cd c2pn c2env (some currentPrefixVersion) sM = some s2 →
      lookupK s2.fs (normKey (cdTrackedFile c2cd)) =
        lookupK s1.fs (normKey (cdTrackedFile c2cd)) ∧
      lookupK s2.fs (normKey (cdVersionFile c2cd)) =
        lookupK s1.fs (normKey (cdVersionFile c2cd)) ∧
      lookupK s2.fs (normKey (cdConfigInfoFile c2cd)) =
        lookupK s1.fs (normKey (cdConfigInfoFile c2cd)) := by
    intro sM h1 h2 h3 h4
    obtain ⟨r1, r2, r3⟩ := c2Rest mb sM s2 h1 h2 h3 h4
    exact ⟨r1.trans hm.symm, r2.trans hv.symm, r3.trans hc.symm⟩
  simp only [setupPrefix, Option.bind_eq_bind] at h
  have hex : existsB s1.fs (cdVersionFile c2cd) = true :=
    existsB_of_node _ _ _ (by intro t ht; cases ht) hv
  have hro : readOldVersion c2cd s1.fs = some (some currentPrefixVersion) := by
    unfold readOldVersion
    rw [if_pos hex, openBytes_of_file _ _ _ hv]
    decide
  rw [hro] at h
  simp only [Option.some_bind] at h
  rw [show upgradePfx c2cd c2pn c2env.randHex (some currentPrefixVersion) s1 = some s1 from
    by simp [upgradePfx]] at h
  simp only [Option.some_bind] at h
  split at h
  · split at h
    · refine hfin _ (FSok_makedirsTry _ _ (FSok_makedirsTry _ _ hok)) ?_
        (c2Inv_makedirsTry mb _ _ (c2Inv_makedirsTry mb _ _ ⟨hv, hc, hm, hst⟩)) h
      show isFileNode (lookupK (makedirsTry (makedirsTry s1.fs _) _) _) = true
      rw [makedirsTry_bound _ _ _ _ (makedirsTry_bound _ _ _ _ hub)]
      rfl
    · refine hfin _ (FSok_makedirsTry _ _ hok) ?_
        (c2Inv_makedirsTry mb _ _ ⟨hv, hc, hm, hst⟩) h
      show isFileNode (lookupK (makedirsTry s1.fs _) _) = true
      rw [makedirsTry_bound _ _ _ _ hub]
      rfl
  · exact hfin s1 hok hu ⟨hv, hc, hm, hst⟩ h

/-- Bytes of the regular file bound at a path (empty otherwise). -/
def fileBytesAt (fs : FS) (p : Str) : List Nat :=
  match lookupK fs (normKey p) with
  | some (.file bs) => bs
  | _ => []

/-- A fresh instance: an empty manifest (the `"a"`-mode open of
`setup_prefix` pre-creates it), the template prefix, and every support
library and Steam file the fixed environment copies. -/
def c2s0 : St :=
  { fs :=
      [(normKey (S "/c"), .dir),
       (normKey (S "/c/tracked_files"), .file []),
       (normKey (S "/p/files/share/default_pfx"), .dir),
       (normKey (S "/p/files/share/default_pfx/user.reg"), .file [1]),
       (normKey (S "/p/files/share/default_pfx/drive_c"), .dir),
       (normKey (S "/p/files/share/default_pfx/drive_c/openxr"), .dir),
       (normKey (S "/p/files/share/default_pfx/drive_c/openxr/wineopenxr64.json"), .file [2]),
       (normKey (S "/p/files/lib/wine/i386-windows/vrclient.dll"), .file [3]),
       (normKey (S "/p/files/lib64/wine/x86_64-windows/vrclient_x64.dll"), .file [3]),
       (normKey (S "/p/files/lib/wine/dxvk/openvr_api_dxvk.dll"), .file [3]),
       (normKey (S "/p/files/lib64/wine/dxvk/openvr_api_dxvk.dll"), .file [3]),
       (normKey (S "/p/files/lib64/vkd3d/libvkd3d-shader-1.dll"), .file [3]),
       (normKey (S "/p/files/lib/vkd3d/libvkd3d-shader-1.dll"), .file [3]),
       (normKey (S "/p/files/lib64/wine/dxvk/dxvk_config.dll"), .file [3]),
       (normKey (S "/p/files/lib/wine/dxvk/dxvk_config.dll"), .file [3]),
       (normKey (S "/p/files/lib64/wine/dxvk/d3d11.dll"), .file [3]),
       (normKey (S "/p/files/lib/wine/dxvk/d3d11.dll"), .file [3]),
       (normKey (S "/p/files/lib64/wine/dxvk/d3d10.dll"), .file [3]),
       (normKey (S "/p/files/lib/wine/dxvk/d3d10.dll"), .file [3]),
       (normKey (S "/p/files/lib64/wine/dxvk/d3d10core.dll"), .file [3]),
       (normKey (S "/p/files/lib/wine/dxvk/d3d10core.dll"), .file [3]),
       (normKey (S "/p/files/lib64/wine/dxvk/d3d10_1.dll"), .file [3]),
       (normKey (S "/p/files/lib/wine/dxvk/d3d10_1.dll"), .file [3]),
       (normKey (S "/p/files/lib64/wine/dxvk/d3d9.dll"), .file [3]),
       (normKey (S "/p/files/lib/wine/dxvk/d3d9.dll"), .file [3]),
       (normKey (S "/p/files/lib64/wine/dxvk/dxgi.dll"), .file [3]),
       (normKey (S "/p/files/lib/wine/dxvk/dxgi.dll"), .file [3]),
       (normKey (S "/p/files/lib64/wine/vkd3d-proton/d3d12.dll"), .file [3]),
       (normKey (S "/p/files/lib/wine/vkd3d-proton/d3d12.dll"), .file [3]),
       (normKey (S "/sd/legacycompat/steamclient.dll"), .file [4]),
       (normKey (S "/sd/legacycompat/steamclient64.dll"), .file [4]),
       (normKey (S "/sd/legacycompat/GameOverlayRenderer64.dll"), .file [4]),
       (normKey (S "/sd/legacycompat/SteamService.exe"), .file [4]),
       (normKey (S "/sd/legacycompat/Steam.dll"), .file [4]),
       (normKey (S "/p/steamclient64.dll"), .file [5]),
       (normKey (S "/p/GameOverlayRenderer.dll"), .file [5]),
       (normKey (S "/p/GameOverlayRenderer64.dll"), .file [5])],
    logs := [], trace := [], dllov := [] }

/-- The state after the first `setup_prefix` run on the fresh instance. -/
def c2s1 : St := (setupPrefix c2cd c2pn c2env c2s0).getD c2s0

instance FSokDecidable (fs : FS) : Decidable (FSok fs) := by
  unfold FSok cleanComp
  infer_instance

instance c2InvDecidable (mb : List Nat) (fs : FS) : Decidable (c2Inv mb fs) := by
  unfold c2Inv
  infer_instance

set_option maxRecDepth 100000 in
/-- Witness for claim C2 at the concrete double run. -/
theorem claimC2_witness :
    lookupK ((setupPrefix c2cd c2pn c2env c2s1).getD c2s1).fs (normKey (cdTrackedFile c2cd)) =
      lookupK c2s1.fs (normKey (cdTrackedFile c2cd)) ∧
    lookupK ((setupPrefix c2cd c2pn c2env c2s1).getD c2s1).fs (normKey (cdVersionFile c2cd)) =
      lookupK c2s1.fs (normKey (cdVersionFile c2cd)) ∧
    lookupK ((setupPrefix c2cd c2pn c2env c2s1).getD c2s1).fs
        (normKey (cdConfigInfoFile c2cd)) =
      lookupK c2s1.fs (normKey (cdConfigInfoFile c2cd)) :=
  claimC2_setup_prefix_idempotent c2s1 ((setupPrefix c2cd c2pn c2env c2s1).getD c2s1)
    (fileBytesAt c2s1.fs (cdTrackedFile c2cd))
    (by decide) (by decide) (by decide) (by decide)
